import Mathlib

/-!
Call-candidate resolution of the Chapel compiler.

A shallow embedding of the overload-resolution helpers of
`compiler/passes/functionResolution.cpp`: the range tests `fits_in_int` and
`fits_in_uint`, the coercion lattice `canCoerce`, the dispatch test
`canDispatch`, the actual-to-formal mapping `computeActualFormalMap`, the
feasibility filter `addCandidate`, the ranking `disambiguate_by_match` and
`disambiguate_by_scope`, the wrappers, `resolve_call`, and the folds of
`preFold` and `fold_param_for`; of `build_select` and `backPropagateInitsTypes`
of `compiler/AST/build.cpp`; and of `codegenAssign`, the sibling-list methods
of `Expr` and the traversal `getFirstExpr` / `getNextExpr` of
`compiler/AST/expr.cpp`.

Heap objects (`Type*`, `Symbol*`, `FnSymbol*`) are values that carry their
address in a field `ptr`; a pointer comparison of the source is a comparison
of the `ptr` fields.  The dispatch hierarchy of a type is finite and acyclic,
so a type carries its dispatch parents as values.
-/

set_option autoImplicit false

namespace Chpl

/-! ## Immediates -/

/-- Modelled from the spec: the tag `const_kind` of an `Immediate` (declared in
`ifa/num.h`, which is not part of the sources at hand).  A boolean immediate is
stored by the compiler under `NUM_KIND_UINT`. -/
inductive NumKind where
  | NUM_KIND_NONE
  | NUM_KIND_UINT
  | NUM_KIND_INT
  | NUM_KIND_FLOAT
  | NUM_KIND_COMPLEX
  | CONST_KIND_STRING
  deriving DecidableEq

/-- Modelled from the spec: the width index of an integer immediate or of an
integer type, `INT_SIZE_8` to `INT_SIZE_64` (declared in `ifa/num.h`). -/
inductive IntSize where
  | INT_SIZE_8
  | INT_SIZE_16
  | INT_SIZE_32
  | INT_SIZE_64
  deriving DecidableEq

/-- Modelled from the spec: the width index of a real or imaginary type. -/
inductive FloatSize where
  | FLOAT_SIZE_32
  | FLOAT_SIZE_64
  | FLOAT_SIZE_128
  deriving DecidableEq

/-- Modelled from the spec: the width index of a complex type. -/
inductive ComplexSize where
  | COMPLEX_SIZE_64
  | COMPLEX_SIZE_128
  | COMPLEX_SIZE_256
  deriving DecidableEq

/-- Number of bits of an integer width index. -/
def IntSize.bits : IntSize → Nat
  | .INT_SIZE_8 => 8
  | .INT_SIZE_16 => 16
  | .INT_SIZE_32 => 32
  | .INT_SIZE_64 => 64

/-- Number of bits of a real or imaginary width index. -/
def FloatSize.bits : FloatSize → Nat
  | .FLOAT_SIZE_32 => 32
  | .FLOAT_SIZE_64 => 64
  | .FLOAT_SIZE_128 => 128

/-- Number of bits of a complex width index. -/
def ComplexSize.bits : ComplexSize → Nat
  | .COMPLEX_SIZE_64 => 64
  | .COMPLEX_SIZE_128 => 128
  | .COMPLEX_SIZE_256 => 256

/-- Two's-complement reading of an integer at width `w`. -/
def wrapSigned (w : Nat) (x : Int) : Int :=
  (x + 2 ^ (w - 1)) % 2 ^ w - 2 ^ (w - 1)

/-- Modelled from the spec: an `Immediate`, restricted to what the range tests
read: its tag, its width index and its integer payload. -/
structure Immediate where
  const_kind : NumKind
  num_index : IntSize
  v : Int

/-- Modelled from the spec: `Immediate::int_value()`, the payload read at the
declared width and widened to `int64`. -/
def Immediate.int_value (imm : Immediate) : Int :=
  wrapSigned imm.num_index.bits imm.v

/-! ## The range tests (functionResolution.cpp, lines 86-129) -/

/-- The function `fits_in_int`; `none` is the `INT_FATAL` of the `default:` label. -/
def fits_in_int (width : Nat) (imm : Immediate) : Option Bool :=
  if imm.const_kind = .NUM_KIND_INT ∧ imm.num_index = .INT_SIZE_32 then
    let i : Int := imm.int_value
    if width = 8 then some (decide (i ≥ -128) && decide (i ≤ 127))
    else if width = 16 then some (decide (i ≥ -32768) && decide (i ≤ 32767))
    else if width = 32 then some (decide (i ≥ -2147483648) && decide (i ≤ 2147483647))
    else if width = 64 then
      some (decide (i ≥ -9223372036854775807 - 1) && decide (i ≤ 9223372036854775807))
    else none
  else some false

/-- The function `fits_in_uint`; `none` is the `INT_FATAL` of the `default:` label.
The cast `(uint64)i` is taken on a non-negative `i` and leaves it unchanged. -/
def fits_in_uint (width : Nat) (imm : Immediate) : Option Bool :=
  if imm.const_kind = .NUM_KIND_INT ∧ imm.num_index = .INT_SIZE_32 then
    let i : Int := imm.int_value
    if i < 0 then some false
    else
      let u : Int := i % 2 ^ 64
      if width = 8 then some (decide (u ≤ 255))
      else if width = 16 then some (decide (u ≤ 65535))
      else if width = 32 then some (decide (u ≤ 2147483647))
      else if width = 64 then some true
      else none
  else if imm.const_kind = .NUM_KIND_INT ∧ imm.num_index = .INT_SIZE_64 then
    let i : Int := imm.int_value
    if i > 0 ∧ width = 64 then some true else some false
  else some false

/-! ## Types and symbols -/

/-- The tag `classTag` of a `ClassType`. -/
inductive ClassTag where
  | CLASS_CLASS
  | CLASS_RECORD
  | CLASS_UNION
  deriving DecidableEq

/-- The dynamic class of a `Type` object, as far as `dynamic_cast` asks for it. -/
inductive TypeClass where
  | PrimitiveType
  | EnumType
  | ClassType (classTag : ClassTag)
  | UserType
  deriving DecidableEq

/-- A `Type` object: its address, its dynamic class, whether its symbol carries
the pragma "synchronization primitive", the flag `isGeneric`, the values of its
substitution map in order, its dispatch parents, its `scalarPromotionType` and
its `instantiatedFrom`. -/
inductive Ty where
  | mk (ptr : Nat) (astClass : TypeClass) (pragmaSync : Bool) (isGeneric : Bool)
      (substitutions : List Ty) (dispatchParents : List Ty)
      (scalarPromotionType : Option Ty) (instantiatedFrom : Option Ty)

namespace Ty

/-- Address of the type object. -/
def ptr : Ty → Nat
  | mk p _ _ _ _ _ _ _ => p

/-- Dynamic class of the type object. -/
def astClass : Ty → TypeClass
  | mk _ c _ _ _ _ _ _ => c

/-- Whether `symbol->hasPragma("synchronization primitive")` holds. -/
def pragmaSync : Ty → Bool
  | mk _ _ s _ _ _ _ _ => s

/-- The flag `isGeneric`. -/
def isGeneric : Ty → Bool
  | mk _ _ _ g _ _ _ _ => g

/-- The values of `substitutions`, entry 0 first. -/
def substitutions : Ty → List Ty
  | mk _ _ _ _ s _ _ _ => s

/-- The vector `dispatchParents`. -/
def dispatchParents : Ty → List Ty
  | mk _ _ _ _ _ ps _ _ => ps

/-- The field `scalarPromotionType`, `none` when null. -/
def scalarPromotionType : Ty → Option Ty
  | mk _ _ _ _ _ _ sp _ => sp

/-- The field `instantiatedFrom`, `none` when null. -/
def instantiatedFrom : Ty → Option Ty
  | mk _ _ _ _ _ _ _ i => i

/-- A primitive type object at address `p`: no pragma, not generic, no
substitutions, no dispatch parents, no promotion type. -/
def primitive (p : Nat) : Ty :=
  mk p .PrimitiveType false false [] [] none none

end Ty

/-- Pointer equality of two type objects. -/
def Ty.same (a b : Ty) : Bool :=
  a.ptr == b.ptr

/-- Modelled from the spec: the global `dtBool`. -/
def dtBool : Ty := Ty.primitive 1

/-- Modelled from the spec: the global `dtString`. -/
def dtString : Ty := Ty.primitive 2

/-- Modelled from the spec: the global `dtNil`, the type of `nil`. -/
def dtNil : Ty := Ty.primitive 3

/-- Modelled from the spec: the global `dtObject`, the root class. -/
def dtObject : Ty :=
  Ty.mk 4 (.ClassType .CLASS_CLASS) false false [] [] none none

/-- Modelled from the spec: the global `dtSetterToken`. -/
def dtSetterToken : Ty := Ty.primitive 5

/-- Modelled from the spec: the global `dtMethodToken`. -/
def dtMethodToken : Ty := Ty.primitive 6

/-- Modelled from the spec: the fully generic marker `dtAny`. -/
def dtAny : Ty := Ty.mk 7 .PrimitiveType false true [] [] none none

/-- Modelled from the spec: the integral-family generic marker `dtIntegral`. -/
def dtIntegral : Ty := Ty.mk 8 .PrimitiveType false true [] [] none none

/-- Modelled from the spec: the numeric-family generic marker `dtNumeric`. -/
def dtNumeric : Ty := Ty.mk 9 .PrimitiveType false true [] [] none none

/-- Modelled from the spec: the global `dtUnknown`. -/
def dtUnknown : Ty := Ty.primitive 60

/-- Modelled from the spec: the global `dtVoid`. -/
def dtVoid : Ty := Ty.primitive 61

/-- Modelled from the spec: the table `dtInt[]` of signed integer types. -/
def dtInt : IntSize → Ty
  | .INT_SIZE_8 => Ty.primitive 10
  | .INT_SIZE_16 => Ty.primitive 11
  | .INT_SIZE_32 => Ty.primitive 12
  | .INT_SIZE_64 => Ty.primitive 13

/-- Modelled from the spec: the table `dtUInt[]` of unsigned integer types. -/
def dtUInt : IntSize → Ty
  | .INT_SIZE_8 => Ty.primitive 20
  | .INT_SIZE_16 => Ty.primitive 21
  | .INT_SIZE_32 => Ty.primitive 22
  | .INT_SIZE_64 => Ty.primitive 23

/-- Modelled from the spec: the table `dtReal[]` of real types. -/
def dtReal : FloatSize → Ty
  | .FLOAT_SIZE_32 => Ty.primitive 30
  | .FLOAT_SIZE_64 => Ty.primitive 31
  | .FLOAT_SIZE_128 => Ty.primitive 32

/-- Modelled from the spec: the table `dtImag[]` of imaginary types. -/
def dtImag : FloatSize → Ty
  | .FLOAT_SIZE_32 => Ty.primitive 40
  | .FLOAT_SIZE_64 => Ty.primitive 41
  | .FLOAT_SIZE_128 => Ty.primitive 42

/-- Modelled from the spec: the table `dtComplex[]` of complex types. -/
def dtComplex : ComplexSize → Ty
  | .COMPLEX_SIZE_64 => Ty.primitive 50
  | .COMPLEX_SIZE_128 => Ty.primitive 51
  | .COMPLEX_SIZE_256 => Ty.primitive 52

/-- Modelled from the spec: `is_int_type`, true of the four entries of `dtInt[]`. -/
def is_int_type (t : Ty) : Bool :=
  t.same (dtInt .INT_SIZE_8) || t.same (dtInt .INT_SIZE_16) ||
  t.same (dtInt .INT_SIZE_32) || t.same (dtInt .INT_SIZE_64)

/-- Modelled from the spec: `is_uint_type`, true of the four entries of `dtUInt[]`. -/
def is_uint_type (t : Ty) : Bool :=
  t.same (dtUInt .INT_SIZE_8) || t.same (dtUInt .INT_SIZE_16) ||
  t.same (dtUInt .INT_SIZE_32) || t.same (dtUInt .INT_SIZE_64)

/-- Modelled from the spec: `is_real_type`, true of the entries of `dtReal[]`. -/
def is_real_type (t : Ty) : Bool :=
  t.same (dtReal .FLOAT_SIZE_32) || t.same (dtReal .FLOAT_SIZE_64) ||
  t.same (dtReal .FLOAT_SIZE_128)

/-- Modelled from the spec: `is_imag_type`, true of the entries of `dtImag[]`. -/
def is_imag_type (t : Ty) : Bool :=
  t.same (dtImag .FLOAT_SIZE_32) || t.same (dtImag .FLOAT_SIZE_64) ||
  t.same (dtImag .FLOAT_SIZE_128)

/-- Modelled from the spec: `is_complex_type`, true of the entries of `dtComplex[]`. -/
def is_complex_type (t : Ty) : Bool :=
  t.same (dtComplex .COMPLEX_SIZE_64) || t.same (dtComplex .COMPLEX_SIZE_128) ||
  t.same (dtComplex .COMPLEX_SIZE_256)

/-- Modelled from the spec: `get_width`, the bit width of a numeric type.  On any
other type the compiler raises an internal error; the value is 0 there, and
every use below stands behind an `is_*_type` test of the same type. -/
def get_width (t : Ty) : Nat :=
  if t.same (dtInt .INT_SIZE_8) || t.same (dtUInt .INT_SIZE_8) then 8
  else if t.same (dtInt .INT_SIZE_16) || t.same (dtUInt .INT_SIZE_16) then 16
  else if t.same (dtInt .INT_SIZE_32) || t.same (dtUInt .INT_SIZE_32) ||
      t.same (dtReal .FLOAT_SIZE_32) || t.same (dtImag .FLOAT_SIZE_32) then 32
  else if t.same (dtInt .INT_SIZE_64) || t.same (dtUInt .INT_SIZE_64) ||
      t.same (dtReal .FLOAT_SIZE_64) || t.same (dtImag .FLOAT_SIZE_64) ||
      t.same (dtComplex .COMPLEX_SIZE_64) then 64
  else if t.same (dtReal .FLOAT_SIZE_128) || t.same (dtImag .FLOAT_SIZE_128) ||
      t.same (dtComplex .COMPLEX_SIZE_128) then 128
  else if t.same (dtComplex .COMPLEX_SIZE_256) then 256
  else 0

/-- A `Symbol` passed as `actualParam`: whether it is a `VarSymbol`, its
`immediate` (null for a symbol that is no literal) and its flag `isTypeVariable`. -/
structure Symbol where
  isVarSymbol : Bool
  immediate : Option Immediate
  isTypeVariable : Bool

/-- The `VarSymbol` of an integer literal of the given width and value. -/
def intLiteral (size : IntSize) (v : Int) : Symbol :=
  { isVarSymbol := true
    immediate := some { const_kind := .NUM_KIND_INT, num_index := size, v := v }
    isTypeVariable := false }

/-- An `ArgSymbol`, a formal of a function: its address, its name, its `type`,
the type that `resolve_type_expr` gives for `defPoint->exprType` (`none` when
that expression is null), the flag `isTypeVariable`, whether `defaultExpr` and
`variableExpr` are non-null, the flag `instantiatedParam` and the field
`instantiatedFrom`. -/
structure ArgSymbol where
  ptr : Nat
  name : String
  type : Ty
  exprType : Option Ty
  isTypeVariable : Bool
  hasDefaultExpr : Bool
  hasVariableExpr : Bool
  instantiatedParam : Bool
  instantiatedFrom : Option Ty

/-- A `FnSymbol`: its address, its name, the flag `isGeneric`, its formals in
declaration order, the flag `noParens` and the return type `retType`. -/
structure FnSymbol where
  ptr : Nat
  name : String
  isGeneric : Bool
  formals : List ArgSymbol
  noParens : Bool := false
  retType : Ty := dtUnknown

/-! ## Coercion and dispatch (functionResolution.cpp, lines 150-257) -/

/-- The test `dynamic_cast<VarSymbol*>(actualParam)` followed by `var->immediate`:
the immediate of a literal actual. -/
def literalOf (actualParam : Option Symbol) : Option Immediate :=
  match actualParam with
  | none => none
  | some var => if var.isVarSymbol then var.immediate else none

/-- The rules of `canCoerce` below its test of the pragma "synchronization
primitive" (lines 163-223): one disjunct per `return true`. -/
def coercionRules (actualType : Ty) (actualParam : Option Symbol) (formalType : Ty) : Bool :=
  (is_int_type formalType && actualType.astClass == .EnumType) ||
  (is_int_type formalType &&
    (actualType.same dtBool ||
     (is_int_type actualType && decide (get_width actualType < get_width formalType)) ||
     (is_uint_type actualType && decide (get_width actualType < get_width formalType)) ||
     (decide (get_width formalType < 64) &&
       (match literalOf actualParam with
        | some imm => fits_in_int (get_width formalType) imm == some true
        | none => false)))) ||
  (is_uint_type formalType &&
    (actualType.same dtBool ||
     (is_uint_type actualType && decide (get_width actualType < get_width formalType)) ||
     (match literalOf actualParam with
      | some imm => fits_in_uint (get_width formalType) imm == some true
      | none => false))) ||
  (is_real_type formalType &&
    (is_int_type actualType ||
     is_uint_type actualType ||
     (is_real_type actualType && decide (get_width actualType < get_width formalType)))) ||
  (is_complex_type formalType &&
    (is_int_type actualType ||
     is_uint_type actualType ||
     (is_real_type actualType && decide (get_width actualType ≤ get_width formalType / 2)) ||
     (is_imag_type actualType && decide (get_width actualType ≤ get_width formalType / 2)) ||
     (is_complex_type actualType && decide (get_width actualType < get_width formalType)))) ||
  (formalType.same dtString &&
    (is_int_type actualType || is_uint_type actualType ||
     is_real_type actualType || is_imag_type actualType ||
     is_complex_type actualType ||
     actualType.same dtBool))

/-- The test `fn && strcmp(fn->name, "=")`: a function is given and it is not
the assignment operator. -/
def notAssign (fn : Option FnSymbol) : Bool :=
  match fn with
  | none => false
  | some f => f.name != "="

mutual

/-- The function `canDispatch`.  The first component is the returned value, the
second what the call leaves in `*require_scalar_promotion`.  The call
`canCoerce(actualType, actualParam, formalType)` is written out in place (its
pragma test, then `coercionRules`) so that every recursive call is on a part
of `actualType`; `canDispatch_eq` states the body with `canCoerce`. -/
def canDispatch : Ty → Option Symbol → Ty → Option FnSymbol → Bool × Bool
  | .mk p c sync gen subs parents promo inst, actualParam, formalType, fn =>
    if (Ty.mk p c sync gen subs parents promo inst).same formalType then (true, false)
    else if (Ty.mk p c sync gen subs parents promo inst).same dtNil &&
        formalType.same dtObject then (true, false)
    else if (Ty.mk p c sync gen subs parents promo inst).same dtNil &&
        formalType.astClass == .ClassType .CLASS_CLASS then (true, false)
    else if (if sync then (if gen then false else canDispatchBase subs actualParam formalType)
        else coercionRules (Ty.mk p c sync gen subs parents promo inst) actualParam formalType)
      then (true, false)
    else if canDispatchParents parents actualParam formalType fn then (true, false)
    else if notAssign fn &&
        (match promo with
         | some sp => (canDispatch sp actualParam formalType fn).1
         | none => false)
      then (true, true)
    else (false, false)

/-- The call `canDispatch(base_type, actualParam, formalType)` of `canCoerce` on
`substitutions.v[0].value`, with no function given; an empty substitution map
gives no base type and no coercion. -/
def canDispatchBase : List Ty → Option Symbol → Ty → Bool
  | [], _, _ => false
  | base_type :: _, actualParam, formalType =>
    (canDispatch base_type actualParam formalType none).1

/-- The loop of `canDispatch` over `actualType->dispatchParents`. -/
def canDispatchParents : List Ty → Option Symbol → Ty → Option FnSymbol → Bool
  | [], _, _, _ => false
  | parent :: rest, actualParam, formalType, fn =>
    (parent.same formalType || (canDispatch parent actualParam formalType fn).1) ||
      canDispatchParents rest actualParam formalType fn

end

/-- The function `canCoerce`. -/
def canCoerce (actualType : Ty) (actualParam : Option Symbol) (formalType : Ty) : Bool :=
  if actualType.pragmaSync then
    if actualType.isGeneric then false
    else
      match actualType.substitutions with
      | base_type :: _ => (canDispatch base_type actualParam formalType none).1
      | [] => false
  else coercionRules actualType actualParam formalType

/-! ## The actual-to-formal mapping (functionResolution.cpp, lines 277-342) -/

/-- One actual of a call: entry `i` of the vectors `actual_types`,
`actual_params` and `actual_names`, which `computeActuals` fills in lockstep.
The type is never null; `param` is the symbol of a `SymExpr` actual and `name`
the keyword of a named actual. -/
structure Actual where
  type : Ty
  param : Option Symbol
  name : Option String

/-- The three vectors that `computeActualFormalMap` fills: per formal the type
and the symbol of the actual bound to it, per actual the formal it is bound
to; `none` is the null pointer. -/
structure ActualFormalMap where
  formal_actuals : List (Option Ty)
  formal_params : List (Option Symbol)
  actual_formals : List (Option ArgSymbol)

/-- The three assignments `actual_formals->v[i] = formal`,
`formal_actuals->v[j] = actual_types->v[i]` and
`formal_params->v[j] = actual_params->v[i]`. -/
def ActualFormalMap.assign (m : ActualFormalMap) (i j : Nat) (formal : ArgSymbol)
    (a : Actual) : ActualFormalMap :=
  { actual_formals := m.actual_formals.set i (some formal)
    formal_actuals := m.formal_actuals.set j (some a.type)
    formal_params := m.formal_params.set j a.param }

/-- The test of lines 304-307 and 329-332 on a formal and the type of an actual. -/
def setterTokenMismatch (formal : ArgSymbol) (actual_type : Ty) : Bool :=
  (formal.type.same dtSetterToken && !actual_type.same dtSetterToken) ||
  (!formal.type.same dtSetterToken && actual_type.same dtSetterToken)

/-- How a loop body was left: by a `return` of the function with the given
value, or by falling through to the next iteration. -/
inductive Flow where
  | returned (value : Bool) (m : ActualFormalMap)
  | continues (m : ActualFormalMap)

/-- The inner `for_formals` loop of lines 297-313 for the named actual `i` with
name `n`, at the formal of index `j`; running off the end is `!match`. -/
def namedFormalLoop (a : Actual) (i : Nat) (n : String) :
    List ArgSymbol → Nat → ActualFormalMap → Flow
  | [], _, m => .returned false m
  | formal :: rest, j, m =>
    if n = formal.name then
      if setterTokenMismatch formal a.type then .returned false (m.assign i j formal a)
      else .continues (m.assign i j formal a)
    else namedFormalLoop a i n rest (j + 1) m

/-- The inner `for_formals` loop of lines 320-338 for the positional actual `i`,
at the formal of index `j`; running off the end is `!match`. -/
def positionalFormalLoop (fn : FnSymbol) (a : Actual) (i : Nat) :
    List ArgSymbol → Nat → ActualFormalMap → Flow
  | [], _, m => if !fn.isGeneric then .returned false m else .continues m
  | formal :: rest, j, m =>
    if formal.hasVariableExpr then .returned fn.isGeneric m
    else if (m.formal_actuals.getD j none).isNone then
      if setterTokenMismatch formal a.type then .returned false (m.assign i j formal a)
      else .continues (m.assign i j formal a)
    else positionalFormalLoop fn a i rest (j + 1) m

/-- The loop of lines 293-315 over the actuals, from actual `i` on. -/
def namedActualsLoop (fn : FnSymbol) : List Actual → Nat → ActualFormalMap → Flow
  | [], _, m => .continues m
  | a :: rest, i, m =>
    match a.name with
    | some n =>
      match namedFormalLoop a i n fn.formals 0 m with
      | .returned value m1 => .returned value m1
      | .continues m1 => namedActualsLoop fn rest (i + 1) m1
    | none => namedActualsLoop fn rest (i + 1) m

/-- The loop of lines 316-340 over the actuals, from actual `i` on. -/
def positionalActualsLoop (fn : FnSymbol) : List Actual → Nat → ActualFormalMap → Flow
  | [], _, m => .continues m
  | a :: rest, i, m =>
    match a.name with
    | none =>
      match positionalFormalLoop fn a i fn.formals 0 m with
      | .returned value m1 => .returned value m1
      | .continues m1 => positionalActualsLoop fn rest (i + 1) m1
    | some _ => positionalActualsLoop fn rest (i + 1) m

/-- The function `computeActualFormalMap`, called as `addCandidate` calls it:
on empty vectors, with `num_actuals` the number of actuals and `num_formals`
the number of formals.  The result is the returned value and the vectors as
the call leaves them. -/
def computeActualFormalMap (fn : FnSymbol) (actuals : List Actual) :
    Bool × ActualFormalMap :=
  let m0 : ActualFormalMap :=
    { formal_actuals := List.replicate fn.formals.length none
      formal_params := List.replicate fn.formals.length none
      actual_formals := List.replicate actuals.length none }
  match namedActualsLoop fn actuals 0 m0 with
  | .returned value m => (value, m)
  | .continues m1 =>
    match positionalActualsLoop fn actuals 0 m1 with
    | .returned value m => (value, m)
    | .continues m2 => (true, m2)

/-! ### The mapping in the words of the specification -/

/-- A setter-token type is paired with a non-setter-token type. -/
def specSetterClash (formalType actualType : Ty) : Bool :=
  formalType.same dtSetterToken != actualType.same dtSetterToken

/-- The state of the specified binding: the map built so far and the indices
of the formals already bound. -/
structure SpecBinding where
  map : ActualFormalMap
  bound : List Nat

/-- Bind actual `i` to formal `j`; a clash of setter token and other type is a
failure. -/
def SpecBinding.bind (b : SpecBinding) (i : Nat) (a : Actual) (j : Nat)
    (formal : ArgSymbol) : Option SpecBinding :=
  if specSetterClash formal.type a.type then none
  else some { map := b.map.assign i j formal a, bound := j :: b.bound }

/-- Named actuals are matched to same-named formals: a named actual is bound to
the formal of its name and fails when no formal has that name; a positional
actual is left for later. -/
def specBindNamed (fn : FnSymbol) (b : SpecBinding) (ia : Nat × Actual) :
    Option SpecBinding :=
  match ia.2.name with
  | none => some b
  | some n =>
    match fn.formals.enum.find? (fun jf => jf.2.name == n) with
    | none => none
    | some jf => b.bind ia.1 ia.2 jf.1 jf.2

/-- Remaining positional actuals fill remaining formals in order: a positional
actual is bound to the first formal, in declaration order, not yet bound, and
fails when every formal is bound. -/
def specBindPositional (fn : FnSymbol) (b : SpecBinding) (ia : Nat × Actual) :
    Option SpecBinding :=
  match ia.2.name with
  | some _ => some b
  | none =>
    match fn.formals.enum.find? (fun jf => !b.bound.contains jf.1) with
    | none => none
    | some jf => b.bind ia.1 ia.2 jf.1 jf.2

/-- The specified mapping: all named actuals first, then the positional ones
in order; `none` is the reported failure. -/
def specActualFormalMap (fn : FnSymbol) (actuals : List Actual) : Option ActualFormalMap :=
  let start : SpecBinding :=
    { map :=
        { formal_actuals := List.replicate fn.formals.length none
          formal_params := List.replicate fn.formals.length none
          actual_formals := List.replicate actuals.length none }
      bound := [] }
  ((actuals.enum.foldlM (specBindNamed fn) start).bind
    (fun b => actuals.enum.foldlM (specBindPositional fn) b)).map (fun b => b.map)

/-! ## The feasibility filter (functionResolution.cpp, lines 451-527) -/

/-- The steps of `addCandidate` that rewrite the syntax tree with code outside
these sources: the expansion of a function that has a variadic formal (copy of
the function, `update_symbols`, `normalize`, the cache `varArgsCache`), and
the instantiation of a generic function for a mapping (`computeGenericSubs`,
`isPartialInstantiation`, `instantiate`), `none` when no instance is made. -/
structure ResolutionOracle where
  expandVariadic : FnSymbol → Nat → Option FnSymbol
  instantiateGeneric : FnSymbol → ActualFormalMap → Option FnSymbol

/-- The function `expandVarArgs`: on a function none of whose formals has a
`variableExpr` the loop body does nothing and the function itself is returned;
`none` is the returned null pointer. -/
def expandVarArgs (env : ResolutionOracle) (fn : FnSymbol) (numActuals : Nat) :
    Option FnSymbol :=
  if fn.formals.all (fun arg => !arg.hasVariableExpr) then some fn
  else env.expandVariadic fn numActuals

/-- The loop body of `resolveFormals` on one formal: a formal with a type
expression takes the type resolved from it, and the expression is removed. -/
def resolveFormal (formal : ArgSymbol) : ArgSymbol :=
  match formal.exprType with
  | some t => { formal with type := t, exprType := none }
  | none => formal

/-- The function `resolveFormals`, as far as the formals go.  The set `done`
only saves work: a second pass finds no type expression left. -/
def resolveFormals (fn : FnSymbol) : FnSymbol :=
  if !fn.isGeneric then { fn with formals := fn.formals.map resolveFormal } else fn

/-- The vectors `candidateFns` and `candidateActualFormals`; an entry of the
first is `none` once `disambiguate_by_scope` has cleared it. -/
structure Candidates where
  candidateFns : List (Option FnSymbol)
  candidateActualFormals : List (List (Option ArgSymbol))

/-- The two `add` calls of lines 525-526. -/
def Candidates.add (cands : Candidates) (fn : FnSymbol)
    (actual_formals : List (Option ArgSymbol)) : Candidates :=
  { candidateFns := cands.candidateFns ++ [some fn]
    candidateActualFormals := cands.candidateActualFormals ++ [actual_formals] }

/-- The comparison `formal_actuals.v[j] != formal->type` of line 503; a null
entry differs from every type. -/
def differsFrom (formal_actual : Option Ty) (formalType : Ty) : Bool :=
  match formal_actual with
  | some t => !t.same formalType
  | none => true

/-- The loop of lines 498-524 from the formal of index `j` on: false when one
of its `return` statements is reached, true when it runs to the end. -/
def feasibleLoop (fn : FnSymbol) (m : ActualFormalMap) : List ArgSymbol → Nat → Bool
  | [], _ => true
  | formal :: rest, j =>
    if fn.name = "=" ∧ j = 0 ∧ differsFrom (m.formal_actuals.getD j none) formal.type = true
    then false
    else if (match m.formal_actuals.getD j none with
        | some t => !(canDispatch t (m.formal_params.getD j none) formal.type (some fn)).1
        | none => false)
    then false
    else if (match m.formal_params.getD j none with
        | some s => s.isTypeVariable && !formal.isTypeVariable
        | none => false)
    then false
    else if (m.formal_actuals.getD j none).isNone && !formal.hasDefaultExpr then false
    else feasibleLoop fn m rest (j + 1)

/-- The function `addCandidate`: the candidate vectors after the call.  The
first argument bounds the chain of instantiations of generic functions that
the recursive call follows; `none` is a chain longer than that.  A function
that is not generic needs no recursive call. -/
def addCandidate (env : ResolutionOracle) :
    Nat → Candidates → FnSymbol → List Actual → Option Candidates
  | fuel, cands, visibleFn, actuals =>
    match expandVarArgs env visibleFn actuals.length with
    | none => some cands
    | some fn =>
      match computeActualFormalMap fn actuals with
      | (false, _) => some cands
      | (true, m) =>
        if fn.isGeneric then
          match env.instantiateGeneric fn m with
          | none => some cands
          | some inst_fn =>
            match fuel with
            | 0 => none
            | fuel + 1 => addCandidate env fuel cands inst_fn actuals
        else
          if feasibleLoop (resolveFormals fn) m (resolveFormals fn).formals 0 then
            some (cands.add (resolveFormals fn) (m.actual_formals.map (Option.map resolveFormal)))
          else some cands

/-! ## The promotion wrapper (functionResolution.cpp, lines 611-636) -/

/-- The loop of `build_promotion_wrapper` over the formals and the actuals at
the same positions: the entries put into `promoted_subs`. -/
def promotedSubs (fn : FnSymbol) : List ArgSymbol → List Actual → List (ArgSymbol × Ty)
  | formal :: formals, a :: actuals =>
    if (canDispatch a.type a.param formal.type (some fn)).1 &&
        (canDispatch a.type a.param formal.type (some fn)).2
    then (formal, a.type) :: promotedSubs fn formals actuals
    else promotedSubs fn formals actuals
  | _, _ => []

/-- The function `build_promotion_wrapper`; the method `FnSymbol::promotion_wrapper`,
which is not part of these sources, is the first argument. -/
def build_promotion_wrapper
    (promotion_wrapper : FnSymbol → List (ArgSymbol × Ty) → Bool → FnSymbol)
    (fn : FnSymbol) (actuals : List Actual) (isSquare : Bool) : FnSymbol :=
  if fn.name = "=" then fn
  else if (promotedSubs fn fn.formals actuals).isEmpty then fn
  else promotion_wrapper fn (promotedSubs fn fn.formals actuals) isSquare

mutual

/-- The type with every `scalarPromotionType` cleared, in the type itself, in
its substitutions and in its dispatch parents; addresses stay. -/
def Ty.erasePromotion : Ty → Ty
  | .mk p c sync gen subs parents _ inst =>
    .mk p c sync gen (Ty.erasePromotionList subs) (Ty.erasePromotionList parents) none inst

/-- Clears every `scalarPromotionType` in a list of types. -/
def Ty.erasePromotionList : List Ty → List Ty
  | [] => []
  | t :: ts => Ty.erasePromotion t :: Ty.erasePromotionList ts

end

/-- The type with its own `scalarPromotionType` cleared. -/
def Ty.withoutPromotion : Ty → Ty
  | .mk p c sync gen subs parents _ inst => .mk p c sync gen subs parents none inst

/-! ## Example functions and calls -/

/-- A formal with the given address, name and type: no type expression, no
default, not variadic, no type variable. -/
def plainFormal (ptr : Nat) (name : String) (type : Ty) : ArgSymbol :=
  { ptr := ptr, name := name, type := type, exprType := none, isTypeVariable := false
    hasDefaultExpr := false, hasVariableExpr := false, instantiatedParam := false
    instantiatedFrom := none }

/-- The symbol of a variable: no literal and no type. -/
def valueSymbol : Symbol :=
  { isVarSymbol := true, immediate := none, isTypeVariable := false }

/-- The symbol of a type that is passed as an actual. -/
def typeSymbol : Symbol :=
  { isVarSymbol := false, immediate := none, isTypeVariable := true }

/-- An oracle that expands and instantiates nothing. -/
def noOracle : ResolutionOracle :=
  { expandVariadic := fun _ _ => none, instantiateGeneric := fun _ _ => none }

/-- Empty candidate vectors. -/
def noCandidates : Candidates :=
  { candidateFns := [], candidateActualFormals := [] }

/-- The function `f(x: int(32), y: int(32), z: int(32))`. -/
def exampleF : FnSymbol :=
  { ptr := 100, name := "f", isGeneric := false
    formals := [plainFormal 101 "x" (dtInt .INT_SIZE_32),
      plainFormal 102 "y" (dtInt .INT_SIZE_32), plainFormal 103 "z" (dtInt .INT_SIZE_32)] }

/-- The actuals of the call `f(a, x = b, c)` with `a: int(8)`, `b: int(16)`,
`c: int(32)`. -/
def exampleCallF : List Actual :=
  [{ type := dtInt .INT_SIZE_8, param := some valueSymbol, name := none },
   { type := dtInt .INT_SIZE_16, param := some valueSymbol, name := some "x" },
   { type := dtInt .INT_SIZE_32, param := some valueSymbol, name := none }]

/-- The function `=(lhs: int(64), rhs: int(64))`. -/
def exampleAssign : FnSymbol :=
  { ptr := 200, name := "=", isGeneric := false
    formals := [plainFormal 201 "lhs" (dtInt .INT_SIZE_64),
      plainFormal 202 "rhs" (dtInt .INT_SIZE_64)] }

/-- The actuals of an assignment of an `int(64)` to an `int(8)`. -/
def exampleAssignCall : List Actual :=
  [{ type := dtInt .INT_SIZE_8, param := some valueSymbol, name := none },
   { type := dtInt .INT_SIZE_64, param := some valueSymbol, name := none }]

/-- The formal `type t` of type `int(32)`, a type variable. -/
def exampleTypeFormal : ArgSymbol :=
  { plainFormal 301 "t" (dtInt .INT_SIZE_32) with isTypeVariable := true }

/-- The function `g(type t)`. -/
def exampleG : FnSymbol :=
  { ptr := 300, name := "g", isGeneric := false, formals := [exampleTypeFormal] }

/-- The actuals of the call `g(a)` with a variable `a: int(32)`. -/
def exampleCallValue : List Actual :=
  [{ type := dtInt .INT_SIZE_32, param := some valueSymbol, name := none }]

/-- The function `h(x: int(32))`. -/
def exampleH : FnSymbol :=
  { ptr := 400, name := "h", isGeneric := false
    formals := [plainFormal 401 "x" (dtInt .INT_SIZE_32)] }

/-- The actuals of the call `h(int(32))`, whose actual is a type. -/
def exampleCallType : List Actual :=
  [{ type := dtInt .INT_SIZE_32, param := some typeSymbol, name := none }]

/-- A class type whose `scalarPromotionType` is `int(32)`. -/
def exampleArrayType : Ty :=
  Ty.mk 500 (.ClassType .CLASS_CLASS) false false [] [] (some (dtInt .INT_SIZE_32)) none

/-- The function `+(a: int(32), b: int(32))`. -/
def examplePlus : FnSymbol :=
  { ptr := 600, name := "+", isGeneric := false
    formals := [plainFormal 601 "a" (dtInt .INT_SIZE_32),
      plainFormal 602 "b" (dtInt .INT_SIZE_32)] }

/-! ## Predicates of the proofs -/

/-- What the loops and the specified binding have in common after one actual:
either both go on, in states that agree, or both report failure. -/
def FlowAgrees (flow : Flow) (ob : Option SpecBinding) : Prop :=
  match ob with
  | some b => flow = .continues b.map
  | none => ∃ m, flow = .returned false m

/-- The null test `!formal_actuals->v[j]` reads the set of bound formals. -/
def NullIffUnbound (n : Nat) (b : SpecBinding) : Prop :=
  b.map.formal_actuals.length = n ∧
  ∀ j, j < n → (b.map.formal_actuals.getD j none).isNone = !b.bound.contains j

/-! ## Ranking of candidates (functionResolution.cpp, lines 132-148, 259-275, 697-771) -/

/-- The function `canInstantiate`. -/
def canInstantiate : Ty → Ty → Bool
  | .mk p c sync gen subs parents promo inst, formalType =>
    formalType.same dtAny ||
    (formalType.same dtIntegral &&
      (is_int_type (.mk p c sync gen subs parents promo inst) ||
       is_uint_type (.mk p c sync gen subs parents promo inst))) ||
    (formalType.same dtNumeric &&
      (is_int_type (.mk p c sync gen subs parents promo inst) ||
       is_uint_type (.mk p c sync gen subs parents promo inst) ||
       is_imag_type (.mk p c sync gen subs parents promo inst) ||
       is_real_type (.mk p c sync gen subs parents promo inst) ||
       is_complex_type (.mk p c sync gen subs parents promo inst))) ||
    (Ty.mk p c sync gen subs parents promo inst).same formalType ||
    (match inst with
     | some from_ => canInstantiate from_ formalType
     | none => false)

mutual

/-- The function `isDispatchParent`. -/
def isDispatchParent : Ty → Ty → Bool
  | .mk _ _ _ _ _ parents _ _, pt => isDispatchParentLoop parents pt

/-- The loop of `isDispatchParent` over `t->dispatchParents`. -/
def isDispatchParentLoop : List Ty → Ty → Bool
  | [], _ => false
  | p :: rest, pt => (p.same pt || isDispatchParent p pt) || isDispatchParentLoop rest pt

end

/-- The function `moreSpecific`. -/
def moreSpecific (fn : FnSymbol) (actualType formalType : Ty) : Bool :=
  (canDispatch actualType none formalType (some fn)).1 || canInstantiate actualType formalType

/-- The test `arg->instantiatedFrom == dtAny`. -/
def ArgSymbol.fromAny (arg : ArgSymbol) : Bool :=
  match arg.instantiatedFrom with
  | some t => t.same dtAny
  | none => false

/-- What the body of the loop over the actuals (lines 715-757) does for one
actual: `secondBetter` is the assignment `better = true`, `firstBetter` the
assignment `as_good = false`, `noPreference` leaves both flags. -/
inductive Verdict where
  | secondBetter
  | firstBetter
  | noPreference
  deriving DecidableEq

/-- The body of the loop over the actuals in `disambiguate_by_match`: the formal
`arg` of the candidate `best` against the formal `arg2` of the other candidate,
for the actual `a`. -/
def compareFormal (best : FnSymbol) (a : Actual) (arg arg2 : ArgSymbol) : Verdict :=
  if arg.type.same arg2.type && arg.instantiatedParam && !arg2.instantiatedParam then
    .firstBetter
  else if arg.type.same arg2.type && !arg.instantiatedParam && arg2.instantiatedParam then
    .secondBetter
  else if (canDispatch a.type a.param arg.type (some best)).2 &&
      !(canDispatch a.type a.param arg2.type (some best)).2 then .secondBetter
  else if !(canDispatch a.type a.param arg.type (some best)).2 &&
      (canDispatch a.type a.param arg2.type (some best)).2 then .firstBetter
  else if arg.fromAny && !arg2.fromAny then .secondBetter
  else if !arg.fromAny && arg2.fromAny then .firstBetter
  else if a.type.same arg2.type && !a.type.same arg.type then .secondBetter
  else if a.type.same arg.type && !a.type.same arg2.type then .firstBetter
  else if moreSpecific best arg2.type arg.type && !arg2.type.same arg.type then .secondBetter
  else if moreSpecific best arg.type arg2.type && !arg2.type.same arg.type then .firstBetter
  else if is_int_type arg2.type && is_uint_type arg.type then .secondBetter
  else if is_int_type arg.type && is_uint_type arg2.type then .firstBetter
  else .noPreference

/-- The loop over the actuals (lines 714-758) from the flags `(better, as_good)`.
The vectors `actual_formals`, `actual_formals2` and the actuals have one
entry per actual of the call. -/
def compareFormals (best : FnSymbol) :
    List Actual → List ArgSymbol → List ArgSymbol → Bool × Bool → Bool × Bool
  | a :: actuals, arg :: afs, arg2 :: afs2, (better, as_good) =>
    match compareFormal best a arg arg2 with
    | .secondBetter => compareFormals best actuals afs afs2 (true, as_good)
    | .firstBetter => compareFormals best actuals afs afs2 (better, false)
    | .noPreference => compareFormals best actuals afs afs2 (better, as_good)
  | _, _, _, flags => flags

/-- A candidate of a call: entry `i` of `candidateFns`, `none` once it is
cleared, with entry `i` of `candidateActualFormals`, whose entries are the
formals bound to the actuals, none of them null for a candidate that
`addCandidate` has added. -/
abbrev Candidate := Option FnSymbol × List ArgSymbol

/-- The loop over `j` (lines 709-764) from index `j` on, for the candidate
`best` at index `i`: true when `best` is still set at the end, false when
the loop has left by `best = NULL; break`. -/
def survivesFrom (best : FnSymbol) (actual_formals : List ArgSymbol) (i : Nat)
    (actuals : List Actual) : List Candidate → Nat → Bool
  | [], _ => true
  | (fn2, actual_formals2) :: rest, j =>
    if i ≠ j ∧ fn2.isSome = true then
      if (compareFormals best actuals actual_formals actual_formals2 (false, true)).1 ||
          (compareFormals best actuals actual_formals actual_formals2 (false, true)).2
      then false
      else survivesFrom best actual_formals i actuals rest (j + 1)
    else survivesFrom best actual_formals i actuals rest (j + 1)

/-- The loop over `i` (lines 705-768) from index `i` on; `all` is the whole
vector, `last` the value of `actual_formals` on entry.  The result is the
returned `best` and what the call leaves in `*ret_afs`. -/
def bestFrom (all : List Candidate) (actuals : List Actual) :
    List Candidate → Nat → Option (List ArgSymbol) →
      Option FnSymbol × Option (List ArgSymbol)
  | [], _, last => (none, last)
  | (none, _) :: rest, i, last => bestFrom all actuals rest (i + 1) last
  | (some fn, actual_formals) :: rest, i, _ =>
    if survivesFrom fn actual_formals i actuals all 0 then (some fn, some actual_formals)
    else bestFrom all actuals rest (i + 1) (some actual_formals)

/-- The function `disambiguate_by_match`. -/
def disambiguate_by_match (candidates : List Candidate) (actuals : List Actual) :
    Option FnSymbol × Option (List ArgSymbol) :=
  bestFrom candidates actuals candidates 0 none

/-! ### The dominance rule in the words of the specification -/

/-- The verdicts of the positions of a call for candidate `A` against
candidate `B`. -/
def verdicts (best : FnSymbol) : List Actual → List ArgSymbol → List ArgSymbol → List Verdict
  | a :: actuals, arg :: afs, arg2 :: afs2 =>
    compareFormal best a arg arg2 :: verdicts best actuals afs afs2
  | _, _, _ => []

/-- Candidate `B` is at least as good as `A` at every actual position: at no
position is `A` the better one. -/
def atLeastAsGoodEverywhere (vs : List Verdict) : Bool :=
  vs.all (fun v => v != .firstBetter)

/-- Candidate `B` is strictly better than `A` at one actual position. -/
def strictlyBetterSomewhere (vs : List Verdict) : Bool :=
  vs.any (fun v => v == .secondBetter)

/-- The discarding rule as the specification words it: `A`, at index `i`, is
discarded when some other candidate `B` is at least as good at every position
and strictly better at one. -/
def specDiscarded (all : List Candidate) (actuals : List Actual) (i : Nat) (fnA : FnSymbol)
    (afsA : List ArgSymbol) : Bool :=
  all.enum.any (fun jB =>
    decide (jB.1 ≠ i) && jB.2.1.isSome &&
      atLeastAsGoodEverywhere (verdicts fnA actuals afsA jB.2.2) &&
      strictlyBetterSomewhere (verdicts fnA actuals afsA jB.2.2))

/-- The candidates that the specified rule does not discard. -/
def specUndiscarded (all : List Candidate) (actuals : List Actual) : List FnSymbol :=
  all.enum.filterMap (fun iA =>
    match iA.2.1 with
    | some fn => if specDiscarded all actuals iA.1 fn iA.2.2 then none else some fn
    | none => none)

/-- The specified result: a function is returned exactly when a single
candidate remains undiscarded, and it is that candidate. -/
def specDisambiguate (all : List Candidate) (actuals : List Actual) : Option FnSymbol :=
  match specUndiscarded all actuals with
  | [fn] => some fn
  | _ => none

/-- The discarding rule of the code: `A`, at index `i`, is discarded when some
other candidate `B` is strictly better at one position, or at least as good
at every position. -/
def codeDiscarded (all : List Candidate) (actuals : List Actual) (i : Nat) (fnA : FnSymbol)
    (afsA : List ArgSymbol) : Bool :=
  all.enum.any (fun jB =>
    decide (jB.1 ≠ i) && jB.2.1.isSome &&
      (strictlyBetterSomewhere (verdicts fnA actuals afsA jB.2.2) ||
       atLeastAsGoodEverywhere (verdicts fnA actuals afsA jB.2.2)))

/-- The first candidate, in the order of the vector, that the rule of the code
does not discard. -/
def firstUndiscarded (all : List Candidate) (actuals : List Actual) : Option FnSymbol :=
  (all.enum.find? (fun iA =>
    match iA.2.1 with
    | some fn => !codeDiscarded all actuals iA.1 fn iA.2.2
    | none => false)).bind (fun iA => iA.2.1)

/-! ### Examples of ranking -/

/-- A class type at the given address with the given dispatch parents. -/
def classType (ptr : Nat) (parents : List Ty) : Ty :=
  Ty.mk ptr (.ClassType .CLASS_CLASS) false false [] parents none none

/-- The class `P3`. -/
def exampleP3 : Ty := classType 703 []

/-- The class `P2`. -/
def exampleP2 : Ty := classType 702 []

/-- The class `P1`, with dispatch parent `P3`. -/
def exampleP1 : Ty := classType 701 [exampleP3]

/-- The class `D`, with dispatch parents `P1` and `P2`. -/
def exampleD : Ty := classType 700 [exampleP1, exampleP2]

/-- The candidate `f(x: P3, y: int(8))`. -/
def exampleFX : FnSymbol :=
  { ptr := 710, name := "f", isGeneric := false
    formals := [plainFormal 711 "x" exampleP3, plainFormal 712 "y" (dtInt .INT_SIZE_8)] }

/-- The candidate `f(x: P2, y: int(16))`. -/
def exampleFY : FnSymbol :=
  { ptr := 720, name := "f", isGeneric := false
    formals := [plainFormal 721 "x" exampleP2, plainFormal 722 "y" (dtInt .INT_SIZE_16)] }

/-- The candidate `f(x: P1, y: int(32))`. -/
def exampleFZ : FnSymbol :=
  { ptr := 730, name := "f", isGeneric := false
    formals := [plainFormal 731 "x" exampleP1, plainFormal 732 "y" (dtInt .INT_SIZE_32)] }

/-- The actuals of the call `f(d, i)` with `d: D` and `i: int(8)`. -/
def exampleCallDI : List Actual :=
  [{ type := exampleD, param := some valueSymbol, name := none },
   { type := dtInt .INT_SIZE_8, param := some valueSymbol, name := none }]

/-- The three candidates `f(P3, int(8))`, `f(P2, int(16))`, `f(P1, int(32))`,
each with its formals bound in order. -/
def exampleCandidatesXYZ : List Candidate :=
  [(some exampleFX, exampleFX.formals), (some exampleFY, exampleFY.formals),
   (some exampleFZ, exampleFZ.formals)]

/-- The candidate `f(x: int(32))`. -/
def exampleFInt : FnSymbol :=
  { ptr := 740, name := "f", isGeneric := false
    formals := [plainFormal 741 "x" (dtInt .INT_SIZE_32)] }

/-- The candidate `f(x: uint(32))`. -/
def exampleFUInt : FnSymbol :=
  { ptr := 750, name := "f", isGeneric := false
    formals := [plainFormal 751 "x" (dtUInt .INT_SIZE_32)] }

/-- The actuals of the call `f(b)` with `b: bool`. -/
def exampleCallBool : List Actual :=
  [{ type := dtBool, param := some valueSymbol, name := none }]

/-! ## Scopes (functionResolution.cpp, lines 639-694) -/

/-- Modelled from the spec: a `SymScope`, declared in `symscope.h`, which is not
part of the sources at hand: per name the overload chain that `lookupLocal`
returns (addresses of the functions, in the order of the links `overload`),
the scopes `modScope` of the modules that `getModuleUses` lists, and the
address of the parent scope. -/
structure SymScope where
  symbols : List (String × List Nat)
  moduleUses : List Nat
  parent : Option Nat

/-- Modelled from the spec: `SymScope::lookupLocal`, as the chain of overloads of
the name in this scope, empty when the name is not defined here. -/
def SymScope.lookupLocal (scope : SymScope) (name : String) : List Nat :=
  match scope.symbols.find? (fun entry => entry.1 == name) with
  | some entry => entry.2
  | none => []

mutual

/-- The function `visibility_distance`; scopes are addresses into `scopes`, and
the set `alreadyVisited` is passed along and returned.  The first argument
bounds the number of nested calls; `none` is a nesting deeper than that. -/
def visibility_distance (scopes : Nat → SymScope) :
    Nat → Nat → FnSymbol → Nat → List Nat → Option (Nat × List Nat)
  | 0, _, _, _, _ => none
  | fuel + 1, scope, fn, d, alreadyVisited =>
    if alreadyVisited.contains scope then some (0, alreadyVisited)
    else if ((scopes scope).lookupLocal fn.name).contains fn.ptr then
      some (d, scope :: alreadyVisited)
    else
      match visibility_distance_uses scopes fuel (scopes scope).moduleUses fn d
          (scope :: alreadyVisited) with
      | none => none
      | some (dd, visited) =>
        if dd > 0 then some (dd, visited)
        else
          match (scopes scope).parent with
          | some parent => visibility_distance scopes fuel parent fn (d + 1) visited
          | none => some (0, visited)

/-- The loop of `visibility_distance` over the used modules: the first positive
distance found, 0 when there is none. -/
def visibility_distance_uses (scopes : Nat → SymScope) :
    Nat → List Nat → FnSymbol → Nat → List Nat → Option (Nat × List Nat)
  | 0, _, _, _, _ => none
  | _ + 1, [], _, _, alreadyVisited => some (0, alreadyVisited)
  | fuel + 1, modScope :: rest, fn, d, alreadyVisited =>
    match visibility_distance scopes fuel modScope fn d alreadyVisited with
    | none => none
    | some (dd, visited) =>
      if dd > 0 then some (dd, visited)
      else visibility_distance_uses scopes fuel rest fn d visited

end

/-- The first loop of `disambiguate_by_scope`: the vector `vds` of the distances
of the candidates, each computed with `d = 1` and no scope visited.  A
cleared entry has no name to look up; `none` stands for that and for a
distance that is not computed within the bound. -/
def candidateDistances (scopes : Nat → SymScope) (fuel : Nat) (scope : Nat) :
    List Candidate → Option (List Nat)
  | [] => some []
  | (none, _) :: _ => none
  | (some fn, _) :: rest =>
    match visibility_distance scopes fuel scope fn 1 [] with
    | none => none
    | some (distance, _) =>
      (candidateDistances scopes fuel scope rest).map (fun vds => distance :: vds)

/-- The second loop of `disambiguate_by_scope` (lines 680-689), from the value
`md` on. -/
def smallestDistance : List Nat → Nat → Nat
  | [], md => md
  | v :: vds, md =>
    if v ≠ 0 then
      if md ≠ 0 then
        if v < md then smallestDistance vds v else smallestDistance vds md
      else smallestDistance vds v
    else smallestDistance vds md

/-- The third loop of `disambiguate_by_scope` (lines 690-693): the entry of a
candidate whose distance is not `md` is cleared. -/
def clearOthers (md : Nat) : List Candidate → List Nat → List Candidate
  | c :: candidates, v :: vds =>
    (if v ≠ md then (none, c.2) else c) :: clearOthers md candidates vds
  | candidates, [] => candidates
  | [], _ => []

/-- The function `disambiguate_by_scope`: the candidate vector after the call. -/
def disambiguate_by_scope (scopes : Nat → SymScope) (fuel : Nat) (scope : Nat)
    (candidates : List Candidate) : Option (List Candidate) :=
  (candidateDistances scopes fuel scope candidates).map
    (fun vds => clearOthers (smallestDistance vds 0) candidates vds)

/-! ## Wrappers (functionResolution.cpp, lines 530-608) -/

/-- The first loop of `build_default_wrapper`: the formals that no actual is
bound to. -/
def unusedFormals (actual_formals : List ArgSymbol) : List ArgSymbol → List ArgSymbol
  | [] => []
  | formal :: formals =>
    if actual_formals.any (fun arg => arg.ptr == formal.ptr) then
      unusedFormals actual_formals formals
    else formal :: unusedFormals actual_formals formals

/-- The inner loop of lines 552-558 for one formal, over the entries of
`actual_formals`, with the counter `j`: an entry that is the formal becomes
`wrapper->getFormal(j)`.  `none` is a `getFormal` past the last formal. -/
def rebindEntries (wrapper : FnSymbol) (formal : ArgSymbol) :
    List ArgSymbol → Nat → Option (List ArgSymbol × Nat)
  | [], j => some ([], j)
  | arg :: rest, j =>
    if arg.ptr == formal.ptr then
      match wrapper.formals[j - 1]? with
      | none => none
      | some newFormal =>
        (rebindEntries wrapper formal rest (j + 1)).map (fun r => (newFormal :: r.1, r.2))
    else (rebindEntries wrapper formal rest j).map (fun r => (arg :: r.1, r.2))

/-- The outer loop of lines 551-559 over the formals of the wrapped function. -/
def rebindFormals (wrapper : FnSymbol) :
    List ArgSymbol → List ArgSymbol → Nat → Option (List ArgSymbol)
  | [], actual_formals, _ => some actual_formals
  | formal :: formals, actual_formals, j =>
    match rebindEntries wrapper formal actual_formals j with
    | none => none
    | some (rebound, j1) => rebindFormals wrapper formals rebound j1

/-- The function `build_default_wrapper`: the returned function and the vector
`actual_formals` as the call leaves it.  The method `FnSymbol::default_wrapper`,
which is not part of these sources, is the first argument. -/
def build_default_wrapper (default_wrapper : FnSymbol → List ArgSymbol → FnSymbol)
    (fn : FnSymbol) (actual_formals : List ArgSymbol) : Option (FnSymbol × List ArgSymbol) :=
  if fn.formals.length > actual_formals.length then
    (rebindFormals (default_wrapper fn (unusedFormals actual_formals fn.formals))
      fn.formals actual_formals 1).map
      (fun rebound => (default_wrapper fn (unusedFormals actual_formals fn.formals), rebound))
  else some (fn, actual_formals)

/-- The inner loop of `build_order_wrapper` for the formal number `i`, over the
entries of `actual_formals` from number `j + 1` on: whether a wrapper is
required, and the entries put into `formals_to_formals`. -/
def orderEntries (all : List ArgSymbol) (formal : ArgSymbol) (i : Nat) :
    List ArgSymbol → Nat → Bool × List (ArgSymbol × Option ArgSymbol) →
      Bool × List (ArgSymbol × Option ArgSymbol)
  | [], _, acc => acc
  | af :: rest, j, (required, entries) =>
    if af.ptr == formal.ptr then
      orderEntries all formal i rest (j + 1)
        (required || decide (i ≠ j + 1), entries ++ [(formal, all[i - 1]?)])
    else orderEntries all formal i rest (j + 1) (required, entries)

/-- The outer loop of `build_order_wrapper` over the formals, from the formal
number `i + 1` on. -/
def orderFormals (all : List ArgSymbol) :
    List ArgSymbol → Nat → Bool × List (ArgSymbol × Option ArgSymbol) →
      Bool × List (ArgSymbol × Option ArgSymbol)
  | [], _, acc => acc
  | formal :: formals, i, acc =>
    orderFormals all formals (i + 1) (orderEntries all formal (i + 1) all 0 acc)

/-- The function `build_order_wrapper`; the method `FnSymbol::order_wrapper` is
the first argument. -/
def build_order_wrapper
    (order_wrapper : FnSymbol → List (ArgSymbol × Option ArgSymbol) → FnSymbol)
    (fn : FnSymbol) (actual_formals : List ArgSymbol) : FnSymbol :=
  if (orderFormals actual_formals fn.formals 0 (false, [])).1 then
    order_wrapper fn (orderFormals actual_formals fn.formals 0 (false, [])).2
  else fn

/-- The loop of `build_coercion_wrapper` over the formals and the actuals at the
same positions: the entries put into `subs`. -/
def coercionSubs : List ArgSymbol → List Actual → List (ArgSymbol × Ty)
  | formal :: formals, a :: actuals =>
    if !a.type.same formal.type &&
        (canCoerce a.type a.param formal.type || isDispatchParent a.type formal.type)
    then (formal, a.type) :: coercionSubs formals actuals
    else coercionSubs formals actuals
  | _, _ => []

/-- The function `build_coercion_wrapper`; the method `FnSymbol::coercion_wrapper`
is the first argument. -/
def build_coercion_wrapper (coercion_wrapper : FnSymbol → List (ArgSymbol × Ty) → FnSymbol)
    (fn : FnSymbol) (actuals : List Actual) : FnSymbol :=
  if (coercionSubs fn.formals actuals).isEmpty then fn
  else coercion_wrapper fn (coercionSubs fn.formals actuals)

/-! ## Resolution of a call (functionResolution.cpp, lines 36-43, 880-955) -/

/-- The enumeration `resolve_call_error_type`. -/
inductive resolve_call_error_type where
  | CALL_NO_ERROR
  | CALL_PARTIAL
  | CALL_AMBIGUOUS
  | CALL_UNKNOWN
  deriving DecidableEq

/-- The two statics `resolve_call_error` and `resolve_call_error_candidates`. -/
structure ResolveState where
  resolve_call_error : resolve_call_error_type
  resolve_call_error_candidates : List FnSymbol

/-- An expression of the syntax tree, as far as the folding of tuple calls
reads it: a `SymExpr` with its symbol, a call with the name of its base
expression and its actuals, or another expression. -/
inductive Expr where
  | SymExpr (var : Symbol)
  | CallExpr (name : String) (argList : List Expr)
  | Other (id : Nat)

/-- The method `Expr::copy`: a new node with the content of the old one; nodes
being values here, the copy is the expression. -/
def Expr.copy (e : Expr) : Expr := e

/-- A `CallExpr`: the name of its base symbol, the function `isResolved()`
gives, its actuals, the address of `parentScope`, and the flags `methodTag`,
`partialTag` and `square`. -/
structure CallExpr where
  name : String
  isResolved : Option FnSymbol
  argList : List Expr
  parentScope : Nat
  methodTag : Bool
  partialTag : Bool
  square : Bool

/-- What `resolve_call` takes from outside these sources: the oracle of
`addCandidate`, the scopes, the lookup `getVisibleFunctions` of the scope
collaborator and the four wrapper methods of `FnSymbol`. -/
structure ResolveEnv extends ResolutionOracle where
  scopes : Nat → SymScope
  getVisibleFunctions : Nat → String → List FnSymbol
  default_wrapper : FnSymbol → List ArgSymbol → FnSymbol
  order_wrapper : FnSymbol → List (ArgSymbol × Option ArgSymbol) → FnSymbol
  promotion_wrapper : FnSymbol → List (ArgSymbol × Ty) → Bool → FnSymbol
  coercion_wrapper : FnSymbol → List (ArgSymbol × Ty) → FnSymbol

/-- The vector `visibleFns` of `resolve_call` (lines 891-894). -/
def visibleFunctions (env : ResolveEnv) (call : CallExpr) (name : String) : List FnSymbol :=
  match call.isResolved with
  | none => env.getVisibleFunctions call.parentScope name
  | some fn => [fn]

/-- The loop of lines 896-901 over the visible functions; `none` when a call of
`addCandidate` does not come back within the bound. -/
def gatherCandidates (env : ResolveEnv) (fuel : Nat) (call : CallExpr)
    (actuals : List Actual) : List FnSymbol → Candidates → Option Candidates
  | [], cands => some cands
  | visibleFn :: rest, cands =>
    if call.methodTag && !visibleFn.noParens then
      gatherCandidates env fuel call actuals rest cands
    else
      match addCandidate env.toResolutionOracle fuel cands visibleFn actuals with
      | none => none
      | some cands1 => gatherCandidates env fuel call actuals rest cands1

/-- The entries of a vector `actual_formals` read as formals; `none` when an
entry is null. -/
def nonNullFormals : List (Option ArgSymbol) → Option (List ArgSymbol)
  | [] => some []
  | none :: _ => none
  | some arg :: rest => (nonNullFormals rest).map (fun r => arg :: r)

/-- The two candidate vectors read entry by entry; `none` when the vectors
differ in length or a formal entry is null. -/
def candidateEntries : List (Option FnSymbol) → List (List (Option ArgSymbol)) →
    Option (List Candidate)
  | [], [] => some []
  | fn :: fns, afs :: rest =>
    match nonNullFormals afs with
    | none => none
    | some formals => (candidateEntries fns rest).map (fun r => (fn, formals) :: r)
  | _, _ => none

/-- The wrapper chain of lines 937-948 on the chosen function. -/
def wrapBest (env : ResolveEnv) (call : CallExpr) (actuals : List Actual) (best : FnSymbol)
    (actual_formals : List ArgSymbol) : Option FnSymbol :=
  match build_default_wrapper env.default_wrapper best actual_formals with
  | none => none
  | some (defaulted, rebound) =>
    let ordered := build_order_wrapper env.order_wrapper defaulted rebound
    let promoted := build_promotion_wrapper env.promotion_wrapper ordered actuals call.square
    let chosen := if promoted.ptr != ordered.ptr then promoted else ordered
    some (build_coercion_wrapper env.coercion_wrapper chosen actuals)

/-- The function `resolve_call`: the returned function, `none` for null, and the
statics as the call leaves them.  The outer `none` is a computation that
does not come back within the bound `fuel`, or that reads a null entry. -/
def resolve_call (env : ResolveEnv) (fuel : Nat) (call : CallExpr) (name : String)
    (actuals : List Actual) (st : ResolveState) : Option (Option FnSymbol × ResolveState) :=
  match gatherCandidates env fuel call actuals (visibleFunctions env call name)
      { candidateFns := [], candidateActualFormals := [] } with
  | none => none
  | some cands =>
    match candidateEntries cands.candidateFns cands.candidateActualFormals with
    | none => none
    | some candidates =>
      match (if (disambiguate_by_match candidates actuals).1.isNone ∧ candidates.length > 1
          then
            (disambiguate_by_scope env.scopes fuel call.parentScope candidates).map
              (fun cleared => (cleared, disambiguate_by_match cleared actuals))
          else some (candidates, disambiguate_by_match candidates actuals)) with
      | none => none
      | some (remaining, none, _) =>
        if remaining.length > 0 then
          some (none,
            { resolve_call_error := .CALL_AMBIGUOUS
              resolve_call_error_candidates :=
                st.resolve_call_error_candidates ++ remaining.filterMap (fun c => c.1) })
        else if call.partialTag then
          some (none, { st with resolve_call_error := .CALL_PARTIAL })
        else
          some (none,
            { resolve_call_error := .CALL_UNKNOWN
              resolve_call_error_candidates :=
                st.resolve_call_error_candidates ++ visibleFunctions env call name })
      | some (_, some best, actual_formals) =>
        if call.partialTag && !best.noParens then
          some (none, { st with resolve_call_error := .CALL_PARTIAL })
        else
          match actual_formals with
          | none => none
          | some afs => (wrapBest env call actuals best afs).map (fun fn => (some fn, st))

/-! ### Examples of calls -/

/-- A scope table with the functions `g` at the addresses 810 and 820 defined in
scope 1, a function `k` at 830 defined in scope 1 and one at 840 defined in
scope 2, the parent of scope 1. -/
def exampleScopes : Nat → SymScope
  | 1 => { symbols := [("g", [810, 820]), ("k", [830])], moduleUses := [], parent := some 2 }
  | 2 => { symbols := [("k", [840])], moduleUses := [], parent := none }
  | _ => { symbols := [], moduleUses := [], parent := none }

/-- The function `max(x: int(64), y: int(64))`. -/
def exampleMaxInt : FnSymbol :=
  { ptr := 800, name := "max", isGeneric := false
    formals := [plainFormal 801 "x" (dtInt .INT_SIZE_64),
      plainFormal 802 "y" (dtInt .INT_SIZE_64)] }

/-- The function `max(x: uint(64), y: uint(64))`. -/
def exampleMaxUInt : FnSymbol :=
  { ptr := 805, name := "max", isGeneric := false
    formals := [plainFormal 806 "x" (dtUInt .INT_SIZE_64),
      plainFormal 807 "y" (dtUInt .INT_SIZE_64)] }

/-- The actuals of the call `max(a, b)` with variables `a: int(32)`, `b: uint(8)`. -/
def exampleMaxActuals : List Actual :=
  [{ type := dtInt .INT_SIZE_32, param := some valueSymbol, name := none },
   { type := dtUInt .INT_SIZE_8, param := some valueSymbol, name := none }]

/-- An unresolved call of the given name in scope 1, with the given flag
`partialTag`. -/
def exampleCall (name : String) (partialTag : Bool) : CallExpr :=
  { name := name, isResolved := none, argList := [], parentScope := 1
    methodTag := false, partialTag := partialTag, square := false }

/-- The function `g(x: int(32))` at address 810. -/
def exampleG1 : FnSymbol :=
  { ptr := 810, name := "g", isGeneric := false
    formals := [plainFormal 811 "x" (dtInt .INT_SIZE_32)] }

/-- The function `g(x: int(32))` at address 820, a second definition with the
same formal type. -/
def exampleG2 : FnSymbol :=
  { ptr := 820, name := "g", isGeneric := false
    formals := [plainFormal 821 "x" (dtInt .INT_SIZE_32)] }

/-- The function `k(x: int(32))` of scope 1. -/
def exampleK1 : FnSymbol :=
  { ptr := 830, name := "k", isGeneric := false
    formals := [plainFormal 831 "x" (dtInt .INT_SIZE_32)] }

/-- The function `k(x: int(32))` of scope 2. -/
def exampleK2 : FnSymbol :=
  { ptr := 840, name := "k", isGeneric := false
    formals := [plainFormal 841 "x" (dtInt .INT_SIZE_32)] }

/-- A wrapper symbol that names the kind of wrapper and keeps the formals. -/
def exampleWrapper (kind : String) (fn : FnSymbol) : FnSymbol :=
  { fn with ptr := fn.ptr + 10000, name := kind ++ fn.name }

/-- An environment over `exampleScopes` in which `max`, `g` and `k` are visible
and no other name is. -/
def exampleEnv : ResolveEnv :=
  { expandVariadic := fun _ _ => none
    instantiateGeneric := fun _ _ => none
    scopes := exampleScopes
    getVisibleFunctions := fun _ name =>
      if name = "max" then [exampleMaxInt, exampleMaxUInt]
      else if name = "g" then [exampleG1, exampleG2]
      else if name = "k" then [exampleK2, exampleK1]
      else []
    default_wrapper := fun fn _ => exampleWrapper "default " fn
    order_wrapper := fun fn _ => exampleWrapper "order " fn
    promotion_wrapper := fun fn _ _ => exampleWrapper "promotion " fn
    coercion_wrapper := fun fn _ => exampleWrapper "coercion " fn }

/-- The statics before any call. -/
def noErrors : ResolveState :=
  { resolve_call_error := .CALL_NO_ERROR, resolve_call_error_candidates := [] }

/-! ### Two definitions with the same formal type that differ in a flag -/

/-- The function `g(x: int(32))` at address 820 whose formal is the instance of
a generic formal: `instantiatedFrom` is `dtAny`. -/
def exampleGAny : FnSymbol :=
  { ptr := 820, name := "g", isGeneric := false
    formals := [{ plainFormal 821 "x" (dtInt .INT_SIZE_32) with
      instantiatedFrom := some dtAny }] }

/-- The function `g(x: int(32))` at address 820 whose formal carries the flag
`instantiatedParam`. -/
def exampleGParam : FnSymbol :=
  { ptr := 820, name := "g", isGeneric := false
    formals := [{ plainFormal 821 "x" (dtInt .INT_SIZE_32) with
      instantiatedParam := true }] }

/-- The environment `exampleEnv` in which the second visible function of the
name `g` is the given one. -/
def exampleEnvWith (second : FnSymbol) : ResolveEnv :=
  { exampleEnv with
    getVisibleFunctions := fun scope name =>
      if name = "g" then [exampleG1, second] else exampleEnv.getVisibleFunctions scope name }

/-! ## Predicates of the proofs on calls -/

/-- Two formals of equal rank for every actual: the identical type, the same
flag `instantiatedParam` and the same provenance from `dtAny`. -/
def equalRank (x y : ArgSymbol) : Prop :=
  x.type = y.type ∧ x.instantiatedParam = y.instantiatedParam ∧ x.fromAny = y.fromAny

/-- Two candidates that are equally ranked: at every actual position the formals
bound to the actual are of equal rank. -/
def EquallyRanked (afs1 afs2 : List ArgSymbol) : Prop :=
  List.Forall₂ equalRank afs1 afs2

/-! ## Memoised wrappers -/

/-- The kind of a wrapper that `resolve_call` asks for. -/
inductive WrapperKind where
  | defaults
  | promotion (isSquare : Bool)
  | coercion
  deriving DecidableEq

/-- Modelled from the spec: the key under which a wrapper is memoised, "per
(inner-function, substitution-key)": the kind, the address of the inner
function and the substitution as pairs of addresses. -/
structure WrapperKey where
  kind : WrapperKind
  inner : Nat
  subs : List (Nat × Nat)
  deriving DecidableEq

/-- Modelled from the spec: the wrappers made so far, newest first. -/
structure WrapperStore where
  made : List (WrapperKey × FnSymbol)

/-- Modelled from the spec: the memoised wrapper of a key, if one has been made. -/
def WrapperStore.find (s : WrapperStore) (key : WrapperKey) : Option FnSymbol :=
  (s.made.find? (fun entry => entry.1 == key)).map (fun entry => entry.2)

/-- Modelled from the spec: a request for the wrapper of a key.  The methods
`default_wrapper`, `promotion_wrapper` and `coercion_wrapper` of `FnSymbol` are
not part of the sources at hand; the specification has them reuse the wrapper
made for the same inner function and substitution, and make and record a new
one, here `fresh`, otherwise. -/
def WrapperStore.request (s : WrapperStore) (key : WrapperKey) (fresh : FnSymbol) :
    FnSymbol × WrapperStore :=
  match s.find key with
  | some wrapper => (wrapper, s)
  | none => (fresh, { made := (key, fresh) :: s.made })

/-- The key of a default wrapper: the defaulted formals. -/
def defaultKey (fn : FnSymbol) (defaults : List ArgSymbol) : WrapperKey :=
  { kind := .defaults, inner := fn.ptr, subs := defaults.map (fun formal => (formal.ptr, 0)) }

/-- The key of a promotion wrapper: the promoted formals with the types of
their actuals. -/
def promotionKey (fn : FnSymbol) (subs : List (ArgSymbol × Ty)) (isSquare : Bool) :
    WrapperKey :=
  { kind := .promotion isSquare, inner := fn.ptr
    subs := subs.map (fun entry => (entry.1.ptr, entry.2.ptr)) }

/-- The key of a coercion wrapper: the coerced formals with the types of their
actuals. -/
def coercionKey (fn : FnSymbol) (subs : List (ArgSymbol × Ty)) : WrapperKey :=
  { kind := .coercion, inner := fn.ptr
    subs := subs.map (fun entry => (entry.1.ptr, entry.2.ptr)) }

/-- The functions that make a new wrapper of each kind. -/
structure WrapperMakers where
  makeDefault : FnSymbol → List ArgSymbol → FnSymbol
  makePromotion : FnSymbol → List (ArgSymbol × Ty) → Bool → FnSymbol
  makeCoercion : FnSymbol → List (ArgSymbol × Ty) → FnSymbol

/-- The function `build_default_wrapper` run on a store of wrappers: its result,
and the store after the call, which the method `default_wrapper` changes when
it is called. -/
def build_default_wrapper_on (mk : WrapperMakers) (s : WrapperStore) (fn : FnSymbol)
    (actual_formals : List ArgSymbol) : Option (FnSymbol × List ArgSymbol) × WrapperStore :=
  (build_default_wrapper
      (fun f defaults => (s.request (defaultKey f defaults) (mk.makeDefault f defaults)).1)
      fn actual_formals,
    if fn.formals.length > actual_formals.length then
      (s.request (defaultKey fn (unusedFormals actual_formals fn.formals))
        (mk.makeDefault fn (unusedFormals actual_formals fn.formals))).2
    else s)

/-- The function `build_promotion_wrapper` run on a store of wrappers. -/
def build_promotion_wrapper_on (mk : WrapperMakers) (s : WrapperStore) (fn : FnSymbol)
    (actuals : List Actual) (isSquare : Bool) : FnSymbol × WrapperStore :=
  (build_promotion_wrapper
      (fun f subs sq => (s.request (promotionKey f subs sq) (mk.makePromotion f subs sq)).1)
      fn actuals isSquare,
    if fn.name = "=" ∨ (promotedSubs fn fn.formals actuals).isEmpty = true then s
    else
      (s.request (promotionKey fn (promotedSubs fn fn.formals actuals) isSquare)
        (mk.makePromotion fn (promotedSubs fn fn.formals actuals) isSquare)).2)

/-- The function `build_coercion_wrapper` run on a store of wrappers. -/
def build_coercion_wrapper_on (mk : WrapperMakers) (s : WrapperStore) (fn : FnSymbol)
    (actuals : List Actual) : FnSymbol × WrapperStore :=
  (build_coercion_wrapper
      (fun f subs => (s.request (coercionKey f subs) (mk.makeCoercion f subs)).1)
      fn actuals,
    if (coercionSubs fn.formals actuals).isEmpty then s
    else
      (s.request (coercionKey fn (coercionSubs fn.formals actuals))
        (mk.makeCoercion fn (coercionSubs fn.formals actuals))).2)

/-- Makers of the example wrappers. -/
def exampleMakers : WrapperMakers :=
  { makeDefault := fun fn _ => exampleWrapper "default " fn
    makePromotion := fun fn _ _ => exampleWrapper "promotion " fn
    makeCoercion := fun fn _ => exampleWrapper "coercion " fn }

/-- Makers of other wrappers than `exampleMakers` makes. -/
def otherMakers : WrapperMakers :=
  { makeDefault := fun fn _ => { fn with ptr := fn.ptr + 20000 }
    makePromotion := fun fn _ _ => { fn with ptr := fn.ptr + 20000 }
    makeCoercion := fun fn _ => { fn with ptr := fn.ptr + 20000 } }

/-- The store in which no wrapper has been made. -/
def emptyStore : WrapperStore :=
  { made := [] }

/-- The function `f(x: int(32), y: int(32))`, whose formal `y` has a default. -/
def exampleWithDefault : FnSymbol :=
  { ptr := 900, name := "f", isGeneric := false
    formals := [plainFormal 901 "x" (dtInt .INT_SIZE_32),
      { plainFormal 902 "y" (dtInt .INT_SIZE_32) with hasDefaultExpr := true }] }

/-! ## Folding of tuple calls (functionResolution.cpp, lines 1729-1744) -/

/-- The loop `for (int i = 1; i < rank; i++) call->insertAtTail(actual->copy())`
with the number of values of `i` still to come. -/
def insertCopies (actual : Expr) : Nat → List Expr → List Expr
  | 0, argList => argList
  | n + 1, argList => insertCopies actual n (argList ++ [actual.copy])

/-- The arm of `preFold` at lines 1729-1744, which a call named
`_construct__tuple` that is not resolved takes; a call that the test of the arm
rejects comes back as it is.  The two blocks before the chain (lines 1536-1643)
apply to a call with one actual and to a call whose first actual is
`gMethodToken`, and the arms before this one to other names.  The `int64` of
`int_value()` is stored in the `int` variable `rank`.  `none` is the
`INT_FATAL` "bad homogeneous tuple". -/
def preFoldTuple (call : CallExpr) : Option CallExpr :=
  if call.name = "_construct__tuple" ∧ call.isResolved.isNone = true then
    match call.argList with
    | Expr.SymExpr var :: _ =>
      match literalOf (some var) with
      | some imm =>
        if wrapSigned 32 imm.int_value ≠ (call.argList.length : Int) - 1 then
          match call.argList with
          | [_, actual] =>
            some { call with
              argList := insertCopies actual (wrapSigned 32 imm.int_value - 1).toNat
                call.argList }
          | _ => none
        else some call
      | none => some call
    | _ => some call
  else some call

/-- The unresolved call `_construct__tuple(first, values...)`. -/
def tupleCall (first : Expr) (values : List Expr) : CallExpr :=
  { name := "_construct__tuple", isResolved := none, argList := first :: values
    parentScope := 1, methodTag := false, partialTag := false, square := false }

/-! ## Resolution of a move (functionResolution.cpp, lines 1334-1360) -/

/-- A diagnostic: the macro that raises it and its text.  `USR_FATAL` and
`INT_FATAL` end the compilation, `USR_FATAL_CONT` goes on. -/
inductive Diagnostic where
  | USR_FATAL (text : String)
  | USR_FATAL_CONT (text : String)
  | INT_FATAL (text : String)
  deriving DecidableEq

/-- The symbol `sym->var` of the target of a move: its type, its name and its
flags `canReference` and `isReference`. -/
structure MoveTarget where
  type : Ty
  name : String
  canReference : Bool
  isReference : Bool

/-- The right-hand side `call->get(2)` of a move: a call that is no primitive,
with the function `isResolved()` gives, or another expression with its type. -/
inductive MoveSource where
  | call (isResolved : Option FnSymbol)
  | other (type : Ty)

/-- The method `typeInfo` of the right-hand side; for a call it is
`CallExpr::typeInfo` (expr.cpp, lines 3220-3227). -/
def MoveSource.typeInfo : MoveSource → Ty
  | .call (some fn) => fn.retType
  | .call none => dtUnknown
  | .other type => type

/-- The test `strncmp(name, "_ret_", 5)` equal to 0. -/
def isReturnTemp (name : String) : Bool :=
  name.take 5 == "_ret_"

/-- Lines 1334-1360 of `resolveCall`, the branch of a move whose target is a
`SymExpr`: the diagnostics of a compilation that ends here, or the target
symbol and whether the primitive has become `PRIMITIVE_REF` where the branch
goes on (line 1361).  `isRef` is `call->get(2)->isRef()`. -/
def resolveMove (var : MoveTarget) (rhs : MoveSource) (isRef : Bool) :
    Except (List Diagnostic) (MoveTarget × Bool) :=
  let t := rhs.typeInfo
  let var1 : MoveTarget := if var.type.same dtUnknown then { var with type := t } else var
  let var2 : MoveTarget := if var1.type.same dtNil then { var1 with type := t } else var1
  if t.same dtVoid then
    .error [.USR_FATAL "illegal use of function that does not return a value"]
  else
    match (if t.same dtUnknown then
        match rhs with
        | .call (some rhsfn) =>
          some [Diagnostic.USR_FATAL_CONT
              ("unable to resolve return type of function '" ++ rhsfn.name ++ "'"),
            Diagnostic.USR_FATAL "called recursively at this point"]
        | _ => none
      else none) with
    | some diagnostics => .error diagnostics
    | none =>
      let var3 : MoveTarget :=
        if isRef && var2.canReference then { var2 with isReference := true } else var2
      let ref : Bool := (isRef && var2.canReference) || (var3.isReference && isReturnTemp var3.name)
      if t.same dtUnknown then .error [.INT_FATAL "Unable to resolve type"]
      else .ok (var3, ref)

/-- A function `noop()` that returns `void`. -/
def exampleVoidFn : FnSymbol :=
  { ptr := 950, name := "noop", isGeneric := false, formals := [], retType := dtVoid }

/-- A compiler temporary of unknown type. -/
def exampleTemp : MoveTarget :=
  { type := dtUnknown, name := "_tmp", canReference := false, isReference := false }

/-! ## Folding of sizing calls (functionResolution.cpp, lines 1536-1610) -/

/-- Modelled from the spec: `Immediate::uint_value()`, the payload read at the
declared width as an unsigned integer. -/
def Immediate.uint_value (imm : Immediate) : Int :=
  imm.v % 2 ^ imm.num_index.bits

/-- The chain of `if (type == ...)` with its `switch (size)` statements (lines
1551-1606) for the type symbol `type` of the base expression: the type whose
symbol replaces the call, `none` where no test on `type` holds, or the
`USR_FATAL` of a `default:` label.  The text after "for" is the one of the
source, which has "imag" at the label of `real`. -/
def sizedType (type : Ty) (size : Int) : Except Diagnostic (Option Ty) :=
  if type.same (dtInt .INT_SIZE_32) then
    if size = 8 then .ok (some (dtInt .INT_SIZE_8))
    else if size = 16 then .ok (some (dtInt .INT_SIZE_16))
    else if size = 32 then .ok (some (dtInt .INT_SIZE_32))
    else if size = 64 then .ok (some (dtInt .INT_SIZE_64))
    else .error (.USR_FATAL ("illegal size " ++ toString size ++ " for int"))
  else if type.same (dtUInt .INT_SIZE_32) then
    if size = 8 then .ok (some (dtUInt .INT_SIZE_8))
    else if size = 16 then .ok (some (dtUInt .INT_SIZE_16))
    else if size = 32 then .ok (some (dtUInt .INT_SIZE_32))
    else if size = 64 then .ok (some (dtUInt .INT_SIZE_64))
    else .error (.USR_FATAL ("illegal size " ++ toString size ++ " for uint"))
  else if type.same (dtReal .FLOAT_SIZE_64) then
    if size = 32 then .ok (some (dtReal .FLOAT_SIZE_32))
    else if size = 64 then .ok (some (dtReal .FLOAT_SIZE_64))
    else if size = 128 then .ok (some (dtReal .FLOAT_SIZE_128))
    else .error (.USR_FATAL ("illegal size " ++ toString size ++ " for imag"))
  else if type.same (dtImag .FLOAT_SIZE_64) then
    if size = 32 then .ok (some (dtImag .FLOAT_SIZE_32))
    else if size = 64 then .ok (some (dtImag .FLOAT_SIZE_64))
    else if size = 128 then .ok (some (dtImag .FLOAT_SIZE_128))
    else .error (.USR_FATAL ("illegal size " ++ toString size ++ " for imag"))
  else if type.same (dtComplex .COMPLEX_SIZE_128) then
    if size = 64 then .ok (some (dtComplex .COMPLEX_SIZE_64))
    else if size = 128 then .ok (some (dtComplex .COMPLEX_SIZE_128))
    else if size = 256 then .ok (some (dtComplex .COMPLEX_SIZE_256))
    else .error (.USR_FATAL ("illegal size " ++ toString size ++ " for complex"))
  else .ok none

/-- The value of the `int` variable `size` (lines 1544-1549): `int_value()` or
`(int)uint_value()`, stored in 32 bits. -/
def sizeOf (imm : Immediate) : Int :=
  if imm.const_kind = .NUM_KIND_INT then wrapSigned 32 imm.int_value
  else wrapSigned 32 imm.uint_value

/-- The first block of `preFold` (lines 1536-1610) for a call whose base
expression is the `SymExpr` of the symbol of `type` and whose actuals are
`argList`: `some t` when the call is replaced by a `SymExpr` of the symbol of
`t`, `none` when the block leaves the call, or the `USR_FATAL` of an illegal
size. -/
def preFoldSize (type : Ty) (argList : List Expr) : Except Diagnostic (Option Ty) :=
  match argList with
  | [Expr.SymExpr var] =>
    match literalOf (some var) with
    | some imm =>
      if imm.const_kind = .NUM_KIND_INT ∨ imm.const_kind = .NUM_KIND_UINT then
        sizedType type (sizeOf imm)
      else .ok none
    | none => .ok none
  | _ => .ok none

/-- The `SymExpr` of an integer literal of the given kind, width and payload. -/
def sizeLiteral (kind : NumKind) (size : IntSize) (v : Int) : Expr :=
  Expr.SymExpr
    { isVarSymbol := true
      immediate := some { const_kind := kind, num_index := size, v := v }
      isTypeVariable := false }

/-! ## Unrolling of param loops (functionResolution.cpp, lines 1468-1502) -/

/-- The tag of a block. -/
inductive BlockTag where
  | BLOCK_NORMAL
  | BLOCK_PARAM_FOR
  | BLOCK_OTHER
  deriving DecidableEq

/-- A block statement: its tag and its statements. -/
structure BlockStmt where
  blockTag : BlockTag
  body : List Expr

/-- The block of a param loop: its tag, and its statements as a function of
the symbol that stands where the index symbol of the loop stands. -/
structure ParamBlock where
  blockTag : BlockTag
  bodyAt : Symbol → List Expr

/-- Modelled from the spec: `block->copy(&map)` for the map that sends the index
symbol to `value`: the block with every use of the index symbol replaced. -/
def ParamBlock.copy (block : ParamBlock) (value : Symbol) : BlockStmt :=
  { blockTag := block.blockTag, body := block.bodyAt value }

/-- Modelled from the spec: `new_IntSymbol(i)`, the symbol of the integer
literal `i`. -/
def new_IntSymbol (i : Int) : Symbol :=
  intLiteral .INT_SIZE_32 i

/-- The call of `PRIMITIVE_LOOP_PARAM` as `fold_param_for` reads it: the block
`loop->next` (`none` when it is no block), whether the call is the primitive,
the symbol of its first actual, which `build_param_for_stmt` makes a `SymExpr`
of the index variable, and its actuals 2 to 4. -/
structure LoopParam where
  next : Option ParamBlock
  isLoopParam : Bool
  index : Symbol
  low : Expr
  high : Expr
  stride : Expr

/-- The loop `for (int i = low; i <= high; i += stride)` from the value `i` of
the counter: the values of `i` at which a copy is inserted, in the order of
insertion.  The counter is an `int`; `i += stride` adds in `int64` and stores
the sum in 32 bits.  `none` is a loop that has not ended when the fuel is
used up. -/
def unrollFrom (high stride : Int) : Nat → Int → List Int → Option (List Int)
  | 0, _, _ => none
  | fuel + 1, i, done =>
    if i ≤ high then
      unrollFrom high stride fuel (wrapSigned 32 (wrapSigned 64 (i + stride))) (done ++ [i])
    else some done

/-- What `fold_param_for` leaves: nothing changed, or the block replaced by the
copies that were inserted before it, in their order in the list. -/
inductive Folded where
  | unchanged
  | unrolled (copies : List BlockStmt)

/-- The function `fold_param_for`.  `none` is a loop that has not ended when
the fuel is used up. -/
def fold_param_for (fuel : Nat) (loop : LoopParam) : Option (Except Diagnostic Folded) :=
  match loop.next with
  | none => some (.error (.INT_FATAL "bad param loop primitive"))
  | some block =>
    if block.blockTag ≠ .BLOCK_PARAM_FOR then
      some (.error (.INT_FATAL "bad param loop primitive"))
    else if loop.isLoopParam then
      match loop.low, loop.high, loop.stride with
      | .SymExpr lvar, .SymExpr hvar, .SymExpr svar =>
        match literalOf (some lvar), literalOf (some hvar), literalOf (some svar) with
        | some low, some high, some stride =>
          if stride.int_value ≤ 0 then some (.error (.INT_FATAL "fix this"))
          else
            (unrollFrom high.int_value stride.int_value fuel (wrapSigned 32 low.int_value) []).map
              (fun values => .ok (.unrolled (values.map (fun i =>
                ({ block with blockTag := .BLOCK_NORMAL } : ParamBlock).copy (new_IntSymbol i)))))
        | _, _, _ => some (.ok .unchanged)
      | _, _, _ => some (.ok .unchanged)
    else some (.ok .unchanged)

/-- The iteration values in the words of the specification: `low`,
`low + stride`, `low + 2 * stride`, ... not exceeding `high`. -/
def iterationValues (low high stride : Int) : List Int :=
  (List.range (if low ≤ high then ((high - low) / stride + 1).toNat else 0)).map
    (fun (k : Nat) => low + (k : Int) * stride)

/-- The number of copies in the words of the specification:
`max(0, floor((high - low) / stride) + 1)`. -/
def iterationCount (low high stride : Int) : Int :=
  max 0 ((high - low) / stride + 1)

/-- A param loop over the block `block` with 64-bit literal bounds. -/
def exampleLoop (block : ParamBlock) (low high stride : Int) : LoopParam :=
  { next := some block, isLoopParam := true, index := valueSymbol
    low := Expr.SymExpr (intLiteral .INT_SIZE_64 low)
    high := Expr.SymExpr (intLiteral .INT_SIZE_64 high)
    stride := Expr.SymExpr (intLiteral .INT_SIZE_64 stride) }

/-- A param-for block whose one statement is a use of the index. -/
def exampleParamBlock : ParamBlock :=
  { blockTag := .BLOCK_PARAM_FOR, bodyAt := fun index => [Expr.SymExpr index] }

/-! ## Assignment in code generation (expr.cpp, lines 2814-2958) -/

/-- A statement of the body of `whenstmts`: a `CondStmt` whose condition is a
call of `PRIMITIVE_WHEN`, with the actuals of that call and its `thenStmt`,
or any other statement. -/
inductive WhenStmt where
  | when (conds : List Expr) (thenStmt : Expr)
  | malformed

mutual

/-- A `CondStmt` that `build_select` makes: its condition, its `thenStmt` and
its `elseStmt`. -/
inductive CondStmt where
  | mk (condExpr : Expr) (thenStmt : Expr) (elseStmt : ElseStmt)

/-- The field `elseStmt`: null, the block `new BlockStmt(next)` around the next
`CondStmt` of the chain, or the `thenStmt` of the otherwise clause. -/
inductive ElseStmt where
  | null
  | block (next : CondStmt)
  | stmt (body : Expr)

end

mutual

/-- The assignment `condStmt->elseStmt = e`, seen from `top`: `condStmt` is the
last `CondStmt` of the chain that starts at `top`, the one whose `elseStmt` is
null. -/
def CondStmt.setElse : CondStmt → ElseStmt → CondStmt
  | .mk condExpr thenStmt elseStmt, e => .mk condExpr thenStmt (elseStmt.setElse e)

/-- The assignment below an `elseStmt` of the chain. -/
def ElseStmt.setElse : ElseStmt → ElseStmt → ElseStmt
  | .null, e => e
  | .block next, e => .block (next.setElse e)
  | .stmt body, _ => .stmt body

end

/-- The loop over the actuals of a `PRIMITIVE_WHEN` call (lines 473-479) from
the value `expr`, which is not null. -/
def whenCondition (selectCond : Expr) : List Expr → Expr → Expr
  | [], expr => expr
  | whenCond :: rest, expr =>
    whenCondition selectCond rest
      (.CallExpr "|" [expr, .CallExpr "==" [selectCond.copy, whenCond]])

/-- The loop of `build_select` over the statements of `whenstmts` (lines
462-491): the state is the `thenStmt` of `otherwise` and the chain `top`;
`condStmt` is null exactly when `top` is. -/
def buildSelectLoop (selectCond : Expr) :
    List WhenStmt → Option Expr × Option CondStmt →
      Except Diagnostic (Option Expr × Option CondStmt)
  | [], state => .ok state
  | .malformed :: _, _ => .error (.INT_FATAL "error in build_select")
  | .when [] thenStmt :: rest, (otherwise, top) =>
    if otherwise.isSome then .error (.USR_FATAL "Select has multiple otherwise clauses")
    else buildSelectLoop selectCond rest (some thenStmt, top)
  | .when (whenCond :: conds) thenStmt :: rest, (otherwise, top) =>
    match top with
    | none =>
      buildSelectLoop selectCond rest
        (otherwise,
          some (.mk (whenCondition selectCond conds (.CallExpr "==" [selectCond.copy, whenCond]))
            thenStmt .null))
    | some chain =>
      buildSelectLoop selectCond rest
        (otherwise,
          some (chain.setElse (.block
            (.mk (whenCondition selectCond conds (.CallExpr "==" [selectCond.copy, whenCond]))
              thenStmt .null))))

/-- The function `build_select`: the returned `top`, null when there is no
clause. -/
def build_select (selectCond : Expr) (whenstmts : List WhenStmt) :
    Except Diagnostic (Option CondStmt) :=
  match buildSelectLoop selectCond whenstmts (none, none) with
  | .error d => .error d
  | .ok (some _, none) => .error (.USR_FATAL "Select has no when clauses")
  | .ok (some body, some chain) => .ok (some (chain.setElse (.stmt body)))
  | .ok (none, top) => .ok top

/-- The otherwise clauses of a list of when statements: the `thenStmt` of every
when with an empty list of conditions. -/
def otherwiseBodies : List WhenStmt → List Expr
  | [] => []
  | .when [] thenStmt :: rest => thenStmt :: otherwiseBodies rest
  | _ :: rest => otherwiseBodies rest

/-- The when clauses that have conditions, in their order, each with its
condition `selectCond == c1 | selectCond == c2 | ...` and its `thenStmt`. -/
def whenClauses (selectCond : Expr) : List WhenStmt → List (Expr × Expr)
  | [] => []
  | .when (whenCond :: conds) thenStmt :: rest =>
    (whenCondition selectCond conds (.CallExpr "==" [selectCond.copy, whenCond]), thenStmt)
      :: whenClauses selectCond rest
  | _ :: rest => whenClauses selectCond rest

/-- The conditional chain of clauses in their order: each clause is the
`elseStmt`, in a block, of the clause before it, and `final` is the `elseStmt`
of the last one. -/
def selectChain : List (Expr × Expr) → ElseStmt → ElseStmt
  | [], final => final
  | (condExpr, thenStmt) :: rest, final => .block (.mk condExpr thenStmt (selectChain rest final))

/-- The final `elseStmt` of a select: the body of its otherwise clause, null
when it has none. -/
def finalElse : List Expr → ElseStmt
  | [] => .null
  | body :: _ => .stmt body

/-- Every statement is a when statement. -/
def allWhen : List WhenStmt → Bool
  | [] => true
  | .when _ _ :: rest => allWhen rest
  | .malformed :: _ => false

/-! ## Signatures of methods (functionResolution.cpp, lines 2038-2069) -/

/-- The loop of `possible_signature_match` from the formal `i` on, over the
formals of `fn` and of `gn` from that position: the names are compared with
`strcmp`. -/
def namesMatch : List ArgSymbol → List ArgSymbol → Bool
  | fa :: fs, ga :: gs => if fa.name ≠ ga.name then false else namesMatch fs gs
  | _, _ => true

/-- The function `possible_signature_match`.  The names of the functions are
canonical strings, so the comparison of their addresses is a comparison of
the strings; the loop starts at the third formal. -/
def possible_signature_match (fn gn : FnSymbol) : Bool :=
  if fn.name ≠ gn.name then false
  else if fn.formals.length ≠ gn.formals.length then false
  else namesMatch (fn.formals.drop 2) (gn.formals.drop 2)

/-- The loop of `signature_match` from the formal `i` on. -/
def namesAndTypesMatch : List ArgSymbol → List ArgSymbol → Bool
  | fa :: fs, ga :: gs =>
    if fa.name ≠ ga.name then false
    else if !fa.type.same ga.type then false
    else namesAndTypesMatch fs gs
  | _, _ => true

/-- The function `signature_match`. -/
def signature_match (fn gn : FnSymbol) : Bool :=
  if fn.name ≠ gn.name then false
  else if fn.formals.length ≠ gn.formals.length then false
  else namesAndTypesMatch (fn.formals.drop 2) (gn.formals.drop 2)

/-- The method `m(this, _mt, x: int(32))`. -/
def exampleMethodX : FnSymbol :=
  { ptr := 960, name := "m", isGeneric := false
    formals := [plainFormal 961 "_mt" dtMethodToken, plainFormal 962 "this" exampleP1,
      plainFormal 963 "x" (dtInt .INT_SIZE_32)] }

/-- The method `m(this, _mt, y: int(32))`, whose third formal has another name. -/
def exampleMethodY : FnSymbol :=
  { ptr := 970, name := "m", isGeneric := false
    formals := [plainFormal 971 "_mt" dtMethodToken, plainFormal 972 "this" exampleP3,
      plainFormal 973 "y" (dtInt .INT_SIZE_32)] }

/-! ## Propagation of initialisers (build.cpp, lines 587-604) -/

/-- A statement of a block: a `DefExpr` with the address of its symbol, its
`init` and its `exprType`, or another statement. -/
inductive Stmt where
  | DefExpr (sym : Nat) (init : Option Expr) (exprType : Option Expr)
  | Other (e : Expr)

/-- The loop of `backPropagateInitsTypes`, which goes through the statements
backward: the statements from the given one on are visited before it.  The
result is the values of `init` and `type` after the visit and the statements
as they are left. -/
def backPropagateLoop :
    List Stmt → Except Diagnostic (Option Expr × Option Expr × List Stmt)
  | [] => .ok (none, none, [])
  | stmt :: rest =>
    match backPropagateLoop rest with
    | .error d => .error d
    | .ok (init, type, done) =>
      match stmt with
      | .DefExpr sym defInit defType =>
        if defInit.isSome || defType.isSome then
          .ok (defInit, defType, .DefExpr sym defInit defType :: done)
        else
          .ok (init, type, .DefExpr sym (init.map Expr.copy) (type.map Expr.copy) :: done)
      | .Other _ => .error (.INT_FATAL "Major error in backPropagateInitsTypes")

/-- The function `backPropagateInitsTypes`: the statements of the block as it
leaves them. -/
def backPropagateInitsTypes (stmts : List Stmt) : Except Diagnostic (List Stmt) :=
  match backPropagateLoop stmts with
  | .error d => .error d
  | .ok (_, _, done) => .ok done

/-- The statement is a `DefExpr`. -/
def Stmt.isDef : Stmt → Bool
  | .DefExpr _ _ _ => true
  | .Other _ => false

/-- The nearest definition among the given statements that has an `init` or a
type expression: its `init` and its type expression. -/
def nearestTyped : List Stmt → Option (Option Expr × Option Expr)
  | [] => none
  | .DefExpr _ init exprType :: rest =>
    if init.isSome || exprType.isSome then some (init, exprType) else nearestTyped rest
  | .Other _ :: rest => nearestTyped rest

/-- The block in the words of the specification: a definition with an `init`
or a type stays, a definition with neither gets copies of those of the nearest
following definition that has one, and stays without when there is none. -/
def propagated : List Stmt → List Stmt
  | [] => []
  | .DefExpr sym init exprType :: rest =>
    (if init.isSome || exprType.isSome then Stmt.DefExpr sym init exprType
     else
      match nearestTyped rest with
      | some (nextInit, nextType) =>
        Stmt.DefExpr sym (nextInit.map Expr.copy) (nextType.map Expr.copy)
      | none => Stmt.DefExpr sym none none) :: propagated rest
  | .Other e :: rest => .Other e :: propagated rest

/-- The chain `top` after the clauses `clauses` have been added to it. -/
def extendChain : Option CondStmt → List (Expr × Expr) → Option CondStmt
  | none, [] => none
  | none, (condExpr, thenStmt) :: rest => some (.mk condExpr thenStmt (selectChain rest .null))
  | some chain, clauses => some (chain.setElse (selectChain clauses .null))

/-- The value of an integer literal: `int_value()` for a signed literal,
`uint_value()` for an unsigned one. -/
def literalValue (imm : Immediate) : Int :=
  if imm.const_kind = .NUM_KIND_INT then imm.int_value else imm.uint_value

/-- The integer width index of a number of bits, for 8, 16, 32 and 64. -/
def intWidthOf (n : Int) : Option IntSize :=
  if n = 8 then some .INT_SIZE_8
  else if n = 16 then some .INT_SIZE_16
  else if n = 32 then some .INT_SIZE_32
  else if n = 64 then some .INT_SIZE_64
  else none

/-- The real width index of a number of bits, for 32, 64 and 128. -/
def floatWidthOf (n : Int) : Option FloatSize :=
  if n = 32 then some .FLOAT_SIZE_32
  else if n = 64 then some .FLOAT_SIZE_64
  else if n = 128 then some .FLOAT_SIZE_128
  else none

/-- The complex width index of a number of bits, for 64, 128 and 256. -/
def complexWidthOf (n : Int) : Option ComplexSize :=
  if n = 64 then some .COMPLEX_SIZE_64
  else if n = 128 then some .COMPLEX_SIZE_128
  else if n = 256 then some .COMPLEX_SIZE_256
  else none

/-- The rewriting of a sizing call in the words of the specification: the
fixed-width type of the family `table` when the width is one of the family,
a user-fatal error otherwise. -/
def sizedOrFatal {Size : Type} (table : Size → Ty) (width : Option Size) (n : Int)
    (forFamily : String) : Except Diagnostic (Option Ty) :=
  match width with
  | some w => .ok (some (table w))
  | none => .error (.USR_FATAL ("illegal size " ++ toString n ++ forFamily))

/-! ## Predicates of the proofs on the order of candidates -/

/-- A chain of pairs of tests like the one of `compareFormal`: the first test
of a pair that holds gives `secondBetter`, the second one `firstBetter`. -/
def verdictChain : List (Bool × Bool) → Verdict
  | [] => .noPreference
  | (second, first) :: rest =>
    if second then .secondBetter else if first then .firstBetter else verdictChain rest

/-- The tests of `compareFormal` after the two on `instantiatedParam`, in
their order. -/
def formalTests (best : FnSymbol) (a : Actual) (arg arg2 : ArgSymbol) : List (Bool × Bool) :=
  [((canDispatch a.type a.param arg.type (some best)).2 &&
      !(canDispatch a.type a.param arg2.type (some best)).2,
    !(canDispatch a.type a.param arg.type (some best)).2 &&
      (canDispatch a.type a.param arg2.type (some best)).2),
   (arg.fromAny && !arg2.fromAny, !arg.fromAny && arg2.fromAny),
   (a.type.same arg2.type && !a.type.same arg.type,
    a.type.same arg.type && !a.type.same arg2.type),
   (moreSpecific best arg2.type arg.type && !arg2.type.same arg.type,
    moreSpecific best arg.type arg2.type && !arg2.type.same arg.type),
   (is_int_type arg2.type && is_uint_type arg.type,
    is_int_type arg.type && is_uint_type arg2.type)]

/-- What makes the candidate `A` discarded because of the candidate `B`: `B` is
not cleared and is strictly better at one position or at least as good at
every position. -/
def beats (actuals : List Actual) (fnA : FnSymbol) (afsA : List ArgSymbol) (B : Candidate) :
    Bool :=
  B.1.isSome &&
    (strictlyBetterSomewhere (verdicts fnA actuals afsA B.2) ||
     atLeastAsGoodEverywhere (verdicts fnA actuals afsA B.2))

/-- Every candidate that is not cleared has the name `name`. -/
def SameName (name : String) (candidates : List Candidate) : Prop :=
  ∀ c ∈ candidates, ∀ fn, c.1 = some fn → fn.name = name

/-- The candidate `f(x: int(32))` with its formal bound to the one actual. -/
def exampleSigned : Candidate :=
  (some exampleFInt, [plainFormal 741 "x" (dtInt .INT_SIZE_32)])

/-- The candidate `f(x: uint(32))` with its formal bound to the one actual. -/
def exampleUnsigned : Candidate :=
  (some exampleFUInt, [plainFormal 751 "x" (dtUInt .INT_SIZE_32)])

/-! ## Sibling lists (expr.cpp, lines 138-162 and 196-235) -/

/-- The fields that the list operations read and write, each as a map from
the address of an expression or of a list: `prev`, `next`, `list` and
`parentSymbol` of an `Expr`, `head`, `tail` and `length` of an `AList`.  A
null pointer is `none`. -/
structure Heap where
  prev : Nat → Option Nat
  next : Nat → Option Nat
  list : Nat → Option Nat
  parentSymbol : Nat → Option Nat
  head : Nat → Option Nat
  tail : Nat → Option Nat
  length : Nat → Int

/-- The helpers `sibling_insert_help` and `remove_help`, which are not part of
these sources: they keep the parent fields of a node and of the nodes below
it, and are given as maps on the field `parentSymbol`. -/
structure TreeHelpers where
  sibling_insert_help : (Nat → Option Nat) → Nat → Nat → (Nat → Option Nat)
  remove_help : (Nat → Option Nat) → Nat → (Nat → Option Nat)

/-- The assignment `list->head = v`, where `list` is not null. -/
def Heap.setHead (h : Heap) (list : Option Nat) (v : Option Nat) : Heap :=
  match list with
  | some l => { h with head := Function.update h.head l v }
  | none => h

/-- The assignment `list->tail = v`, where `list` is not null. -/
def Heap.setTail (h : Heap) (list : Option Nat) (v : Option Nat) : Heap :=
  match list with
  | some l => { h with tail := Function.update h.tail l v }
  | none => h

/-- The statements `list->length++` and `list->length--`, where `list` is not
null. -/
def Heap.addLength (h : Heap) (list : Option Nat) (d : Int) : Heap :=
  match list with
  | some l => { h with length := Function.update h.length l (h.length l + d) }
  | none => h

/-- The method `Expr::insertBefore`. -/
def Expr.insertBefore (helpers : TreeHelpers) (h : Heap) (this new_ast : Nat) :
    Except Diagnostic Heap :=
  if (h.parentSymbol new_ast).isSome then
    .error (.INT_FATAL "Argument is already in AST in Expr::insertBefore")
  else if (h.list this).isNone then
    .error (.INT_FATAL "Cannot call insertBefore on Expr not in a list")
  else if (h.list new_ast).isSome then
    .error (.INT_FATAL "Argument is in a list in Expr::insertBefore")
  else
    let h1 : Heap := { h with prev := Function.update h.prev new_ast (h.prev this) }
    let h2 : Heap := { h1 with next := Function.update h1.next new_ast (some this) }
    let h3 : Heap := { h2 with list := Function.update h2.list new_ast (h2.list this) }
    let h4 : Heap :=
      match h3.prev this with
      | some prev => { h3 with next := Function.update h3.next prev (some new_ast) }
      | none => h3.setHead (h3.list this) (some new_ast)
    let h5 : Heap := { h4 with prev := Function.update h4.prev this (some new_ast) }
    let h6 : Heap :=
      if (h5.parentSymbol this).isSome then
        { h5 with parentSymbol := helpers.sibling_insert_help h5.parentSymbol this new_ast }
      else h5
    .ok (h6.addLength (h6.list this) 1)

/-- The method `Expr::insertAfter`. -/
def Expr.insertAfter (helpers : TreeHelpers) (h : Heap) (this new_ast : Nat) :
    Except Diagnostic Heap :=
  if (h.parentSymbol new_ast).isSome then
    .error (.INT_FATAL "Argument is already in AST in Expr::insertAfter")
  else if (h.list this).isNone then
    .error (.INT_FATAL "Cannot call insertAfter on Expr not in a list")
  else if (h.list new_ast).isSome then
    .error (.INT_FATAL "Argument is in a list in Expr::insertAfter")
  else
    let h1 : Heap := { h with prev := Function.update h.prev new_ast (some this) }
    let h2 : Heap := { h1 with next := Function.update h1.next new_ast (h1.next this) }
    let h3 : Heap := { h2 with list := Function.update h2.list new_ast (h2.list this) }
    let h4 : Heap :=
      match h3.next this with
      | some next => { h3 with prev := Function.update h3.prev next (some new_ast) }
      | none => h3.setTail (h3.list this) (some new_ast)
    let h5 : Heap := { h4 with next := Function.update h4.next this (some new_ast) }
    let h6 : Heap :=
      if (h5.parentSymbol this).isSome then
        { h5 with parentSymbol := helpers.sibling_insert_help h5.parentSymbol this new_ast }
      else h5
    .ok (h6.addLength (h6.list this) 1)

/-- The method `Expr::remove`, for `this` null or not.  For an expression that
is in no list, `callReplaceChild` clears the field of the parent that holds it,
which is none of the fields of the heap. -/
def Expr.remove (helpers : TreeHelpers) (h : Heap) : Option Nat → Heap
  | none => h
  | some this =>
    let h8 : Heap :=
      if (h.list this).isSome then
        let h1 : Heap :=
          match h.next this with
          | some next => { h with prev := Function.update h.prev next (h.prev this) }
          | none => h.setTail (h.list this) (h.prev this)
        let h2 : Heap :=
          match h1.prev this with
          | some prev => { h1 with next := Function.update h1.next prev (h1.next this) }
          | none => h1.setHead (h1.list this) (h1.next this)
        let h3 : Heap := h2.addLength (h2.list this) (-1)
        let h4 : Heap := { h3 with next := Function.update h3.next this none }
        let h5 : Heap := { h4 with prev := Function.update h4.prev this none }
        { h5 with list := Function.update h5.list this none }
      else h
    if (h8.parentSymbol this).isSome then
      { h8 with parentSymbol := helpers.remove_help h8.parentSymbol this }
    else h8

/-- The first of the expressions `members`, `after` when there is none. -/
def firstOr (members : List Nat) (after : Option Nat) : Option Nat :=
  match members with
  | m :: _ => some m
  | [] => after

/-- The links of the members `members` of the list `list`, which follow the
expression `before` and are followed by `after`: the field `prev` of each is
the member before it, its field `next` the member after it, and its field
`list` is the list. -/
def linked (h : Heap) (list : Nat) : Option Nat → List Nat → Option Nat → Bool
  | _, [], _ => true
  | before, m :: rest, after =>
    h.prev m == before && h.list m == some list && h.next m == firstOr rest after &&
      linked h list (some m) rest after

/-- Well-formedness of the sibling list `list` with the members `members`, in
their order: no expression is a member twice, `head` and `tail` are the first
and the last member, `length` is the number of members, and the members are
linked from the first, which has no `prev`, to the last, which has no `next`. -/
def WellFormed (h : Heap) (list : Nat) (members : List Nat) : Prop :=
  members.Nodup ∧ h.head list = members.head? ∧ h.tail list = members.getLast? ∧
    h.length list = (members.length : Int) ∧ linked h list none members none = true

/-- The last of the expressions `members`, `before` when there is none. -/
def lastOr (members : List Nat) (before : Option Nat) : Option Nat :=
  match members.getLast? with
  | some m => some m
  | none => before

/-- Helpers that set the parent symbol of the inserted node to the one of its
sibling, and clear the one of a removed node. -/
def exampleHelpers : TreeHelpers :=
  { sibling_insert_help := fun parentSymbol sibling ast =>
      Function.update parentSymbol ast (parentSymbol sibling)
    remove_help := fun parentSymbol ast => Function.update parentSymbol ast none }

/-- A heap with the list 100 of the expressions 1, 2 and 3, in the function 50,
and the expression 4, which is in no list. -/
def exampleHeap : Heap :=
  { prev := fun e => if e = 2 then some 1 else if e = 3 then some 2 else none
    next := fun e => if e = 1 then some 2 else if e = 2 then some 3 else none
    list := fun e => if e = 1 ∨ e = 2 ∨ e = 3 then some 100 else none
    parentSymbol := fun e => if e = 1 ∨ e = 2 ∨ e = 3 then some 50 else none
    head := fun l => if l = 100 then some 1 else none
    tail := fun l => if l = 100 then some 3 else none
    length := fun l => if l = 100 then 3 else 0 }

/-! ## Traversal of an expression tree (expr.cpp, lines 5470-5518) -/

/-- An expression with the fields that `getFirstExpr` and `getNextExpr` read:
the child fields of each class, null ones as `none`, and the lists `body` and
`argList`.  `SymExpr`, `UnresolvedSymExpr` and `DefExpr` are leaves of the
traversal. -/
inductive Ast where
  | SymExpr (id : Nat)
  | UnresolvedSymExpr (id : Nat)
  | DefExpr (id : Nat)
  | BlockStmt (blockInfo : Option Ast) (body : List Ast)
  | CondStmt (condExpr : Option Ast) (thenStmt : Option Ast) (elseStmt : Option Ast)
  | GotoStmt (label : Option Ast)
  | CallExpr (baseExpr : Option Ast) (argList : List Ast)
  | NamedExpr (actual : Option Ast)

/-- The place of an expression in its parent: the field of the parent that
holds it, with the other fields of the parent; for a member of a list, the
members before it and after it, each in the order of the list.  The field
`parentExpr` of the expression is the parent, its field `next` the first
member after it. -/
inductive Frame where
  | blockInfo (body : List Ast)
  | body (blockInfo : Option Ast) (before after : List Ast)
  | condExpr (thenStmt elseStmt : Option Ast)
  | thenStmt (condExpr elseStmt : Option Ast)
  | elseStmt (condExpr thenStmt : Option Ast)
  | label
  | baseExpr (argList : List Ast)
  | argList (baseExpr : Option Ast) (before after : List Ast)
  | actual

/-- A pointer to an expression of a tree: the expression, and its place in
each of the expressions above it, from its parent up to the root. -/
abbrev Position := Ast × List Frame

/-- The field `parentExpr` of the expression `e` at the place `frame`. -/
def parentExpr : Frame → Ast → Ast
  | .blockInfo body, e => .BlockStmt (some e) body
  | .body blockInfo before after, e => .BlockStmt blockInfo (before ++ e :: after)
  | .condExpr thenStmt elseStmt, e => .CondStmt (some e) thenStmt elseStmt
  | .thenStmt condExpr elseStmt, e => .CondStmt condExpr (some e) elseStmt
  | .elseStmt condExpr thenStmt, e => .CondStmt condExpr thenStmt (some e)
  | .label, e => .GotoStmt (some e)
  | .baseExpr argList, e => .CallExpr (some e) argList
  | .argList baseExpr before after, e => .CallExpr baseExpr (before ++ e :: after)
  | .actual, e => .NamedExpr (some e)

/-- The function `getFirstExpr` for the expression `expr` at the place `frames`. -/
def getFirstExpr : Ast → List Frame → Position
  | .SymExpr id, frames => (.SymExpr id, frames)
  | .UnresolvedSymExpr id, frames => (.UnresolvedSymExpr id, frames)
  | .DefExpr id, frames => (.DefExpr id, frames)
  | .BlockStmt (some blockInfo) body, frames =>
    getFirstExpr blockInfo (.blockInfo body :: frames)
  | .BlockStmt none (head :: rest), frames => getFirstExpr head (.body none [] rest :: frames)
  | .BlockStmt none [], frames => (.BlockStmt none [], frames)
  | .CondStmt (some condExpr) thenStmt elseStmt, frames =>
    getFirstExpr condExpr (.condExpr thenStmt elseStmt :: frames)
  | .CondStmt none thenStmt elseStmt, frames => (.CondStmt none thenStmt elseStmt, frames)
  | .GotoStmt (some label), frames => getFirstExpr label (.label :: frames)
  | .GotoStmt none, frames => (.GotoStmt none, frames)
  | .CallExpr (some baseExpr) argList, frames =>
    getFirstExpr baseExpr (.baseExpr argList :: frames)
  | .CallExpr none (head :: rest), frames =>
    getFirstExpr head (.argList none [] rest :: frames)
  | .CallExpr none [], frames => (.CallExpr none [], frames)
  | .NamedExpr (some actual), frames => getFirstExpr actual (.actual :: frames)
  | .NamedExpr none, frames => (.NamedExpr none, frames)

/-- The function `getNextExpr`.  The first two cases are `expr->next`; the next
four are the tests on the class of `parentExpr`, with the tests that `expr`
is the `baseExpr`, the `condExpr`, the `thenStmt` or the `blockInfo` of the
parent and that the field after it is not null; the last but one is
`return expr->parentExpr`, and the last one `return NULL`, for the root. -/
def getNextExpr : Position → Option Position
  | (expr, .body blockInfo before (next :: after) :: up) =>
    some (getFirstExpr next (.body blockInfo (before ++ [expr]) after :: up))
  | (expr, .argList baseExpr before (next :: after) :: up) =>
    some (getFirstExpr next (.argList baseExpr (before ++ [expr]) after :: up))
  | (expr, .baseExpr (head :: rest) :: up) =>
    some (getFirstExpr head (.argList (some expr) [] rest :: up))
  | (expr, .condExpr (some thenStmt) elseStmt :: up) =>
    some (getFirstExpr thenStmt (.thenStmt (some expr) elseStmt :: up))
  | (expr, .thenStmt condExpr (some elseStmt) :: up) =>
    some (getFirstExpr elseStmt (.elseStmt condExpr (some expr) :: up))
  | (expr, .blockInfo (head :: rest) :: up) =>
    some (getFirstExpr head (.body (some expr) [] rest :: up))
  | (expr, frame :: up) => some (parentExpr frame expr, up)
  | (_, []) => none

/-- The loop that starts at a position and applies `getNextExpr` until the
root is reached: the positions visited, in their order.  `none` is a loop
that has not reached the root when the fuel is used up. -/
def visitFrom : Nat → Position → List Position → Option (List Position)
  | 0, _, _ => none
  | _ + 1, (expr, []), visited => some (visited ++ [(expr, [])])
  | fuel + 1, (expr, frame :: up), visited =>
    match getNextExpr (expr, frame :: up) with
    | some next => visitFrom fuel next (visited ++ [(expr, frame :: up)])
    | none => none

/-- The traversal of the tree with the root `r`: from `getFirstExpr(r)` by
`getNextExpr` until `r` is reached. -/
def traversal (fuel : Nat) (r : Ast) : Option (List Position) :=
  visitFrom fuel (getFirstExpr r []) []

mutual

/-- The number of expressions of a tree. -/
def Ast.size : Ast → Nat
  | .SymExpr _ => 1
  | .UnresolvedSymExpr _ => 1
  | .DefExpr _ => 1
  | .BlockStmt blockInfo body => 1 + Ast.sizeOption blockInfo + Ast.sizeList body
  | .CondStmt condExpr thenStmt elseStmt =>
    1 + Ast.sizeOption condExpr + Ast.sizeOption thenStmt + Ast.sizeOption elseStmt
  | .GotoStmt label => 1 + Ast.sizeOption label
  | .CallExpr baseExpr argList => 1 + Ast.sizeOption baseExpr + Ast.sizeList argList
  | .NamedExpr actual => 1 + Ast.sizeOption actual

/-- The number of expressions of a field. -/
def Ast.sizeOption : Option Ast → Nat
  | none => 0
  | some e => e.size

/-- The number of expressions of the trees of a list. -/
def Ast.sizeList : List Ast → Nat
  | [] => 0
  | e :: rest => e.size + Ast.sizeList rest

end

mutual

/-- A well-formed tree: every `CondStmt` has a `condExpr` and a `thenStmt`. -/
def Ast.wellFormed : Ast → Bool
  | .SymExpr _ => true
  | .UnresolvedSymExpr _ => true
  | .DefExpr _ => true
  | .BlockStmt blockInfo body => Ast.wellFormedOption blockInfo && Ast.wellFormedList body
  | .CondStmt condExpr thenStmt elseStmt =>
    condExpr.isSome && thenStmt.isSome && Ast.wellFormedOption condExpr &&
      Ast.wellFormedOption thenStmt && Ast.wellFormedOption elseStmt
  | .GotoStmt label => Ast.wellFormedOption label
  | .CallExpr baseExpr argList => Ast.wellFormedOption baseExpr && Ast.wellFormedList argList
  | .NamedExpr actual => Ast.wellFormedOption actual

/-- A well-formed field. -/
def Ast.wellFormedOption : Option Ast → Bool
  | none => true
  | some e => e.wellFormed

/-- Well-formed trees of a list. -/
def Ast.wellFormedList : List Ast → Bool
  | [] => true
  | e :: rest => e.wellFormed && Ast.wellFormedList rest

end

mutual

/-- The post-order of the subtree of the expression `expr` at the place
`frames`: the post-orders of its children, in the order of the fields and of
the lists, then the expression itself. -/
def postorder : Ast → List Frame → List Position
  | .SymExpr id, frames => [(.SymExpr id, frames)]
  | .UnresolvedSymExpr id, frames => [(.UnresolvedSymExpr id, frames)]
  | .DefExpr id, frames => [(.DefExpr id, frames)]
  | .BlockStmt blockInfo body, frames =>
    postorderOption blockInfo (.blockInfo body :: frames) ++
      postorderList (Frame.body blockInfo) [] body frames ++ [(.BlockStmt blockInfo body, frames)]
  | .CondStmt condExpr thenStmt elseStmt, frames =>
    postorderOption condExpr (.condExpr thenStmt elseStmt :: frames) ++
      postorderOption thenStmt (.thenStmt condExpr elseStmt :: frames) ++
      postorderOption elseStmt (.elseStmt condExpr thenStmt :: frames) ++
      [(.CondStmt condExpr thenStmt elseStmt, frames)]
  | .GotoStmt label, frames =>
    postorderOption label (.label :: frames) ++ [(.GotoStmt label, frames)]
  | .CallExpr baseExpr argList, frames =>
    postorderOption baseExpr (.baseExpr argList :: frames) ++
      postorderList (Frame.argList baseExpr) [] argList frames ++
      [(.CallExpr baseExpr argList, frames)]
  | .NamedExpr actual, frames =>
    postorderOption actual (.actual :: frames) ++ [(.NamedExpr actual, frames)]

/-- The post-order of a field. -/
def postorderOption : Option Ast → List Frame → List Position
  | none, _ => []
  | some e, frames => postorder e frames

/-- The post-order of the members of a list from the member after `before`. -/
def postorderList (place : List Ast → List Ast → Frame) :
    List Ast → List Ast → List Frame → List Position
  | _, [], _ => []
  | before, e :: rest, frames =>
    postorder e (place before rest :: frames) ++
      postorderList place (before ++ [e]) rest frames

end

/-- The tree of `if c then f(x, y) else { goto l }`. -/
def exampleTree : Ast :=
  .CondStmt (some (.SymExpr 1))
    (some (.CallExpr (some (.SymExpr 2)) [.SymExpr 3, .NamedExpr (some (.SymExpr 4))]))
    (some (.BlockStmt none [.DefExpr 5, .GotoStmt (some (.SymExpr 6))]))

/-- The loop after the visit of a position: it ends when the position is the
root and goes on from `getNextExpr` otherwise. -/
def visitAfter (fuel : Nat) (pos : Position) (visited : List Position) :
    Option (List Position) :=
  match pos with
  | (_, []) => some visited
  | (expr, frame :: up) =>
    match getNextExpr (expr, frame :: up) with
    | some next => visitFrom fuel next visited
    | none => none

/-! ## Helper lemmas -/

theorem wrapSigned_32_of_range (v : Int) (h : -2 ^ 31 ≤ v ∧ v < 2 ^ 31) :
    wrapSigned 32 v = v := by
  unfold wrapSigned
  norm_num at h ⊢
  omega

theorem coercionRules_of_no_literal (a f : Ty) (p : Option Symbol)
    (hp : literalOf p = none) : coercionRules a p f = coercionRules a none f := by
  unfold coercionRules
  rw [hp]
  rfl

theorem canCoerce_int_int (a b : IntSize) :
    canCoerce (dtInt a) none (dtInt b) = decide (a.bits < b.bits) := by
  cases a <;> cases b <;> rfl

theorem canCoerce_of_not_sync (a f : Ty) (p : Option Symbol)
    (h : a.pragmaSync = false) : canCoerce a p f = coercionRules a p f := by
  unfold canCoerce
  simp [h]

theorem dtInt_not_sync (a : IntSize) : (dtInt a).pragmaSync = false := by
  cases a <;> rfl

theorem dtUInt_not_sync (a : IntSize) : (dtUInt a).pragmaSync = false := by
  cases a <;> rfl

theorem int_value_intLiteral_32 (v : Int) (h : -2 ^ 31 ≤ v ∧ v < 2 ^ 31) :
    Immediate.int_value { const_kind := .NUM_KIND_INT, num_index := .INT_SIZE_32, v := v } = v :=
  wrapSigned_32_of_range v h

theorem canCoerce_uint_uint (a b : IntSize) :
    canCoerce (dtUInt a) none (dtUInt b) = decide (a.bits < b.bits) := by
  cases a <;> cases b <;> rfl

theorem canCoerce_uint_int (a b : IntSize) :
    canCoerce (dtUInt a) none (dtInt b) = decide (a.bits < b.bits) := by
  cases a <;> cases b <;> rfl

mutual

theorem canDispatch_of_no_literal : ∀ (a : Ty) (p : Option Symbol) (f : Ty)
    (fn : Option FnSymbol), literalOf p = none →
    canDispatch a p f fn = canDispatch a none f fn
  | .mk ptr c sync gen subs parents promo inst, p, f, fn, hp => by
    have h1 := canDispatchBase_of_no_literal subs p f hp
    have h2 := canDispatchParents_of_no_literal parents p f fn hp
    have h3 := coercionRules_of_no_literal (.mk ptr c sync gen subs parents promo inst) f p hp
    cases promo with
    | none => simp only [canDispatch, h1, h2, h3]
    | some sp =>
      have h4 := canDispatch_of_no_literal sp p f fn hp
      simp only [canDispatch, h1, h2, h3, h4]

theorem canDispatchBase_of_no_literal : ∀ (subs : List Ty) (p : Option Symbol) (f : Ty),
    literalOf p = none → canDispatchBase subs p f = canDispatchBase subs none f
  | [], _, _, _ => by simp only [canDispatchBase]
  | b :: _, p, f, hp => by
    simp only [canDispatchBase, canDispatch_of_no_literal b p f none hp]

theorem canDispatchParents_of_no_literal : ∀ (parents : List Ty) (p : Option Symbol) (f : Ty)
    (fn : Option FnSymbol), literalOf p = none →
    canDispatchParents parents p f fn = canDispatchParents parents none f fn
  | [], _, _, _, _ => by simp only [canDispatchParents]
  | t :: rest, p, f, fn, hp => by
    simp only [canDispatchParents, canDispatch_of_no_literal t p f fn hp,
      canDispatchParents_of_no_literal rest p f fn hp]

end

theorem canCoerce_of_no_literal (a f : Ty) (p : Option Symbol)
    (hp : literalOf p = none) : canCoerce a p f = canCoerce a none f := by
  unfold canCoerce
  rw [coercionRules_of_no_literal a f p hp]
  cases h : a.substitutions with
  | nil => rfl
  | cons b rest => simp only [canDispatch_of_no_literal b p f none hp]

theorem canDispatchParents_eq_any (parents : List Ty) (p : Option Symbol) (f : Ty)
    (fn : Option FnSymbol) :
    canDispatchParents parents p f fn =
      parents.any (fun parent => parent.same f || (canDispatch parent p f fn).1) := by
  induction parents with
  | nil => simp only [canDispatchParents, List.any_nil]
  | cons t rest ih => simp only [canDispatchParents, List.any_cons, ih]

/-- The body of `canDispatch` as the source has it, with the call of `canCoerce`
and the loop over the dispatch parents. -/
theorem canDispatch_eq (a : Ty) (p : Option Symbol) (f : Ty) (fn : Option FnSymbol) :
    canDispatch a p f fn =
      if a.same f then (true, false)
      else if a.same dtNil && f.same dtObject then (true, false)
      else if a.same dtNil && f.astClass == .ClassType .CLASS_CLASS then (true, false)
      else if canCoerce a p f then (true, false)
      else if a.dispatchParents.any
          (fun parent => parent.same f || (canDispatch parent p f fn).1) then (true, false)
      else if notAssign fn &&
          (match a.scalarPromotionType with
           | some sp => (canDispatch sp p f fn).1
           | none => false) then (true, true)
      else (false, false) := by
  cases a with
  | mk ptr c sync gen subs parents promo inst =>
    cases promo <;> cases subs <;>
      simp only [canDispatch, canCoerce, canDispatchBase, canDispatchParents_eq_any,
        Ty.pragmaSync, Ty.isGeneric, Ty.substitutions, Ty.dispatchParents,
        Ty.scalarPromotionType]

/-! ## The coercion lattice on the integer types -/

/-- C1: for signed integer types A and B of widths 8, 16, 32, 64 and an actual
that is no compile-time constant, `canCoerce(A, p, B)` is true exactly when A
is narrower than B, and likewise for unsigned A and B; `int8` coerces to
`int64` and `int64` does not coerce to `int8`. -/
theorem canCoerce_integer_widening (a b : IntSize) (p : Option Symbol)
    (hp : literalOf p = none) :
    (canCoerce (dtInt a) p (dtInt b) = true ↔ a.bits < b.bits) ∧
    (canCoerce (dtUInt a) p (dtUInt b) = true ↔ a.bits < b.bits) ∧
    canCoerce (dtInt .INT_SIZE_8) p (dtInt .INT_SIZE_64) = true ∧
    canCoerce (dtInt .INT_SIZE_64) p (dtInt .INT_SIZE_8) = false := by
  rw [canCoerce_of_no_literal _ _ p hp, canCoerce_of_no_literal _ _ p hp,
    canCoerce_of_no_literal _ _ p hp, canCoerce_of_no_literal _ _ p hp,
    canCoerce_int_int, canCoerce_uint_uint]
  refine ⟨by simp, by simp, rfl, rfl⟩

/-- Witness of C1 at `int16`, `int32` and a variable actual that is no literal. -/
theorem canCoerce_integer_widening_witness :
    literalOf (some { isVarSymbol := true, immediate := none, isTypeVariable := false }) = none ∧
    ((canCoerce (dtInt .INT_SIZE_16)
        (some { isVarSymbol := true, immediate := none, isTypeVariable := false })
        (dtInt .INT_SIZE_32) = true ↔ IntSize.INT_SIZE_16.bits < IntSize.INT_SIZE_32.bits) ∧
     (canCoerce (dtUInt .INT_SIZE_16)
        (some { isVarSymbol := true, immediate := none, isTypeVariable := false })
        (dtUInt .INT_SIZE_32) = true ↔ IntSize.INT_SIZE_16.bits < IntSize.INT_SIZE_32.bits) ∧
     canCoerce (dtInt .INT_SIZE_8)
        (some { isVarSymbol := true, immediate := none, isTypeVariable := false })
        (dtInt .INT_SIZE_64) = true ∧
     canCoerce (dtInt .INT_SIZE_64)
        (some { isVarSymbol := true, immediate := none, isTypeVariable := false })
        (dtInt .INT_SIZE_8) = false) :=
  ⟨rfl, canCoerce_integer_widening .INT_SIZE_16 .INT_SIZE_32 _ rfl⟩

/-- C2, as stated, fails: an actual of type `uint8` that is no compile-time
constant does coerce to `int64`. -/
theorem canCoerce_uint8_int64_holds :
    canCoerce (dtUInt .INT_SIZE_8) none (dtInt .INT_SIZE_64) = true := by
  decide

/-- C2, amended: for an unsigned actual that is no compile-time constant,
`canCoerce(uint(a), p, int(b))` is true exactly when `a < b`; so `uint8`
coerces to `int64`, and an unsigned integer as wide as the signed target or
wider coerces to it only through the constant-fits rule. -/
theorem canCoerce_unsigned_to_signed (a b : IntSize) (p : Option Symbol)
    (hp : literalOf p = none) :
    (canCoerce (dtUInt a) p (dtInt b) = true ↔ a.bits < b.bits) := by
  rw [canCoerce_of_no_literal _ _ p hp, canCoerce_uint_int]
  simp

/-- Witness of the amended C2 at `uint8` and `int64`. -/
theorem canCoerce_unsigned_to_signed_witness :
    literalOf none = none ∧
    (canCoerce (dtUInt .INT_SIZE_8) none (dtInt .INT_SIZE_64) = true ↔
      IntSize.INT_SIZE_8.bits < IntSize.INT_SIZE_64.bits) :=
  ⟨rfl, canCoerce_unsigned_to_signed .INT_SIZE_8 .INT_SIZE_64 none rfl⟩

/-! ## The constant-fits rule -/

theorem canCoerce_int32_literal_range (v : Int) (hv : -2 ^ 31 ≤ v ∧ v < 2 ^ 31)
    (n : IntSize) (hn : n = .INT_SIZE_8 ∨ n = .INT_SIZE_16) :
    (canCoerce (dtInt .INT_SIZE_32) (some (intLiteral .INT_SIZE_32 v)) (dtInt n) = true
      ↔ -2 ^ (n.bits - 1) ≤ v ∧ v ≤ 2 ^ (n.bits - 1) - 1) ∧
    (canCoerce (dtInt .INT_SIZE_32) (some (intLiteral .INT_SIZE_32 v)) (dtUInt n) = true
      ↔ 0 ≤ v ∧ v ≤ 2 ^ n.bits - 1) := by
  rw [canCoerce_of_not_sync _ _ _ (dtInt_not_sync _),
    canCoerce_of_not_sync _ _ _ (dtInt_not_sync _)]
  rcases hn with rfl | rfl
  · constructor
    · simp [coercionRules, is_int_type, is_uint_type, is_real_type, is_complex_type,
        is_imag_type, dtInt, dtUInt, dtReal, dtImag, dtComplex, dtBool, dtString,
        Ty.primitive, Ty.same, Ty.ptr, Ty.astClass, get_width, literalOf, intLiteral,
        fits_in_int, int_value_intLiteral_32 v hv, IntSize.bits]
    · by_cases h0 : v < 0
      · simp [coercionRules, is_int_type, is_uint_type, is_real_type, is_complex_type,
          is_imag_type, dtInt, dtUInt, dtReal, dtImag, dtComplex, dtBool, dtString,
          Ty.primitive, Ty.same, Ty.ptr, Ty.astClass, get_width, literalOf, intLiteral,
          fits_in_uint, int_value_intLiteral_32 v hv, IntSize.bits, h0]
      · simp [coercionRules, is_int_type, is_uint_type, is_real_type, is_complex_type,
          is_imag_type, dtInt, dtUInt, dtReal, dtImag, dtComplex, dtBool, dtString,
          Ty.primitive, Ty.same, Ty.ptr, Ty.astClass, get_width, literalOf, intLiteral,
          fits_in_uint, int_value_intLiteral_32 v hv, IntSize.bits, h0]
        omega
  · constructor
    · simp [coercionRules, is_int_type, is_uint_type, is_real_type, is_complex_type,
        is_imag_type, dtInt, dtUInt, dtReal, dtImag, dtComplex, dtBool, dtString,
        Ty.primitive, Ty.same, Ty.ptr, Ty.astClass, get_width, literalOf, intLiteral,
        fits_in_int, int_value_intLiteral_32 v hv, IntSize.bits]
    · by_cases h0 : v < 0
      · simp [coercionRules, is_int_type, is_uint_type, is_real_type, is_complex_type,
          is_imag_type, dtInt, dtUInt, dtReal, dtImag, dtComplex, dtBool, dtString,
          Ty.primitive, Ty.same, Ty.ptr, Ty.astClass, get_width, literalOf, intLiteral,
          fits_in_uint, int_value_intLiteral_32 v hv, IntSize.bits, h0]
      · simp [coercionRules, is_int_type, is_uint_type, is_real_type, is_complex_type,
          is_imag_type, dtInt, dtUInt, dtReal, dtImag, dtComplex, dtBool, dtString,
          Ty.primitive, Ty.same, Ty.ptr, Ty.astClass, get_width, literalOf, intLiteral,
          fits_in_uint, int_value_intLiteral_32 v hv, IntSize.bits, h0]
        omega

/-- C3: a compile-time constant of declared type `int32` with value `v` coerces
to `int(n)`, for `n` in 8, 16, exactly when `-2^(n-1) <= v <= 2^(n-1)-1`, and to
`uint(n)` exactly when `0 <= v <= 2^n - 1`. -/
theorem canCoerce_int32_literal_iff (v : Int) (hv : -2 ^ 31 ≤ v ∧ v < 2 ^ 31)
    (n : IntSize) (hn : n = .INT_SIZE_8 ∨ n = .INT_SIZE_16) :
    (canCoerce (dtInt .INT_SIZE_32) (some (intLiteral .INT_SIZE_32 v)) (dtInt n) = true
      ↔ -2 ^ (n.bits - 1) ≤ v ∧ v ≤ 2 ^ (n.bits - 1) - 1) ∧
    (canCoerce (dtInt .INT_SIZE_32) (some (intLiteral .INT_SIZE_32 v)) (dtUInt n) = true
      ↔ 0 ≤ v ∧ v ≤ 2 ^ n.bits - 1) :=
  canCoerce_int32_literal_range v hv n hn

/-- Witness of C3 at the value 100 and the target width 8. -/
theorem canCoerce_int32_literal_iff_witness :
    (-2 ^ 31 ≤ (100 : Int) ∧ (100 : Int) < 2 ^ 31) ∧
    (IntSize.INT_SIZE_8 = .INT_SIZE_8 ∨ IntSize.INT_SIZE_8 = .INT_SIZE_16) ∧
    ((canCoerce (dtInt .INT_SIZE_32) (some (intLiteral .INT_SIZE_32 100)) (dtInt .INT_SIZE_8)
        = true ↔ -2 ^ (IntSize.INT_SIZE_8.bits - 1) ≤ (100 : Int) ∧
          (100 : Int) ≤ 2 ^ (IntSize.INT_SIZE_8.bits - 1) - 1) ∧
     (canCoerce (dtInt .INT_SIZE_32) (some (intLiteral .INT_SIZE_32 100)) (dtUInt .INT_SIZE_8)
        = true ↔ 0 ≤ (100 : Int) ∧ (100 : Int) ≤ 2 ^ IntSize.INT_SIZE_8.bits - 1)) :=
  ⟨by decide, Or.inl rfl,
    canCoerce_int32_literal_iff 100 (by decide) .INT_SIZE_8 (Or.inl rfl)⟩

/-- C4, as stated, fails: the constant 200 of declared type `int32` does coerce
to `uint8`. -/
theorem canCoerce_literal_200_uint8_holds :
    canCoerce (dtInt .INT_SIZE_32) (some (intLiteral .INT_SIZE_32 200)) (dtUInt .INT_SIZE_8)
      = true := by
  decide

/-- C4, amended: the constants 200 and 100 of declared type `int32` both coerce
to `uint8`, their value passing the range test `u <= 255`; the constant 256
does not. -/
theorem canCoerce_literal_uint8_examples :
    fits_in_uint 8 { const_kind := .NUM_KIND_INT, num_index := .INT_SIZE_32, v := 200 }
      = some true ∧
    canCoerce (dtInt .INT_SIZE_32) (some (intLiteral .INT_SIZE_32 200)) (dtUInt .INT_SIZE_8)
      = true ∧
    canCoerce (dtInt .INT_SIZE_32) (some (intLiteral .INT_SIZE_32 100)) (dtUInt .INT_SIZE_8)
      = true ∧
    canCoerce (dtInt .INT_SIZE_32) (some (intLiteral .INT_SIZE_32 256)) (dtUInt .INT_SIZE_8)
      = false := by
  decide

/-- C5 at its failing input: for the 64-bit constant 0 the test `i > 0` of
`fits_in_uint` fails, so the constant does not coerce to `uint64`, while the
32-bit constant 0 passes the sibling branch of the same function. -/
theorem fits_in_uint_64_rejects_zero :
    fits_in_uint 64 { const_kind := .NUM_KIND_INT, num_index := .INT_SIZE_64, v := 0 }
      = some false ∧
    canCoerce (dtInt .INT_SIZE_64) (some (intLiteral .INT_SIZE_64 0)) (dtUInt .INT_SIZE_64)
      = false ∧
    fits_in_uint 64 { const_kind := .NUM_KIND_INT, num_index := .INT_SIZE_32, v := 0 }
      = some true ∧
    fits_in_uint 64 { const_kind := .NUM_KIND_INT, num_index := .INT_SIZE_64, v := 1 }
      = some true := by
  decide

theorem setterTokenMismatch_eq_clash (formal : ArgSymbol) (t : Ty) :
    setterTokenMismatch formal t = specSetterClash formal.type t := by
  unfold setterTokenMismatch specSetterClash
  cases formal.type.same dtSetterToken <;> cases t.same dtSetterToken <;> rfl

theorem find?_cons_true {α : Type} (p : α → Bool) (a : α) (l : List α) (h : p a = true) :
    (a :: l).find? p = some a := by
  simp [List.find?_cons, h]

theorem find?_cons_false {α : Type} (p : α → Bool) (a : α) (l : List α) (h : p a = false) :
    (a :: l).find? p = l.find? p := by
  simp [List.find?_cons, h]

theorem namedFormalLoop_find (a : Actual) (i : Nat) (n : String) (m : ActualFormalMap) :
    ∀ (fs : List ArgSymbol) (j : Nat),
      ((fs.enumFrom j).find? (fun jf => jf.2.name == n) = none ∧
        namedFormalLoop a i n fs j m = .returned false m) ∨
      (∃ jf, (fs.enumFrom j).find? (fun jf => jf.2.name == n) = some jf ∧
        jf.1 < j + fs.length ∧
        namedFormalLoop a i n fs j m =
          if setterTokenMismatch jf.2 a.type then .returned false (m.assign i jf.1 jf.2 a)
          else .continues (m.assign i jf.1 jf.2 a)) := by
  intro fs
  induction fs with
  | nil => intro j; left; simp [namedFormalLoop]
  | cons f rest ih =>
    intro j
    by_cases h : n = f.name
    · right
      refine ⟨(j, f), ?_, ?_, ?_⟩
      · simp [h]
      · simp
      · simp [namedFormalLoop, h]
    · have h2 : (f.name == n) = false := by
        simp only [beq_eq_false_iff_ne, ne_eq]
        exact fun e => h e.symm
      rcases ih (j + 1) with ⟨h3, h4⟩ | ⟨jf, h3, h4, h5⟩
      · left
        simp [namedFormalLoop, h, h2, h3, h4]
      · right
        refine ⟨jf, ?_, ?_, ?_⟩
        · simp [h2, h3]
        · simp only [List.length_cons]; omega
        · simp [namedFormalLoop, h, h5]

theorem positionalFormalLoop_find (fn : FnSymbol) (hg : fn.isGeneric = false)
    (a : Actual) (i : Nat) (m : ActualFormalMap) (bound : List Nat) :
    ∀ (fs : List ArgSymbol) (j : Nat),
      (∀ f ∈ fs, f.hasVariableExpr = false) →
      (∀ k, j ≤ k → k < j + fs.length →
        (m.formal_actuals.getD k none).isNone = !bound.contains k) →
      ((fs.enumFrom j).find? (fun jf => !bound.contains jf.1) = none ∧
        positionalFormalLoop fn a i fs j m = .returned false m) ∨
      (∃ jf, (fs.enumFrom j).find? (fun jf => !bound.contains jf.1) = some jf ∧
        jf.1 < j + fs.length ∧
        positionalFormalLoop fn a i fs j m =
          if setterTokenMismatch jf.2 a.type then .returned false (m.assign i jf.1 jf.2 a)
          else .continues (m.assign i jf.1 jf.2 a)) := by
  intro fs
  induction fs with
  | nil => intro j _ _; left; simp [positionalFormalLoop, hg]
  | cons f rest ih =>
    intro j hv hinv
    have hvf : f.hasVariableExpr = false := hv f (List.mem_cons_self _ _)
    have hj := hinv j (Nat.le_refl _) (by simp)
    by_cases h : bound.contains j = true
    · have hp : (fun jf : Nat × ArgSymbol => !bound.contains jf.1) (j, f) = false := by
        show (!bound.contains j) = false
        rw [h]; rfl
      have hnn : (m.formal_actuals.getD j none).isNone = false := by rw [hj, h]; rfl
      have hrest := ih (j + 1) (fun g hgm => hv g (List.mem_cons_of_mem _ hgm))
        (fun k h1 h2 => hinv k (by omega) (by simp only [List.length_cons]; omega))
      rw [List.enumFrom_cons,
        find?_cons_false (fun jf : Nat × ArgSymbol => !bound.contains jf.1) (j, f) _ hp]
      rcases hrest with ⟨h3, h4⟩ | ⟨jf, h3, h4, h5⟩
      · left
        refine ⟨h3, ?_⟩
        simp only [positionalFormalLoop, hvf, hnn]
        simpa using h4
      · right
        refine ⟨jf, h3, ?_, ?_⟩
        · simp only [List.length_cons]; omega
        · simp only [positionalFormalLoop, hvf, hnn]
          simpa using h5
    · have h' : bound.contains j = false := by
        cases hb : bound.contains j
        · rfl
        · exact absurd hb h
      have hp : (fun jf : Nat × ArgSymbol => !bound.contains jf.1) (j, f) = true := by
        show (!bound.contains j) = true
        rw [h']; rfl
      have hnn : (m.formal_actuals.getD j none).isNone = true := by rw [hj, h']; rfl
      right
      refine ⟨(j, f), ?_, ?_, ?_⟩
      · rw [List.enumFrom_cons,
          find?_cons_true (fun jf : Nat × ArgSymbol => !bound.contains jf.1) (j, f) _ hp]
      · simp
      · simp only [positionalFormalLoop, hvf, hnn]
        simp

theorem NullIffUnbound_assign (n : Nat) (b : SpecBinding) (i j : Nat) (f : ArgSymbol)
    (a : Actual) (hb : NullIffUnbound n b) (hj : j < n) :
    NullIffUnbound n { map := b.map.assign i j f a, bound := j :: b.bound } := by
  obtain ⟨hlen, hnull⟩ := hb
  refine ⟨by simp [ActualFormalMap.assign, hlen], ?_⟩
  intro k hk
  have hk' := hnull k hk
  by_cases hkj : j = k
  · subst hkj
    simp [ActualFormalMap.assign, List.getElem?_set, hlen, hj]
  · have hne : (k == j) = false := by
      simp only [beq_eq_false_iff_ne, ne_eq]
      exact fun e => hkj e.symm
    simp only [ActualFormalMap.assign, List.getD_eq_getElem?_getD, List.contains_cons, hne,
      Bool.false_or, List.getElem?_set_ne hkj]
    simpa using hk'

theorem bind_agrees (n : Nat) (b : SpecBinding) (i j : Nat) (f : ArgSymbol) (a : Actual)
    (hb : NullIffUnbound n b) (hj : j < n) :
    FlowAgrees
      (if setterTokenMismatch f a.type then .returned false (b.map.assign i j f a)
       else .continues (b.map.assign i j f a))
      (b.bind i a j f) ∧
    ∀ b1, b.bind i a j f = some b1 → NullIffUnbound n b1 := by
  unfold SpecBinding.bind
  rw [← setterTokenMismatch_eq_clash]
  cases h : setterTokenMismatch f a.type
  · refine ⟨by simp [FlowAgrees], ?_⟩
    intro b1 hb1
    simp only [Bool.false_eq_true, if_false, Option.some.injEq] at hb1
    rw [← hb1]
    exact NullIffUnbound_assign n b i j f a hb hj
  · refine ⟨by simp [FlowAgrees], ?_⟩
    intro b1 hb1
    simp at hb1

theorem namedActualsLoop_agrees (fn : FnSymbol) :
    ∀ (acts : List Actual) (i : Nat) (b : SpecBinding),
      NullIffUnbound fn.formals.length b →
      FlowAgrees (namedActualsLoop fn acts i b.map)
        ((acts.enumFrom i).foldlM (specBindNamed fn) b) ∧
      ∀ b1, (acts.enumFrom i).foldlM (specBindNamed fn) b = some b1 →
        NullIffUnbound fn.formals.length b1 := by
  intro acts
  induction acts with
  | nil =>
    intro i b hb
    refine ⟨by simp [namedActualsLoop, FlowAgrees], ?_⟩
    intro b1 h1
    simp at h1
    rw [← h1]; exact hb
  | cons a rest ih =>
    intro i b hb
    rw [List.enumFrom_cons, List.foldlM_cons]
    cases hn : a.name with
    | none =>
      have hs : specBindNamed fn b (i, a) = some b := by simp [specBindNamed, hn]
      rw [hs]
      simp only [namedActualsLoop, hn]
      exact ih (i + 1) b hb
    | some n =>
      rcases namedFormalLoop_find a i n b.map fn.formals 0 with ⟨h3, h4⟩ | ⟨jf, h3, h4, h5⟩
      · have hs : specBindNamed fn b (i, a) = none := by
          simp only [specBindNamed, hn, List.enum, h3]
        rw [hs]
        simp only [namedActualsLoop, hn, h4]
        exact ⟨⟨b.map, rfl⟩, fun b1 h1 => by simp at h1⟩
      · have hs : specBindNamed fn b (i, a) = b.bind i a jf.1 jf.2 := by
          simp only [specBindNamed, hn, List.enum, h3]
        rw [hs]
        have hjf : jf.1 < fn.formals.length := by omega
        obtain ⟨hflow, hinv⟩ := bind_agrees fn.formals.length b i jf.1 jf.2 a hb hjf
        simp only [namedActualsLoop, hn, h5]
        cases hbind : b.bind i a jf.1 jf.2 with
        | none =>
          rw [hbind] at hflow
          obtain ⟨m, hm⟩ := hflow
          rw [hm]
          exact ⟨⟨m, rfl⟩, fun b1 h1 => by simp at h1⟩
        | some b2 =>
          rw [hbind] at hflow
          simp only [FlowAgrees] at hflow
          rw [hflow]
          simpa using ih (i + 1) b2 (hinv b2 hbind)

theorem positionalActualsLoop_agrees (fn : FnSymbol) (hg : fn.isGeneric = false)
    (hv : ∀ f ∈ fn.formals, f.hasVariableExpr = false) :
    ∀ (acts : List Actual) (i : Nat) (b : SpecBinding),
      NullIffUnbound fn.formals.length b →
      FlowAgrees (positionalActualsLoop fn acts i b.map)
        ((acts.enumFrom i).foldlM (specBindPositional fn) b) := by
  intro acts
  induction acts with
  | nil =>
    intro i b _
    simp [positionalActualsLoop, FlowAgrees]
  | cons a rest ih =>
    intro i b hb
    rw [List.enumFrom_cons, List.foldlM_cons]
    cases hn : a.name with
    | some n =>
      have hs : specBindPositional fn b (i, a) = some b := by simp [specBindPositional, hn]
      rw [hs]
      simp only [positionalActualsLoop, hn]
      exact ih (i + 1) b hb
    | none =>
      rcases positionalFormalLoop_find fn hg a i b.map b.bound fn.formals 0 hv
          (fun k _ hk => hb.2 k (by omega)) with ⟨h3, h4⟩ | ⟨jf, h3, h4, h5⟩
      · have hs : specBindPositional fn b (i, a) = none := by
          simp only [specBindPositional, hn, List.enum, h3]
        rw [hs]
        simp only [positionalActualsLoop, hn, h4]
        exact ⟨b.map, rfl⟩
      · have hs : specBindPositional fn b (i, a) = b.bind i a jf.1 jf.2 := by
          simp only [specBindPositional, hn, List.enum, h3]
        rw [hs]
        have hjf : jf.1 < fn.formals.length := by omega
        obtain ⟨hflow, hinv⟩ := bind_agrees fn.formals.length b i jf.1 jf.2 a hb hjf
        simp only [positionalActualsLoop, hn, h5]
        cases hbind : b.bind i a jf.1 jf.2 with
        | none =>
          rw [hbind] at hflow
          obtain ⟨m, hm⟩ := hflow
          rw [hm]
          exact ⟨m, rfl⟩
        | some b2 =>
          rw [hbind] at hflow
          simp only [FlowAgrees] at hflow
          rw [hflow]
          simpa using ih (i + 1) b2 (hinv b2 hbind)

/-- C7: for a function that is not generic and has no variadic formal,
`computeActualFormalMap` is the specified binding: named actuals go to the
formal of their name, then each positional actual, in order, to the first
formal not yet bound; it returns true with the specified map when the
specified binding succeeds, and false exactly when that binding fails (a named
actual without a formal of its name, a positional actual without an unbound
formal, or a setter token paired with another type). -/
theorem computeActualFormalMap_refines_spec (fn : FnSymbol) (actuals : List Actual)
    (hg : fn.isGeneric = false) (hv : ∀ f ∈ fn.formals, f.hasVariableExpr = false) :
    match specActualFormalMap fn actuals with
    | some m => computeActualFormalMap fn actuals = (true, m)
    | none => (computeActualFormalMap fn actuals).1 = false := by
  let start : SpecBinding :=
    { map :=
        { formal_actuals := List.replicate fn.formals.length none
          formal_params := List.replicate fn.formals.length none
          actual_formals := List.replicate actuals.length none }
      bound := [] }
  have hstart : NullIffUnbound fn.formals.length start := by
    refine ⟨by simp [start], ?_⟩
    intro j hj
    simp [start, List.getElem?_replicate, hj]
  obtain ⟨h1, h2⟩ := namedActualsLoop_agrees fn actuals 0 start hstart
  unfold specActualFormalMap computeActualFormalMap
  rw [List.enum]
  change match (Option.bind (List.foldlM (specBindNamed fn) start (List.enumFrom 0 actuals))
      (fun b => List.foldlM (specBindPositional fn) b (List.enumFrom 0 actuals))).map
        (fun b => b.map) with
    | some m => (match namedActualsLoop fn actuals 0 start.map with
        | .returned value m => (value, m)
        | .continues m1 =>
          match positionalActualsLoop fn actuals 0 m1 with
          | .returned value m => (value, m)
          | .continues m2 => (true, m2)) = (true, m)
    | none => (match namedActualsLoop fn actuals 0 start.map with
        | .returned value m => (value, m)
        | .continues m1 =>
          match positionalActualsLoop fn actuals 0 m1 with
          | .returned value m => (value, m)
          | .continues m2 => (true, m2)).1 = false
  cases hnamed : List.foldlM (specBindNamed fn) start (List.enumFrom 0 actuals) with
  | none =>
    rw [hnamed] at h1
    obtain ⟨m, hm⟩ := h1
    rw [hm]
    rfl
  | some b1 =>
    rw [hnamed] at h1
    simp only [FlowAgrees] at h1
    rw [h1]
    have h3 := positionalActualsLoop_agrees fn hg hv actuals 0 b1 (h2 b1 hnamed)
    simp only [Option.bind]
    cases hpos : List.foldlM (specBindPositional fn) b1 (List.enumFrom 0 actuals) with
    | none =>
      rw [hpos] at h3
      obtain ⟨m, hm⟩ := h3
      rw [hm]
      rfl
    | some b2 =>
      rw [hpos] at h3
      simp only [FlowAgrees] at h3
      rw [h3]
      rfl

/-- Witness of C7 at the call `f(a, x = b, c)` of `f(x, y, z)`: the named actual
goes to `x`, the positional ones to `y` and `z`. -/
theorem computeActualFormalMap_refines_spec_witness :
    exampleF.isGeneric = false ∧
    (∀ f ∈ exampleF.formals, f.hasVariableExpr = false) ∧
    ((specActualFormalMap exampleF exampleCallF).map
        (fun m => m.actual_formals.map (Option.map (fun f => f.name)))
      = some [some "y", some "x", some "z"]) ∧
    (match specActualFormalMap exampleF exampleCallF with
     | some m => computeActualFormalMap exampleF exampleCallF = (true, m)
     | none => (computeActualFormalMap exampleF exampleCallF).1 = false) :=
  ⟨rfl, by decide, by decide,
    computeActualFormalMap_refines_spec exampleF exampleCallF rfl (by decide)⟩

/-! ## The feasibility filter -/

theorem expandVarArgs_of_no_variadic (env : ResolutionOracle) (fn : FnSymbol) (n : Nat)
    (hv : ∀ f ∈ fn.formals, f.hasVariableExpr = false) :
    expandVarArgs env fn n = some fn := by
  unfold expandVarArgs
  have h : fn.formals.all (fun arg => !arg.hasVariableExpr) = true := by
    rw [List.all_eq_true]
    intro f hf
    rw [hv f hf]
    rfl
  rw [if_pos h]

theorem addCandidate_of_plain (env : ResolutionOracle) (fuel : Nat) (cands : Candidates)
    (fn : FnSymbol) (actuals : List Actual) (hg : fn.isGeneric = false)
    (hv : ∀ f ∈ fn.formals, f.hasVariableExpr = false) :
    addCandidate env fuel cands fn actuals =
      some (if (computeActualFormalMap fn actuals).1 = true ∧
          feasibleLoop (resolveFormals fn) (computeActualFormalMap fn actuals).2
            (resolveFormals fn).formals 0 = true
        then cands.add (resolveFormals fn)
          ((computeActualFormalMap fn actuals).2.actual_formals.map (Option.map resolveFormal))
        else cands) := by
  unfold addCandidate
  rw [expandVarArgs_of_no_variadic env fn _ hv]
  show (match computeActualFormalMap fn actuals with
    | (false, _) => some cands
    | (true, m) =>
      if fn.isGeneric = true then
        match env.instantiateGeneric fn m with
        | none => some cands
        | some inst_fn =>
          match fuel with
          | 0 => none
          | fuel + 1 => addCandidate env fuel cands inst_fn actuals
      else
        if feasibleLoop (resolveFormals fn) m (resolveFormals fn).formals 0 = true then
          some (cands.add (resolveFormals fn) (List.map (Option.map resolveFormal) m.actual_formals))
        else some cands) = _
  rcases hc : computeActualFormalMap fn actuals with ⟨valid, m⟩
  cases valid
  · simp
  · simp only [hg, Bool.false_eq_true, if_false, true_and]
    by_cases hfe : feasibleLoop (resolveFormals fn) m (resolveFormals fn).formals 0 = true
    · simp [hfe]
    · simp [hfe]

theorem resolveFormals_formals (fn : FnSymbol) (hg : fn.isGeneric = false) :
    (resolveFormals fn).formals = fn.formals.map resolveFormal := by
  simp [resolveFormals, hg]

theorem resolveFormals_name (fn : FnSymbol) : (resolveFormals fn).name = fn.name := by
  unfold resolveFormals
  split <;> rfl

theorem resolveFormal_isTypeVariable (formal : ArgSymbol) :
    (resolveFormal formal).isTypeVariable = formal.isTypeVariable := by
  unfold resolveFormal
  split <;> rfl

theorem feasibleLoop_assign_first (fn : FnSymbol) (m : ActualFormalMap) (formal : ArgSymbol)
    (rest : List ArgSymbol) (hname : fn.name = "=")
    (hd : differsFrom (m.formal_actuals.getD 0 none) formal.type = true) :
    feasibleLoop fn m (formal :: rest) 0 = false := by
  unfold feasibleLoop
  rw [if_pos ⟨hname, rfl, hd⟩]

theorem feasibleLoop_type_actual (fn : FnSymbol) (m : ActualFormalMap) :
    ∀ (fs : List ArgSymbol) (j k : Nat) (formal : ArgSymbol) (s : Symbol),
      fs[k]? = some formal → formal.isTypeVariable = false →
      m.formal_params.getD (j + k) none = some s → s.isTypeVariable = true →
      feasibleLoop fn m fs j = false := by
  intro fs
  induction fs with
  | nil => intro j k formal s h; simp at h
  | cons f rest ih =>
    intro j k formal s hk hf hs hst
    unfold feasibleLoop
    cases k with
    | zero =>
      simp only [List.getElem?_cons_zero, Option.some.injEq] at hk
      subst hk
      simp only [Nat.add_zero] at hs
      rw [hs]
      simp [hf, hst]
    | succ k =>
      simp only [List.getElem?_cons_succ] at hk
      have hrest := ih (j + 1) k formal s hk hf (by rw [← hs]; congr 1; omega) hst
      rw [hrest]
      simp

/-- C8: a function named "=" that is not generic (and has no variadic formal)
is accepted by `addCandidate` only if the type of the actual bound to its
first formal is that formal's type itself; whenever the bound type is another
type, or the first formal is unbound, the candidate vectors stay as they
were, whether or not the actual would coerce or dispatch to the formal. -/
theorem addCandidate_assign_first_exact (env : ResolutionOracle) (fuel : Nat)
    (cands : Candidates) (fn : FnSymbol) (actuals : List Actual)
    (formal : ArgSymbol) (rest : List ArgSymbol)
    (hname : fn.name = "=") (hg : fn.isGeneric = false)
    (hv : ∀ f ∈ fn.formals, f.hasVariableExpr = false)
    (hf : fn.formals = formal :: rest) :
    (addCandidate env fuel cands fn actuals ≠ some cands →
      ∃ t, (computeActualFormalMap fn actuals).2.formal_actuals.getD 0 none = some t ∧
        t.same (resolveFormal formal).type = true) ∧
    (differsFrom ((computeActualFormalMap fn actuals).2.formal_actuals.getD 0 none)
        (resolveFormal formal).type = true →
      addCandidate env fuel cands fn actuals = some cands) := by
  have hrej : differsFrom ((computeActualFormalMap fn actuals).2.formal_actuals.getD 0 none)
        (resolveFormal formal).type = true →
      addCandidate env fuel cands fn actuals = some cands := by
    intro hd
    rw [addCandidate_of_plain env fuel cands fn actuals hg hv]
    have hloop : feasibleLoop (resolveFormals fn) (computeActualFormalMap fn actuals).2
        (resolveFormals fn).formals 0 = false := by
      rw [resolveFormals_formals fn hg, hf, List.map_cons]
      exact feasibleLoop_assign_first _ _ _ _ (by rw [resolveFormals_name, hname]) hd
    simp [hloop]
  refine ⟨?_, hrej⟩
  intro hacc
  cases hfa : (computeActualFormalMap fn actuals).2.formal_actuals.getD 0 none with
  | none =>
    exfalso
    apply hacc
    apply hrej
    rw [hfa]
    rfl
  | some t =>
    refine ⟨t, rfl, ?_⟩
    cases hsame : t.same (resolveFormal formal).type with
    | true => rfl
    | false =>
      exfalso
      apply hacc
      apply hrej
      rw [hfa]
      simp [differsFrom, hsame]

/-- C9, amended: `addCandidate` rejects a function that is not generic (and has
no variadic formal) whenever a formal that is no type variable is bound to an
actual that is a type. -/
theorem addCandidate_rejects_type_for_value_formal (env : ResolutionOracle) (fuel : Nat)
    (cands : Candidates) (fn : FnSymbol) (actuals : List Actual)
    (j : Nat) (formal : ArgSymbol) (s : Symbol)
    (hg : fn.isGeneric = false) (hv : ∀ f ∈ fn.formals, f.hasVariableExpr = false)
    (hj : fn.formals[j]? = some formal) (hformal : formal.isTypeVariable = false)
    (hs : (computeActualFormalMap fn actuals).2.formal_params.getD j none = some s)
    (hst : s.isTypeVariable = true) :
    addCandidate env fuel cands fn actuals = some cands := by
  rw [addCandidate_of_plain env fuel cands fn actuals hg hv]
  have hloop : feasibleLoop (resolveFormals fn) (computeActualFormalMap fn actuals).2
      (resolveFormals fn).formals 0 = false := by
    rw [resolveFormals_formals fn hg]
    apply feasibleLoop_type_actual _ _ _ 0 j (resolveFormal formal) s
    · rw [List.getElem?_map, hj]; rfl
    · rw [resolveFormal_isTypeVariable, hformal]
    · rw [Nat.zero_add]; exact hs
    · exact hst
  simp [hloop]

/-- Witness of C8 at the assignment of an `int(64)` to an `int(8)` with the
candidate `=(lhs: int(64), rhs: int(64))`: the first actual dispatches to the
first formal by coercion, and the candidate is rejected. -/
theorem addCandidate_assign_first_exact_witness :
    exampleAssign.name = "=" ∧ exampleAssign.isGeneric = false ∧
    (∀ f ∈ exampleAssign.formals, f.hasVariableExpr = false) ∧
    (canDispatch (dtInt .INT_SIZE_8) (some valueSymbol) (dtInt .INT_SIZE_64)
      (some exampleAssign)).1 = true ∧
    differsFrom
      ((computeActualFormalMap exampleAssign exampleAssignCall).2.formal_actuals.getD 0 none)
      (resolveFormal (plainFormal 201 "lhs" (dtInt .INT_SIZE_64))).type = true ∧
    addCandidate noOracle 0 noCandidates exampleAssign exampleAssignCall = some noCandidates :=
  ⟨rfl, rfl, by decide, by decide, by decide,
    (addCandidate_assign_first_exact noOracle 0 noCandidates exampleAssign exampleAssignCall
      (plainFormal 201 "lhs" (dtInt .INT_SIZE_64)) [plainFormal 202 "rhs" (dtInt .INT_SIZE_64)]
      rfl rfl (by decide) rfl).2 (by decide)⟩

/-- C9, as stated, fails: the formal `type t` of `g` is a type variable, the
actual of the call `g(a)` is a variable and no type, and `addCandidate` accepts
`g` as a candidate. -/
theorem addCandidate_accepts_value_for_type_formal :
    exampleTypeFormal.isTypeVariable = true ∧
    valueSymbol.isTypeVariable = false ∧
    (computeActualFormalMap exampleG exampleCallValue).2.formal_params.getD 0 none
      = some valueSymbol ∧
    addCandidate noOracle 0 noCandidates exampleG exampleCallValue
      = some (noCandidates.add exampleG [some exampleTypeFormal]) :=
  ⟨rfl, rfl, rfl, rfl⟩

/-- Witness of the amended C9 at the call `h(int(32))` of `h(x: int(32))`. -/
theorem addCandidate_rejects_type_for_value_formal_witness :
    exampleH.isGeneric = false ∧
    (∀ f ∈ exampleH.formals, f.hasVariableExpr = false) ∧
    exampleH.formals[0]? = some (plainFormal 401 "x" (dtInt .INT_SIZE_32)) ∧
    (plainFormal 401 "x" (dtInt .INT_SIZE_32)).isTypeVariable = false ∧
    (computeActualFormalMap exampleH exampleCallType).2.formal_params.getD 0 none
      = some typeSymbol ∧
    typeSymbol.isTypeVariable = true ∧
    addCandidate noOracle 0 noCandidates exampleH exampleCallType = some noCandidates :=
  ⟨rfl, by decide, rfl, rfl, rfl, rfl,
    addCandidate_rejects_type_for_value_formal noOracle 0 noCandidates exampleH exampleCallType
      0 (plainFormal 401 "x" (dtInt .INT_SIZE_32)) typeSymbol rfl (by decide) rfl rfl rfl rfl⟩

/-! ## Scalar promotion and the assignment operator -/

theorem coercionRules_congr (a b : Ty) (p : Option Symbol) (f : Ty)
    (hptr : a.ptr = b.ptr) (hcls : a.astClass = b.astClass) :
    coercionRules a p f = coercionRules b p f := by
  simp only [coercionRules, is_int_type, is_uint_type, is_real_type, is_imag_type,
    is_complex_type, get_width, Ty.same, hptr, hcls]

theorem erasePromotion_ptr (a : Ty) : a.erasePromotion.ptr = a.ptr := by
  cases a; simp [Ty.erasePromotion, Ty.ptr]

theorem erasePromotion_astClass (a : Ty) : a.erasePromotion.astClass = a.astClass := by
  cases a; simp [Ty.erasePromotion, Ty.astClass]

theorem same_mk (ptr : Nat) (c : TypeClass) (sync gen : Bool) (subs parents : List Ty)
    (promo inst : Option Ty) (f : Ty) :
    (Ty.mk ptr c sync gen subs parents promo inst).same f = (ptr == f.ptr) := rfl

theorem same_erasePromotion (a f : Ty) : a.erasePromotion.same f = a.same f := by
  simp only [Ty.same, erasePromotion_ptr]

mutual

theorem canDispatch_erasePromotion : ∀ (a : Ty) (p : Option Symbol) (f : Ty)
    (fn : Option FnSymbol), notAssign fn = false →
    canDispatch a.erasePromotion p f fn = canDispatch a p f fn
  | .mk ptr c sync gen subs parents promo inst, p, f, fn, hfn => by
    have h1 := canDispatchBase_erasePromotion subs p f
    have h2 := canDispatchParents_erasePromotion parents p f fn hfn
    have h3 := coercionRules_congr
      (.mk ptr c sync gen (Ty.erasePromotionList subs) (Ty.erasePromotionList parents) none inst)
      (.mk ptr c sync gen subs parents promo inst) p f rfl rfl
    cases promo with
    | none => simp only [Ty.erasePromotion, canDispatch, h1, h2, h3, same_mk]
    | some sp =>
      rw [coercionRules_congr (.mk ptr c sync gen subs parents (some sp) inst)
        (.mk ptr c sync gen subs parents none inst) p f rfl rfl] at h3
      simp only [Ty.erasePromotion, canDispatch, h1, h2, h3, hfn, same_mk, Bool.false_and]
      rw [coercionRules_congr (.mk ptr c sync gen subs parents (some sp) inst)
        (.mk ptr c sync gen subs parents none inst) p f rfl rfl]

theorem canDispatchBase_erasePromotion : ∀ (subs : List Ty) (p : Option Symbol) (f : Ty),
    canDispatchBase (Ty.erasePromotionList subs) p f = canDispatchBase subs p f
  | [], _, _ => by simp only [Ty.erasePromotionList]
  | b :: _, p, f => by
    simp only [Ty.erasePromotionList, canDispatchBase,
      canDispatch_erasePromotion b p f none rfl]

theorem canDispatchParents_erasePromotion : ∀ (parents : List Ty) (p : Option Symbol)
    (f : Ty) (fn : Option FnSymbol), notAssign fn = false →
    canDispatchParents (Ty.erasePromotionList parents) p f fn = canDispatchParents parents p f fn
  | [], _, _, _, _ => by simp only [Ty.erasePromotionList]
  | t :: rest, p, f, fn, hfn => by
    simp only [Ty.erasePromotionList, canDispatchParents, same_erasePromotion,
      canDispatch_erasePromotion t p f fn hfn,
      canDispatchParents_erasePromotion rest p f fn hfn]

end

theorem notAssign_of_assign (fn : FnSymbol) (h : fn.name = "=") :
    notAssign (some fn) = false := by
  simp [notAssign, h]

theorem canDispatch_flag_of_assign (a : Ty) (p : Option Symbol) (f : Ty)
    (fn : Option FnSymbol) (hfn : notAssign fn = false) : (canDispatch a p f fn).2 = false := by
  cases a with
  | mk ptr c sync gen subs parents promo inst =>
    cases promo with
    | none =>
      simp only [canDispatch, hfn, Bool.false_and]
      split_ifs <;> first | rfl | contradiction
    | some sp =>
      simp only [canDispatch, hfn, Bool.false_and]
      split_ifs <;> first | rfl | contradiction

theorem canDispatch_withoutPromotion (a : Ty) (p : Option Symbol) (f : Ty)
    (fn : Option FnSymbol) (hfn : notAssign fn = false) :
    canDispatch a.withoutPromotion p f fn = canDispatch a p f fn := by
  cases a with
  | mk ptr c sync gen subs parents promo inst =>
    cases promo with
    | none => rfl
    | some sp =>
      simp only [Ty.withoutPromotion, canDispatch, hfn, Bool.false_and, same_mk]
      rw [coercionRules_congr (.mk ptr c sync gen subs parents (some sp) inst)
        (.mk ptr c sync gen subs parents none inst) p f rfl rfl]

/-- C10: for a function named "=", `canDispatch` gives the same result, value
and flag, when the `scalarPromotionType` of the actual type is cleared, and
when every `scalarPromotionType` below it is cleared as well; it never sets
`require_scalar_promotion`; and `build_promotion_wrapper` returns the
function itself. -/
theorem canDispatch_assign_ignores_promotion (fn : FnSymbol) (hname : fn.name = "=")
    (a : Ty) (p : Option Symbol) (f : Ty) :
    canDispatch a p f (some fn) = canDispatch a.withoutPromotion p f (some fn) ∧
    canDispatch a p f (some fn) = canDispatch a.erasePromotion p f (some fn) ∧
    (canDispatch a p f (some fn)).2 = false ∧
    ∀ (promotion_wrapper : FnSymbol → List (ArgSymbol × Ty) → Bool → FnSymbol)
      (actuals : List Actual) (isSquare : Bool),
      build_promotion_wrapper promotion_wrapper fn actuals isSquare = fn := by
  have hfn := notAssign_of_assign fn hname
  refine ⟨(canDispatch_withoutPromotion a p f _ hfn).symm,
    (canDispatch_erasePromotion a p f _ hfn).symm,
    canDispatch_flag_of_assign a p f _ hfn, ?_⟩
  intro pw actuals isSquare
  simp [build_promotion_wrapper, hname]

/-- Witness of C10 at an actual type whose scalar promotion type is `int(32)`:
it does not dispatch to `int(32)` for "=", while it does, by promotion, for
"+". -/
theorem canDispatch_assign_ignores_promotion_witness :
    exampleAssign.name = "=" ∧
    canDispatch exampleArrayType none (dtInt .INT_SIZE_32) (some examplePlus) = (true, true) ∧
    canDispatch exampleArrayType none (dtInt .INT_SIZE_32) (some exampleAssign)
      = (false, false) ∧
    (canDispatch exampleArrayType none (dtInt .INT_SIZE_32) (some exampleAssign) =
        canDispatch exampleArrayType.withoutPromotion none (dtInt .INT_SIZE_32)
          (some exampleAssign) ∧
     canDispatch exampleArrayType none (dtInt .INT_SIZE_32) (some exampleAssign) =
        canDispatch exampleArrayType.erasePromotion none (dtInt .INT_SIZE_32)
          (some exampleAssign) ∧
     (canDispatch exampleArrayType none (dtInt .INT_SIZE_32) (some exampleAssign)).2 = false ∧
     ∀ (promotion_wrapper : FnSymbol → List (ArgSymbol × Ty) → Bool → FnSymbol)
       (actuals : List Actual) (isSquare : Bool),
       build_promotion_wrapper promotion_wrapper exampleAssign actuals isSquare
         = exampleAssign) :=
  ⟨rfl, by decide, by decide,
    canDispatch_assign_ignores_promotion exampleAssign rfl exampleArrayType none
      (dtInt .INT_SIZE_32)⟩

/-! ## Ranking of candidates -/

theorem verdict_bne_first :
    (Verdict.secondBetter != Verdict.firstBetter) = true ∧
    (Verdict.firstBetter != Verdict.firstBetter) = false ∧
    (Verdict.noPreference != Verdict.firstBetter) = true := by
  decide

theorem verdict_beq_second :
    (Verdict.secondBetter == Verdict.secondBetter) = true ∧
    (Verdict.firstBetter == Verdict.secondBetter) = false ∧
    (Verdict.noPreference == Verdict.secondBetter) = false := by
  decide

theorem compareFormals_eq_verdicts (best : FnSymbol) :
    ∀ (actuals : List Actual) (afs afs2 : List ArgSymbol) (better as_good : Bool),
      compareFormals best actuals afs afs2 (better, as_good) =
        (better || strictlyBetterSomewhere (verdicts best actuals afs afs2),
         as_good && atLeastAsGoodEverywhere (verdicts best actuals afs afs2)) := by
  intro actuals
  induction actuals with
  | nil =>
    intro afs afs2 better as_good
    simp [compareFormals, verdicts, strictlyBetterSomewhere, atLeastAsGoodEverywhere]
  | cons a rest ih =>
    intro afs afs2 better as_good
    cases afs with
    | nil => simp [compareFormals, verdicts, strictlyBetterSomewhere, atLeastAsGoodEverywhere]
    | cons arg afs =>
      cases afs2 with
      | nil =>
        simp [compareFormals, verdicts, strictlyBetterSomewhere, atLeastAsGoodEverywhere]
      | cons arg2 afs2 =>
        simp only [compareFormals, verdicts]
        cases h : compareFormal best a arg arg2 <;>
          simp [ih, strictlyBetterSomewhere, atLeastAsGoodEverywhere, Bool.or_assoc,
            Bool.and_assoc, verdict_bne_first, verdict_beq_second]

theorem survivesFrom_eq (best : FnSymbol) (afs : List ArgSymbol) (i : Nat)
    (actuals : List Actual) :
    ∀ (rest : List Candidate) (j : Nat),
      survivesFrom best afs i actuals rest j =
        !(rest.enumFrom j).any (fun jB =>
          decide (jB.1 ≠ i) && jB.2.1.isSome &&
            (strictlyBetterSomewhere (verdicts best actuals afs jB.2.2) ||
             atLeastAsGoodEverywhere (verdicts best actuals afs jB.2.2))) := by
  intro rest
  induction rest with
  | nil => intro j; simp [survivesFrom]
  | cons c rest ih =>
    intro j
    obtain ⟨fn2, afs2⟩ := c
    simp only [survivesFrom, List.enumFrom_cons, List.any_cons, compareFormals_eq_verdicts,
      Bool.false_or, Bool.true_and, ih]
    by_cases hij : i = j
    · subst hij; simp
    · cases hfn : fn2.isSome
      · simp [hij]
      · have hji : j ≠ i := fun e => hij e.symm
        simp only [hij, hji, ne_eq, not_false_eq_true, and_self, if_true, decide_True,
          Bool.true_and]
        cases strictlyBetterSomewhere (verdicts best actuals afs afs2) ||
          atLeastAsGoodEverywhere (verdicts best actuals afs afs2) <;> simp

theorem survivesFrom_eq_not_discarded (all : List Candidate) (actuals : List Actual)
    (i : Nat) (fn : FnSymbol) (afs : List ArgSymbol) :
    survivesFrom fn afs i actuals all 0 = !codeDiscarded all actuals i fn afs := by
  rw [survivesFrom_eq]
  rfl

theorem bestFrom_eq_find (all : List Candidate) (actuals : List Actual) :
    ∀ (rest : List Candidate) (i : Nat) (last : Option (List ArgSymbol)),
      (bestFrom all actuals rest i last).1 =
        ((rest.enumFrom i).find? (fun iA =>
          match iA.2.1 with
          | some fn => !codeDiscarded all actuals iA.1 fn iA.2.2
          | none => false)).bind (fun iA => iA.2.1) := by
  intro rest
  induction rest with
  | nil => intro i last; simp [bestFrom]
  | cons c rest ih =>
    intro i last
    obtain ⟨fn, afs⟩ := c
    cases fn with
    | none =>
      simp only [bestFrom, List.enumFrom_cons, ih]
      rw [find?_cons_false]
      rfl
    | some fn =>
      simp only [bestFrom, List.enumFrom_cons, survivesFrom_eq_not_discarded]
      cases hd : codeDiscarded all actuals i fn afs
      · rw [find?_cons_true]
        · simp
        · simp [hd]
      · rw [find?_cons_false]
        · simp [ih]
        · simp [hd]

/-- C11, as stated, fails: for the call `f(d, i)` and the candidates
`f(P3, int(8))`, `f(P2, int(16))`, `f(P1, int(32))` the specified rule discards
all but the first candidate and returns it, while `disambiguate_by_match`
returns no function: the first candidate is strictly better than the third
in the second position and the third is strictly better in the first. -/
theorem disambiguate_by_match_differs_from_spec :
    specDisambiguate exampleCandidatesXYZ exampleCallDI = some exampleFX ∧
    (disambiguate_by_match exampleCandidatesXYZ exampleCallDI).1 = none :=
  ⟨rfl, rfl⟩

/-- C11, amended: `disambiguate_by_match` discards a candidate `A` exactly when
some other candidate `B` is strictly better than `A` at one actual position,
or at least as good as `A` at every position; it returns the first candidate
of the vector that is not discarded, and no function when every candidate is
discarded. -/
theorem disambiguate_by_match_eq_firstUndiscarded (candidates : List Candidate)
    (actuals : List Actual) :
    (disambiguate_by_match candidates actuals).1 = firstUndiscarded candidates actuals := by
  unfold disambiguate_by_match firstUndiscarded
  rw [bestFrom_eq_find]
  rfl

mutual

theorem canDispatch_congr_fn : ∀ (a : Ty) (p : Option Symbol) (f : Ty)
    (fn fn2 : Option FnSymbol), notAssign fn = notAssign fn2 →
    canDispatch a p f fn = canDispatch a p f fn2
  | .mk ptr c sync gen subs parents promo inst, p, f, fn, fn2, h => by
    have h2 := canDispatchParents_congr_fn parents p f fn fn2 h
    cases promo with
    | none => simp only [canDispatch, h2, h]
    | some sp =>
      have h3 := canDispatch_congr_fn sp p f fn fn2 h
      simp only [canDispatch, h2, h3, h]

theorem canDispatchParents_congr_fn : ∀ (parents : List Ty) (p : Option Symbol) (f : Ty)
    (fn fn2 : Option FnSymbol), notAssign fn = notAssign fn2 →
    canDispatchParents parents p f fn = canDispatchParents parents p f fn2
  | [], _, _, _, _, _ => by simp only [canDispatchParents]
  | t :: rest, p, f, fn, fn2, h => by
    simp only [canDispatchParents, canDispatch_congr_fn t p f fn fn2 h,
      canDispatchParents_congr_fn rest p f fn fn2 h]

end

theorem notAssign_of_same_name (fn fn2 : FnSymbol) (h : fn.name = fn2.name) :
    notAssign (some fn) = notAssign (some fn2) := by
  simp [notAssign, h]

theorem moreSpecific_congr_fn (fn fn2 : FnSymbol) (h : fn.name = fn2.name) (a f : Ty) :
    moreSpecific fn a f = moreSpecific fn2 a f := by
  unfold moreSpecific
  rw [canDispatch_congr_fn a none f _ _ (notAssign_of_same_name fn fn2 h)]

theorem same_comm (a b : Ty) : a.same b = b.same a := by
  unfold Ty.same
  cases h : a.ptr == b.ptr
  · have h1 : ¬ a.ptr = b.ptr := by simpa using h
    have h2 : ¬ b.ptr = a.ptr := fun e => h1 e.symm
    simp [h2]
  · have h1 : a.ptr = b.ptr := by simpa using h
    simp [h1]

theorem is_int_type_iff (t : Ty) :
    is_int_type t = true ↔ t.ptr = 10 ∨ t.ptr = 11 ∨ t.ptr = 12 ∨ t.ptr = 13 := by
  have h8 : (dtInt .INT_SIZE_8).ptr = 10 := rfl
  have h16 : (dtInt .INT_SIZE_16).ptr = 11 := rfl
  have h32 : (dtInt .INT_SIZE_32).ptr = 12 := rfl
  have h64 : (dtInt .INT_SIZE_64).ptr = 13 := rfl
  simp only [is_int_type, Ty.same, h8, h16, h32, h64, Bool.or_eq_true, beq_iff_eq]
  omega

theorem is_uint_type_iff (t : Ty) :
    is_uint_type t = true ↔ t.ptr = 20 ∨ t.ptr = 21 ∨ t.ptr = 22 ∨ t.ptr = 23 := by
  have h8 : (dtUInt .INT_SIZE_8).ptr = 20 := rfl
  have h16 : (dtUInt .INT_SIZE_16).ptr = 21 := rfl
  have h32 : (dtUInt .INT_SIZE_32).ptr = 22 := rfl
  have h64 : (dtUInt .INT_SIZE_64).ptr = 23 := rfl
  simp only [is_uint_type, Ty.same, h8, h16, h32, h64, Bool.or_eq_true, beq_iff_eq]
  omega

theorem not_same_of_int_uint (s u : Ty) (hs : is_int_type s = true)
    (hu : is_uint_type u = true) : s.same u = false := by
  rw [is_int_type_iff] at hs
  rw [is_uint_type_iff] at hu
  unfold Ty.same
  cases h : s.ptr == u.ptr
  · rfl
  · have h1 : s.ptr = u.ptr := by simpa using h
    omega

theorem not_uint_of_int (s : Ty) (hs : is_int_type s = true) : is_uint_type s = false := by
  rw [is_int_type_iff] at hs
  cases h : is_uint_type s
  · rfl
  · rw [is_uint_type_iff] at h
    omega

theorem not_int_of_uint (u : Ty) (hu : is_uint_type u = true) : is_int_type u = false := by
  rw [is_uint_type_iff] at hu
  cases h : is_int_type u
  · rfl
  · rw [is_int_type_iff] at h
    omega

theorem compareFormal_signed_first (best : FnSymbol) (a : Actual) (argS argU : ArgSymbol)
    (hS : is_int_type argS.type = true) (hU : is_uint_type argU.type = true)
    (hpromo : (canDispatch a.type a.param argS.type (some best)).2 =
      (canDispatch a.type a.param argU.type (some best)).2)
    (hany : argS.fromAny = argU.fromAny)
    (hexactS : a.type.same argS.type = false) (hexactU : a.type.same argU.type = false)
    (hspecS : moreSpecific best argS.type argU.type = false)
    (hspecU : moreSpecific best argU.type argS.type = false) :
    compareFormal best a argS argU = .firstBetter := by
  have hne := not_same_of_int_uint _ _ hS hU
  unfold compareFormal
  simp [hne, hpromo, hany, hexactS, hexactU, hspecS, hspecU, hS, hU,
    not_uint_of_int _ hS, not_int_of_uint _ hU]

theorem compareFormal_signed_second (best : FnSymbol) (a : Actual) (argS argU : ArgSymbol)
    (hS : is_int_type argS.type = true) (hU : is_uint_type argU.type = true)
    (hpromo : (canDispatch a.type a.param argS.type (some best)).2 =
      (canDispatch a.type a.param argU.type (some best)).2)
    (hany : argS.fromAny = argU.fromAny)
    (hexactS : a.type.same argS.type = false) (hexactU : a.type.same argU.type = false)
    (hspecS : moreSpecific best argS.type argU.type = false)
    (hspecU : moreSpecific best argU.type argS.type = false) :
    compareFormal best a argU argS = .secondBetter := by
  have hne := not_same_of_int_uint _ _ hS hU
  have hne2 : argU.type.same argS.type = false := by rw [same_comm]; exact hne
  unfold compareFormal
  simp [hne, hne2, hpromo, hany, hexactS, hexactU, hspecS, hspecU, hS, hU,
    not_uint_of_int _ hS, not_int_of_uint _ hU]

/-- C12: when nothing else tells two candidates apart at an argument position
(scalar promotion, generic marker, exact match and more-specific type make no
difference) and one formal is a signed and the other an unsigned integer type,
the position counts for the candidate with the signed formal, whichever of the
two is compared against the other; with one actual, `disambiguate_by_match`
returns the candidate with the signed formal in either order of the
candidates. -/
theorem disambiguate_by_match_prefers_signed (fS fU : FnSymbol) (argS argU : ArgSymbol)
    (a : Actual) (hname : fS.name = fU.name)
    (hS : is_int_type argS.type = true) (hU : is_uint_type argU.type = true)
    (hpromo : (canDispatch a.type a.param argS.type (some fS)).2 =
      (canDispatch a.type a.param argU.type (some fS)).2)
    (hany : argS.fromAny = argU.fromAny)
    (hexactS : a.type.same argS.type = false) (hexactU : a.type.same argU.type = false)
    (hspecS : moreSpecific fS argS.type argU.type = false)
    (hspecU : moreSpecific fS argU.type argS.type = false) :
    compareFormal fS a argS argU = .firstBetter ∧
    compareFormal fU a argU argS = .secondBetter ∧
    (disambiguate_by_match [(some fS, [argS]), (some fU, [argU])] [a]).1 = some fS ∧
    (disambiguate_by_match [(some fU, [argU]), (some fS, [argS])] [a]).1 = some fS := by
  have h1 := compareFormal_signed_first fS a argS argU hS hU hpromo hany hexactS hexactU
    hspecS hspecU
  have hpromo2 : (canDispatch a.type a.param argS.type (some fU)).2 =
      (canDispatch a.type a.param argU.type (some fU)).2 := by
    rw [← canDispatch_congr_fn _ _ _ _ _ (notAssign_of_same_name fS fU hname),
      ← canDispatch_congr_fn _ _ _ _ _ (notAssign_of_same_name fS fU hname)]
    exact hpromo
  have h2 := compareFormal_signed_second fU a argS argU hS hU hpromo2 hany hexactS hexactU
    (by rw [← moreSpecific_congr_fn fS fU hname]; exact hspecS)
    (by rw [← moreSpecific_congr_fn fS fU hname]; exact hspecU)
  refine ⟨h1, h2, ?_, ?_⟩
  · simp [disambiguate_by_match, bestFrom, survivesFrom, compareFormals, h1]
  · simp [disambiguate_by_match, bestFrom, survivesFrom, compareFormals, h1, h2]

/-- Witness of C12 at one `bool` actual and the candidates `f(int(32))` and
`f(uint(32))`: `f(int(32))` is returned in either order. -/
theorem disambiguate_by_match_prefers_signed_witness :
    exampleFInt.name = exampleFUInt.name ∧
    is_int_type (plainFormal 741 "x" (dtInt .INT_SIZE_32)).type = true ∧
    is_uint_type (plainFormal 751 "x" (dtUInt .INT_SIZE_32)).type = true ∧
    (compareFormal exampleFInt { type := dtBool, param := some valueSymbol, name := none }
        (plainFormal 741 "x" (dtInt .INT_SIZE_32)) (plainFormal 751 "x" (dtUInt .INT_SIZE_32))
      = .firstBetter ∧
     compareFormal exampleFUInt { type := dtBool, param := some valueSymbol, name := none }
        (plainFormal 751 "x" (dtUInt .INT_SIZE_32)) (plainFormal 741 "x" (dtInt .INT_SIZE_32))
      = .secondBetter ∧
     (disambiguate_by_match
        [(some exampleFInt, [plainFormal 741 "x" (dtInt .INT_SIZE_32)]),
         (some exampleFUInt, [plainFormal 751 "x" (dtUInt .INT_SIZE_32)])]
        [{ type := dtBool, param := some valueSymbol, name := none }]).1 = some exampleFInt ∧
     (disambiguate_by_match
        [(some exampleFUInt, [plainFormal 751 "x" (dtUInt .INT_SIZE_32)]),
         (some exampleFInt, [plainFormal 741 "x" (dtInt .INT_SIZE_32)])]
        [{ type := dtBool, param := some valueSymbol, name := none }]).1 = some exampleFInt) :=
  ⟨rfl, by decide, by decide,
    disambiguate_by_match_prefers_signed exampleFInt exampleFUInt
      (plainFormal 741 "x" (dtInt .INT_SIZE_32)) (plainFormal 751 "x" (dtUInt .INT_SIZE_32))
      { type := dtBool, param := some valueSymbol, name := none }
      rfl (by decide) (by decide) (by decide) (by decide) (by decide) (by decide)
      (by decide) (by decide)⟩

/-! ## Resolution of a call -/

theorem gatherCandidates_cons_plain (env : ResolveEnv) (fuel : Nat) (call : CallExpr)
    (actuals : List Actual) (fn : FnSymbol) (rest : List FnSymbol) (cands : Candidates)
    (hm : call.methodTag = false) (hg : fn.isGeneric = false)
    (hv : ∀ f ∈ fn.formals, f.hasVariableExpr = false) :
    gatherCandidates env fuel call actuals (fn :: rest) cands =
      gatherCandidates env fuel call actuals rest
        (if (computeActualFormalMap fn actuals).1 = true ∧
            feasibleLoop (resolveFormals fn) (computeActualFormalMap fn actuals).2
              (resolveFormals fn).formals 0 = true
          then cands.add (resolveFormals fn)
            ((computeActualFormalMap fn actuals).2.actual_formals.map (Option.map resolveFormal))
          else cands) := by
  simp only [gatherCandidates, hm, Bool.false_and, Bool.false_eq_true, if_false,
    addCandidate_of_plain env.toResolutionOracle fuel cands fn actuals hg hv]

theorem resolve_call_of_best (env : ResolveEnv) (fuel : Nat) (call : CallExpr) (name : String)
    (actuals : List Actual) (st : ResolveState) (cands : Candidates)
    (candidates : List Candidate) (best : FnSymbol) (afs : List ArgSymbol)
    (hg : gatherCandidates env fuel call actuals (visibleFunctions env call name)
      { candidateFns := [], candidateActualFormals := [] } = some cands)
    (he : candidateEntries cands.candidateFns cands.candidateActualFormals = some candidates)
    (hd : disambiguate_by_match candidates actuals = (some best, some afs))
    (hp : (call.partialTag && !best.noParens) = false) :
    resolve_call env fuel call name actuals st =
      (wrapBest env call actuals best afs).map (fun fn => (some fn, st)) := by
  unfold resolve_call
  simp only [hg, he, hd, Option.isNone_some, Bool.false_eq_true, false_and, if_false, hp]

theorem resolve_call_max_of_visible (env : ResolveEnv) (fuel : Nat) (call : CallExpr)
    (st : ResolveState) (visible : List FnSymbol)
    (hres : call.isResolved = none) (hm : call.methodTag = false)
    (hp : call.partialTag = false)
    (hvis : env.getVisibleFunctions call.parentScope "max" = visible)
    (hcases : visible = [exampleMaxInt, exampleMaxUInt] ∨
      visible = [exampleMaxUInt, exampleMaxInt]) :
    gatherCandidates env fuel call exampleMaxActuals (visibleFunctions env call "max")
        { candidateFns := [], candidateActualFormals := [] } =
      some { candidateFns := [some exampleMaxInt]
             candidateActualFormals := [exampleMaxInt.formals.map some] } ∧
    resolve_call env fuel call "max" exampleMaxActuals st =
      some (some (env.coercion_wrapper exampleMaxInt
        [(plainFormal 801 "x" (dtInt .INT_SIZE_64), dtInt .INT_SIZE_32),
         (plainFormal 802 "y" (dtInt .INT_SIZE_64), dtUInt .INT_SIZE_8)]), st) := by
  have hI : (computeActualFormalMap exampleMaxInt exampleMaxActuals).1 = true ∧
      feasibleLoop (resolveFormals exampleMaxInt)
        (computeActualFormalMap exampleMaxInt exampleMaxActuals).2
        (resolveFormals exampleMaxInt).formals 0 = true := by decide
  have hU : ¬ ((computeActualFormalMap exampleMaxUInt exampleMaxActuals).1 = true ∧
      feasibleLoop (resolveFormals exampleMaxUInt)
        (computeActualFormalMap exampleMaxUInt exampleMaxActuals).2
        (resolveFormals exampleMaxUInt).formals 0 = true) := by decide
  have hg : gatherCandidates env fuel call exampleMaxActuals (visibleFunctions env call "max")
        { candidateFns := [], candidateActualFormals := [] } =
      some { candidateFns := [some exampleMaxInt]
             candidateActualFormals := [exampleMaxInt.formals.map some] } := by
    unfold visibleFunctions
    rw [hres]
    simp only [hvis]
    rcases hcases with h | h <;> subst h
    · rw [gatherCandidates_cons_plain env fuel call _ _ _ _ hm rfl (by decide),
        gatherCandidates_cons_plain env fuel call _ _ _ _ hm rfl (by decide),
        if_pos hI, if_neg hU]
      rfl
    · rw [gatherCandidates_cons_plain env fuel call _ _ _ _ hm rfl (by decide),
        gatherCandidates_cons_plain env fuel call _ _ _ _ hm rfl (by decide),
        if_neg hU, if_pos hI]
      rfl
  refine ⟨hg, ?_⟩
  rw [resolve_call_of_best env fuel call "max" exampleMaxActuals st _
    [(some exampleMaxInt, exampleMaxInt.formals)] exampleMaxInt exampleMaxInt.formals
    hg rfl rfl (by rw [hp]; rfl)]
  have hdw : build_default_wrapper env.default_wrapper exampleMaxInt exampleMaxInt.formals =
      some (exampleMaxInt, exampleMaxInt.formals) := by
    unfold build_default_wrapper
    rw [if_neg (by decide)]
  have how : build_order_wrapper env.order_wrapper exampleMaxInt exampleMaxInt.formals =
      exampleMaxInt := by
    unfold build_order_wrapper
    rw [if_neg (by decide)]
  have hpw : build_promotion_wrapper env.promotion_wrapper exampleMaxInt exampleMaxActuals
      call.square = exampleMaxInt := by
    unfold build_promotion_wrapper
    rw [if_neg (by decide), if_pos (by decide)]
  have hcw : build_coercion_wrapper env.coercion_wrapper exampleMaxInt exampleMaxActuals =
      env.coercion_wrapper exampleMaxInt
        [(plainFormal 801 "x" (dtInt .INT_SIZE_64), dtInt .INT_SIZE_32),
         (plainFormal 802 "y" (dtInt .INT_SIZE_64), dtUInt .INT_SIZE_8)] := by
    unfold build_coercion_wrapper
    rw [if_neg (by decide)]
    rfl
  simp only [wrapBest, hdw, how, hpw, hcw, bne_self_eq_false, Bool.false_eq_true, if_false,
    Option.map_some']

/-- C13: the call `max(a, b)` with variables `a: int(32)` and `b: uint(8)`, with
`max(int(64), int(64))` and `max(uint(64), uint(64))` visible in either order,
selects `max(int(64), int(64))`: it is the one candidate that `addCandidate`
accepts, and `resolve_call` returns the coercion wrapper made of it for the
two formals. -/
theorem resolve_call_max_selects_int64 (env : ResolveEnv) (fuel : Nat) (call : CallExpr)
    (st : ResolveState) (hres : call.isResolved = none) (hm : call.methodTag = false)
    (hp : call.partialTag = false)
    (hvis : env.getVisibleFunctions call.parentScope "max" = [exampleMaxInt, exampleMaxUInt] ∨
      env.getVisibleFunctions call.parentScope "max" = [exampleMaxUInt, exampleMaxInt]) :
    gatherCandidates env fuel call exampleMaxActuals (visibleFunctions env call "max")
        { candidateFns := [], candidateActualFormals := [] } =
      some { candidateFns := [some exampleMaxInt]
             candidateActualFormals := [exampleMaxInt.formals.map some] } ∧
    resolve_call env fuel call "max" exampleMaxActuals st =
      some (some (env.coercion_wrapper exampleMaxInt
        [(plainFormal 801 "x" (dtInt .INT_SIZE_64), dtInt .INT_SIZE_32),
         (plainFormal 802 "y" (dtInt .INT_SIZE_64), dtUInt .INT_SIZE_8)]), st) :=
  resolve_call_max_of_visible env fuel call st _ hres hm hp rfl hvis

/-- Witness of C13 in the example environment, where the coercion wrapper of
`max(int(64), int(64))` is the function "coercion max". -/
theorem resolve_call_max_selects_int64_witness :
    (exampleCall "max" false).isResolved = none ∧
    (exampleCall "max" false).methodTag = false ∧
    (exampleCall "max" false).partialTag = false ∧
    (exampleEnv.getVisibleFunctions (exampleCall "max" false).parentScope "max"
        = [exampleMaxInt, exampleMaxUInt] ∨
      exampleEnv.getVisibleFunctions (exampleCall "max" false).parentScope "max"
        = [exampleMaxUInt, exampleMaxInt]) ∧
    exampleEnv.coercion_wrapper exampleMaxInt
        [(plainFormal 801 "x" (dtInt .INT_SIZE_64), dtInt .INT_SIZE_32),
         (plainFormal 802 "y" (dtInt .INT_SIZE_64), dtUInt .INT_SIZE_8)]
      = exampleWrapper "coercion " exampleMaxInt ∧
    (gatherCandidates exampleEnv 0 (exampleCall "max" false) exampleMaxActuals
        (visibleFunctions exampleEnv (exampleCall "max" false) "max")
        { candidateFns := [], candidateActualFormals := [] } =
      some { candidateFns := [some exampleMaxInt]
             candidateActualFormals := [exampleMaxInt.formals.map some] } ∧
     resolve_call exampleEnv 0 (exampleCall "max" false) "max" exampleMaxActuals noErrors =
      some (some (exampleEnv.coercion_wrapper exampleMaxInt
        [(plainFormal 801 "x" (dtInt .INT_SIZE_64), dtInt .INT_SIZE_32),
         (plainFormal 802 "y" (dtInt .INT_SIZE_64), dtUInt .INT_SIZE_8)]), noErrors)) :=
  ⟨rfl, rfl, rfl, Or.inl rfl, rfl,
    resolve_call_max_selects_int64 exampleEnv 0 (exampleCall "max" false) noErrors rfl rfl rfl
      (Or.inl rfl)⟩

theorem int_and_uint_false (t : Ty) : (is_int_type t && is_uint_type t) = false := by
  cases h : is_int_type t
  · rfl
  · rw [not_uint_of_int t h]; rfl

theorem same_self (t : Ty) : t.same t = true := by
  simp [Ty.same]

theorem compareFormal_of_equalRank (best : FnSymbol) (a : Actual) (x y : ArgSymbol)
    (h : equalRank x y) : compareFormal best a x y = .noPreference := by
  obtain ⟨ht, hp, ha⟩ := h
  unfold compareFormal
  rw [ht, hp, ha]
  simp [same_self, int_and_uint_false]

theorem compareFormals_of_equallyRanked (best : FnSymbol) :
    ∀ (actuals : List Actual) (afs1 afs2 : List ArgSymbol) (flags : Bool × Bool),
      EquallyRanked afs1 afs2 → compareFormals best actuals afs1 afs2 flags = flags := by
  intro actuals
  induction actuals with
  | nil => intro afs1 afs2 flags _; simp [compareFormals]
  | cons a rest ih =>
    intro afs1 afs2 flags h
    cases h with
    | nil => simp [compareFormals]
    | cons hxy htail =>
      obtain ⟨better, as_good⟩ := flags
      simp only [compareFormals, compareFormal_of_equalRank best a _ _ hxy]
      exact ih _ _ _ htail

theorem equalRank_symm (x y : ArgSymbol) (h : equalRank x y) : equalRank y x :=
  ⟨h.1.symm, h.2.1.symm, h.2.2.symm⟩

theorem equallyRanked_symm (afs1 afs2 : List ArgSymbol) (h : EquallyRanked afs1 afs2) :
    EquallyRanked afs2 afs1 := by
  unfold EquallyRanked at *
  induction h with
  | nil => exact List.Forall₂.nil
  | cons hxy _ ih => exact List.Forall₂.cons (equalRank_symm _ _ hxy) ih

theorem disambiguate_by_match_of_tie (f1 f2 : FnSymbol) (afs1 afs2 : List ArgSymbol)
    (actuals : List Actual) (h : EquallyRanked afs1 afs2) :
    disambiguate_by_match [(some f1, afs1), (some f2, afs2)] actuals = (none, some afs2) := by
  have h12 := compareFormals_of_equallyRanked f1 actuals afs1 afs2 (false, true) h
  have h21 := compareFormals_of_equallyRanked f2 actuals afs2 afs1 (false, true)
    (equallyRanked_symm _ _ h)
  simp [disambiguate_by_match, bestFrom, survivesFrom, h12, h21]

theorem disambiguate_by_scope_of_same_distance (scopes : Nat → SymScope) (fuel scope : Nat)
    (f1 f2 : FnSymbol) (afs1 afs2 : List ArgSymbol) (d : Nat) (v1 v2 : List Nat)
    (h1 : visibility_distance scopes fuel scope f1 1 [] = some (d, v1))
    (h2 : visibility_distance scopes fuel scope f2 1 [] = some (d, v2)) :
    disambiguate_by_scope scopes fuel scope [(some f1, afs1), (some f2, afs2)] =
      some [(some f1, afs1), (some f2, afs2)] := by
  simp only [disambiguate_by_scope, candidateDistances, h1, h2, Option.map_some']
  by_cases hd : d = 0
  · subst hd
    simp [smallestDistance, clearOthers]
  · simp [smallestDistance, clearOthers, hd]

/-- C14, as stated, fails: the call `g(a)` with a variable `a: int(32)` has the
two feasible candidates `g(x: int(32))` at the addresses 810 and 820, whose
formals have the identical type and which lie at the same visibility distance 1
from the call. When the formal of the second one is instantiated from `dtAny`,
`resolve_call` returns the first function; when it carries the flag
`instantiatedParam`, `resolve_call` returns the second one. In both cases the
error stays `CALL_NO_ERROR` and no candidate is recorded. -/
theorem resolve_call_same_types_not_ambiguous :
    (gatherCandidates (exampleEnvWith exampleGAny) 2 (exampleCall "g" false) exampleCallValue
        (visibleFunctions (exampleEnvWith exampleGAny) (exampleCall "g" false) "g")
        { candidateFns := [], candidateActualFormals := [] } =
      some { candidateFns := [some exampleG1, some exampleGAny]
             candidateActualFormals := [exampleG1.formals.map some,
               exampleGAny.formals.map some] } ∧
     List.Forall₂ (fun x y => x.type = y.type) exampleG1.formals exampleGAny.formals ∧
     visibility_distance (exampleEnvWith exampleGAny).scopes 2
       (exampleCall "g" false).parentScope exampleG1 1 [] = some (1, [1]) ∧
     visibility_distance (exampleEnvWith exampleGAny).scopes 2
       (exampleCall "g" false).parentScope exampleGAny 1 [] = some (1, [1]) ∧
     resolve_call (exampleEnvWith exampleGAny) 2 (exampleCall "g" false) "g" exampleCallValue
       noErrors = some (some exampleG1, noErrors)) ∧
    (gatherCandidates (exampleEnvWith exampleGParam) 2 (exampleCall "g" false) exampleCallValue
        (visibleFunctions (exampleEnvWith exampleGParam) (exampleCall "g" false) "g")
        { candidateFns := [], candidateActualFormals := [] } =
      some { candidateFns := [some exampleG1, some exampleGParam]
             candidateActualFormals := [exampleG1.formals.map some,
               exampleGParam.formals.map some] } ∧
     List.Forall₂ (fun x y => x.type = y.type) exampleG1.formals exampleGParam.formals ∧
     visibility_distance (exampleEnvWith exampleGParam).scopes 2
       (exampleCall "g" false).parentScope exampleG1 1 [] = some (1, [1]) ∧
     visibility_distance (exampleEnvWith exampleGParam).scopes 2
       (exampleCall "g" false).parentScope exampleGParam 1 [] = some (1, [1]) ∧
     resolve_call (exampleEnvWith exampleGParam) 2 (exampleCall "g" false) "g" exampleCallValue
       noErrors = some (some exampleGParam, noErrors)) ∧
    noErrors.resolve_call_error = .CALL_NO_ERROR ∧
    noErrors.resolve_call_error_candidates = [] :=
  ⟨⟨rfl, List.Forall₂.cons rfl List.Forall₂.nil, rfl, rfl, rfl⟩,
    ⟨rfl, List.Forall₂.cons rfl List.Forall₂.nil, rfl, rfl, rfl⟩, rfl, rfl⟩

/-- C14, amended: when the candidates of a call are two functions that are equally ranked
(at every actual position the bound formals have the identical type, the same
param instantiation and the same generic provenance) and at the same
visibility distance from the call, `resolve_call` returns no function, sets
`resolve_call_error` to `CALL_AMBIGUOUS` and appends both candidates to
`resolve_call_error_candidates`. -/
theorem resolve_call_ambiguous (env : ResolveEnv) (fuel : Nat) (call : CallExpr)
    (name : String) (actuals : List Actual) (st : ResolveState) (cands : Candidates)
    (f1 f2 : FnSymbol) (afs1 afs2 : List ArgSymbol) (d : Nat) (v1 v2 : List Nat)
    (hg : gatherCandidates env fuel call actuals (visibleFunctions env call name)
      { candidateFns := [], candidateActualFormals := [] } = some cands)
    (he : candidateEntries cands.candidateFns cands.candidateActualFormals =
      some [(some f1, afs1), (some f2, afs2)])
    (hrank : EquallyRanked afs1 afs2)
    (h1 : visibility_distance env.scopes fuel call.parentScope f1 1 [] = some (d, v1))
    (h2 : visibility_distance env.scopes fuel call.parentScope f2 1 [] = some (d, v2)) :
    resolve_call env fuel call name actuals st =
      some (none,
        { resolve_call_error := .CALL_AMBIGUOUS
          resolve_call_error_candidates := st.resolve_call_error_candidates ++ [f1, f2] }) := by
  unfold resolve_call
  simp only [hg, he, disambiguate_by_match_of_tie f1 f2 afs1 afs2 actuals hrank,
    disambiguate_by_scope_of_same_distance env.scopes fuel call.parentScope f1 f2 afs1 afs2 d
      v1 v2 h1 h2]
  simp [disambiguate_by_match_of_tie f1 f2 afs1 afs2 actuals hrank]

/-- Witness of C14 at the call `g(a)` with the two functions `g(x: int(32))` of
scope 1. -/
theorem resolve_call_ambiguous_witness :
    gatherCandidates exampleEnv 2 (exampleCall "g" false) exampleCallValue
        (visibleFunctions exampleEnv (exampleCall "g" false) "g")
        { candidateFns := [], candidateActualFormals := [] } =
      some { candidateFns := [some exampleG1, some exampleG2]
             candidateActualFormals := [exampleG1.formals.map some,
               exampleG2.formals.map some] } ∧
    EquallyRanked exampleG1.formals exampleG2.formals ∧
    visibility_distance exampleEnv.scopes 2 (exampleCall "g" false).parentScope exampleG1 1 []
      = some (1, [1]) ∧
    visibility_distance exampleEnv.scopes 2 (exampleCall "g" false).parentScope exampleG2 1 []
      = some (1, [1]) ∧
    resolve_call exampleEnv 2 (exampleCall "g" false) "g" exampleCallValue noErrors =
      some (none,
        { resolve_call_error := .CALL_AMBIGUOUS
          resolve_call_error_candidates :=
            noErrors.resolve_call_error_candidates ++ [exampleG1, exampleG2] }) :=
  ⟨rfl, List.Forall₂.cons ⟨rfl, rfl, rfl⟩ List.Forall₂.nil, rfl, rfl,
    resolve_call_ambiguous exampleEnv 2 (exampleCall "g" false) "g" exampleCallValue noErrors
      _ exampleG1 exampleG2 exampleG1.formals exampleG2.formals 1 [1] [1] rfl rfl
      (List.Forall₂.cons ⟨rfl, rfl, rfl⟩ List.Forall₂.nil) rfl rfl⟩

theorem resolve_call_of_no_candidate (env : ResolveEnv) (fuel : Nat) (call : CallExpr)
    (name : String) (actuals : List Actual) (st : ResolveState)
    (hg : gatherCandidates env fuel call actuals (visibleFunctions env call name)
      { candidateFns := [], candidateActualFormals := [] } =
        some { candidateFns := [], candidateActualFormals := [] }) :
    resolve_call env fuel call name actuals st =
      some (none,
        if call.partialTag = true then { st with resolve_call_error := .CALL_PARTIAL }
        else
          { resolve_call_error := .CALL_UNKNOWN
            resolve_call_error_candidates :=
              st.resolve_call_error_candidates ++ visibleFunctions env call name }) := by
  unfold resolve_call
  simp only [hg, candidateEntries]
  have hd : disambiguate_by_match [] actuals = (none, none) := rfl
  simp only [hd]
  by_cases hp : call.partialTag = true <;> simp [hp]

/-- C15, as stated, fails: the call `max(a)` with one actual has no feasible
candidate among `max(int(64), int(64))` and `max(uint(64), uint(64))`; with the
flag `partialTag` set, `resolve_call` classifies the failure as `CALL_PARTIAL`
and records no candidate. -/
theorem resolve_call_partial_without_candidate :
    (exampleCall "max" true).partialTag = true ∧
    gatherCandidates exampleEnv 0 (exampleCall "max" true) exampleCallValue
        (visibleFunctions exampleEnv (exampleCall "max" true) "max")
        { candidateFns := [], candidateActualFormals := [] } =
      some { candidateFns := [], candidateActualFormals := [] } ∧
    resolve_call exampleEnv 0 (exampleCall "max" true) "max" exampleCallValue noErrors =
      some (none,
        { resolve_call_error := .CALL_PARTIAL, resolve_call_error_candidates := [] }) :=
  ⟨rfl, rfl, rfl⟩

/-- C15, amended: for every call for which no visible function is a feasible
candidate, `resolve_call` returns no function; when the call is no partial
application (`partialTag` unset) it sets `CALL_UNKNOWN` and appends the
visible functions to the error candidates, and when `partialTag` is set it
sets `CALL_PARTIAL` and leaves the error candidates as they are. -/
theorem resolve_call_unknown (env : ResolveEnv) (fuel : Nat) (call : CallExpr)
    (name : String) (actuals : List Actual) (st : ResolveState)
    (hg : gatherCandidates env fuel call actuals (visibleFunctions env call name)
      { candidateFns := [], candidateActualFormals := [] } =
        some { candidateFns := [], candidateActualFormals := [] }) :
    (call.partialTag = false →
      resolve_call env fuel call name actuals st =
        some (none,
          { resolve_call_error := .CALL_UNKNOWN
            resolve_call_error_candidates :=
              st.resolve_call_error_candidates ++ visibleFunctions env call name })) ∧
    (call.partialTag = true →
      resolve_call env fuel call name actuals st =
        some (none, { st with resolve_call_error := .CALL_PARTIAL })) := by
  rw [resolve_call_of_no_candidate env fuel call name actuals st hg]
  constructor
  · intro hp; simp [hp]
  · intro hp; simp [hp]

/-- Witness of the amended C15 at the call `max(a)` that is no partial
application: `CALL_UNKNOWN`, with both visible functions recorded. -/
theorem resolve_call_unknown_witness :
    gatherCandidates exampleEnv 0 (exampleCall "max" false) exampleCallValue
        (visibleFunctions exampleEnv (exampleCall "max" false) "max")
        { candidateFns := [], candidateActualFormals := [] } =
      some { candidateFns := [], candidateActualFormals := [] } ∧
    resolve_call exampleEnv 0 (exampleCall "max" false) "max" exampleCallValue noErrors =
      some (none,
        { resolve_call_error := .CALL_UNKNOWN
          resolve_call_error_candidates :=
            noErrors.resolve_call_error_candidates ++
              visibleFunctions exampleEnv (exampleCall "max" false) "max" }) ∧
    visibleFunctions exampleEnv (exampleCall "max" false) "max"
      = [exampleMaxInt, exampleMaxUInt] :=
  ⟨rfl,
    (resolve_call_unknown exampleEnv 0 (exampleCall "max" false) "max" exampleCallValue
      noErrors rfl).1 rfl, rfl⟩

theorem find_of_request (s : WrapperStore) (key : WrapperKey) (fresh : FnSymbol) :
    (s.request key fresh).2.find key = some (s.request key fresh).1 := by
  unfold WrapperStore.request
  cases h : s.find key with
  | some wrapper => simpa using h
  | none => simp [WrapperStore.find]

theorem request_request (s : WrapperStore) (key : WrapperKey) (fresh other : FnSymbol) :
    (s.request key fresh).2.request key other = s.request key fresh := by
  have h := find_of_request s key fresh
  cases hr : s.request key fresh with
  | mk wrapper s2 =>
    rw [hr] at h
    show s2.request key other = (wrapper, s2)
    unfold WrapperStore.request
    rw [show s2.find key = some wrapper from h]

/-- C18: a default, promotion or coercion wrapper that is requested a second
time for the same inner function and the same substitution, on the store that
the first request leaves, is the wrapper of the first request, whatever wrapper
the second request would make, and the store stays as it is; and the functions
`build_default_wrapper`, `build_promotion_wrapper` and `build_coercion_wrapper`
return the inner function itself when there are no more formals than actuals,
no promoted formal and no coerced formal. -/
theorem build_wrapper_memoised (mk other : WrapperMakers) (s : WrapperStore) (fn : FnSymbol)
    (actual_formals : List ArgSymbol) (actuals : List Actual) (isSquare : Bool) :
    build_default_wrapper_on other (build_default_wrapper_on mk s fn actual_formals).2
        fn actual_formals = build_default_wrapper_on mk s fn actual_formals ∧
    build_promotion_wrapper_on other (build_promotion_wrapper_on mk s fn actuals isSquare).2
        fn actuals isSquare = build_promotion_wrapper_on mk s fn actuals isSquare ∧
    build_coercion_wrapper_on other (build_coercion_wrapper_on mk s fn actuals).2
        fn actuals = build_coercion_wrapper_on mk s fn actuals ∧
    (fn.formals.length ≤ actual_formals.length →
      ∀ default_wrapper,
        build_default_wrapper default_wrapper fn actual_formals = some (fn, actual_formals)) ∧
    (promotedSubs fn fn.formals actuals = [] →
      ∀ promotion_wrapper,
        build_promotion_wrapper promotion_wrapper fn actuals isSquare = fn) ∧
    (coercionSubs fn.formals actuals = [] →
      ∀ coercion_wrapper, build_coercion_wrapper coercion_wrapper fn actuals = fn) := by
  refine ⟨?_, ?_, ?_, ?_, ?_, ?_⟩
  · unfold build_default_wrapper_on build_default_wrapper
    by_cases h : fn.formals.length > actual_formals.length
    · simp [h, request_request]
    · simp [h]
  · unfold build_promotion_wrapper_on build_promotion_wrapper
    by_cases h1 : fn.name = "="
    · simp [h1]
    · by_cases h2 : (promotedSubs fn fn.formals actuals).isEmpty = true
      · simp [h1, h2]
      · simp [h1, h2, request_request]
  · unfold build_coercion_wrapper_on build_coercion_wrapper
    by_cases h : (coercionSubs fn.formals actuals).isEmpty = true
    · simp [h]
    · simp [h, request_request]
  · intro h default_wrapper
    unfold build_default_wrapper
    simp [Nat.not_lt.mpr h]
  · intro h promotion_wrapper
    unfold build_promotion_wrapper
    simp [h]
  · intro h coercion_wrapper
    unfold build_coercion_wrapper
    simp [h]

theorem build_wrapper_memoised_witness :
    (build_coercion_wrapper_on exampleMakers emptyStore exampleMaxInt exampleMaxActuals).1.ptr
        = 10800 ∧
    (build_coercion_wrapper_on otherMakers
        (build_coercion_wrapper_on exampleMakers emptyStore exampleMaxInt exampleMaxActuals).2
        exampleMaxInt exampleMaxActuals).1.ptr = 10800 ∧
    build_default_wrapper_on otherMakers
        (build_default_wrapper_on exampleMakers emptyStore exampleWithDefault
          [plainFormal 901 "x" (dtInt .INT_SIZE_32)]).2
        exampleWithDefault [plainFormal 901 "x" (dtInt .INT_SIZE_32)]
      = build_default_wrapper_on exampleMakers emptyStore exampleWithDefault
          [plainFormal 901 "x" (dtInt .INT_SIZE_32)] ∧
    build_coercion_wrapper exampleMakers.makeCoercion exampleFInt
        [{ type := dtInt .INT_SIZE_32, param := some valueSymbol, name := none }]
      = exampleFInt :=
  ⟨by decide,
    by
      rw [(build_wrapper_memoised exampleMakers otherMakers emptyStore exampleMaxInt []
        exampleMaxActuals false).2.2.1]
      decide,
    (build_wrapper_memoised exampleMakers otherMakers emptyStore exampleWithDefault
      [plainFormal 901 "x" (dtInt .INT_SIZE_32)] [] false).1,
    (build_wrapper_memoised exampleMakers otherMakers emptyStore exampleFInt []
      [{ type := dtInt .INT_SIZE_32, param := some valueSymbol, name := none }] false).2.2.2.2.2
      rfl exampleMakers.makeCoercion⟩

/-! ## Folding of tuple calls -/

theorem insertCopies_eq (actual : Expr) (n : Nat) (argList : List Expr) :
    insertCopies actual n argList = argList ++ List.replicate n actual.copy := by
  induction n generalizing argList with
  | zero => simp [insertCopies]
  | succ n ih => simp [insertCopies, ih, List.replicate_succ]

theorem preFoldTuple_of_literal (call : CallExpr) (var : Symbol) (imm : Immediate)
    (rest : List Expr) (hname : call.name = "_construct__tuple")
    (hres : call.isResolved.isNone = true) (hargs : call.argList = Expr.SymExpr var :: rest)
    (hlit : literalOf (some var) = some imm) :
    preFoldTuple call =
      if wrapSigned 32 imm.int_value ≠ (rest.length : Int) then
        match rest with
        | [actual] =>
          some { call with
            argList := insertCopies actual (wrapSigned 32 imm.int_value - 1).toNat
              call.argList }
        | _ => none
      else some call := by
  unfold preFoldTuple
  rw [if_pos ⟨hname, hres⟩]
  simp only [hargs, hlit, List.length_cons, Nat.cast_add, Nat.cast_one, add_sub_cancel_right]
  split_ifs with h
  · cases rest with
    | nil => rfl
    | cons v tail =>
      cases tail with
      | nil => rfl
      | cons w tail2 => rfl
  · rfl

/-- C19 at its failing input: the unresolved call `_construct__tuple(r, v)`
whose first actual is the 64-bit literal `r = 2147483648` comes back from the
arm of `preFold` with its two actuals and not with `r + 1`: the `int` variable
`rank` holds `-2147483648`, so the loop inserts no copy. -/
theorem preFoldTuple_rank_wraps :
    preFoldTuple (tupleCall (.SymExpr (intLiteral .INT_SIZE_64 2147483648)) [.Other 7])
      = some (tupleCall (.SymExpr (intLiteral .INT_SIZE_64 2147483648)) [.Other 7]) ∧
    ((tupleCall (.SymExpr (intLiteral .INT_SIZE_64 2147483648)) [.Other 7]).argList.length : Int)
      ≠ 2147483648 + 1 := by
  constructor
  · rw [preFoldTuple_of_literal
      (tupleCall (.SymExpr (intLiteral .INT_SIZE_64 2147483648)) [.Other 7])
      (intLiteral .INT_SIZE_64 2147483648)
      { const_kind := .NUM_KIND_INT, num_index := .INT_SIZE_64, v := 2147483648 }
      [.Other 7] rfl rfl rfl rfl]
    have h : wrapSigned 32 (Immediate.int_value
        { const_kind := .NUM_KIND_INT, num_index := .INT_SIZE_64, v := 2147483648 })
        = -2147483648 := by
      simp [Immediate.int_value, wrapSigned, IntSize.bits]
    simp [h, insertCopies]
  · simp [tupleCall]

/-- For every rank `r` that an `int` holds, `1 ≤ r ≤ 2147483647`, the arm of
`preFold` for an unresolved call named `_construct__tuple` whose first actual is a literal of
value `r` and that has exactly one value `v` leaves the call with `r + 1`
actuals, the literal, `v` and `r - 1` copies of `v`; and a call whose first
actual is that literal and that has `r` values comes back as it is. -/
theorem preFoldTuple_expands (r : Nat) (call : CallExpr) (var : Symbol) (imm : Immediate)
    (hname : call.name = "_construct__tuple") (hres : call.isResolved.isNone = true)
    (hlit : literalOf (some var) = some imm) (hval : imm.int_value = (r : Int))
    (h1 : 1 ≤ r) (h2 : r ≤ 2147483647) :
    (∀ v, call.argList = [Expr.SymExpr var, v] →
      preFoldTuple call =
          some { call with argList := Expr.SymExpr var :: v :: List.replicate (r - 1) v.copy } ∧
        (Expr.SymExpr var :: v :: List.replicate (r - 1) v.copy).length = r + 1 ∧
        v :: List.replicate (r - 1) v.copy = List.replicate r v) ∧
    (∀ values, call.argList = Expr.SymExpr var :: values → values.length = r →
      preFoldTuple call = some call) := by
  have hw : wrapSigned 32 imm.int_value = (r : Int) := by
    rw [hval]
    apply wrapSigned_32_of_range
    constructor <;> norm_num <;> omega
  constructor
  · intro v hargs
    refine ⟨?_, ?_, ?_⟩
    · rw [preFoldTuple_of_literal call var imm [v] hname hres hargs hlit, hw]
      by_cases hr : r = 1
      · subst hr
        simp
        rw [← hargs]
      · have hne : (r : Int) ≠ ((1 : Nat) : Int) := by
          intro h
          exact hr (by exact_mod_cast h)
        have hn : ((r : Int) - 1).toNat = r - 1 := by omega
        simp [hne, hn, hr, insertCopies_eq, hargs]
    · simp
      omega
    · obtain ⟨k, rfl⟩ : ∃ k, r = k + 1 := ⟨r - 1, by omega⟩
      simp [List.replicate_succ, Expr.copy]
  · intro values hargs hlen
    rw [preFoldTuple_of_literal call var imm values hname hres hargs hlit, hw, hlen]
    simp

theorem preFoldTuple_expands_witness :
    preFoldTuple (tupleCall (.SymExpr (intLiteral .INT_SIZE_32 3)) [.Other 7])
      = some (tupleCall (.SymExpr (intLiteral .INT_SIZE_32 3)) [.Other 7, .Other 7, .Other 7]) ∧
    preFoldTuple (tupleCall (.SymExpr (intLiteral .INT_SIZE_32 3)) [.Other 7, .Other 8, .Other 9])
      = some (tupleCall (.SymExpr (intLiteral .INT_SIZE_32 3)) [.Other 7, .Other 8, .Other 9]) :=
  ⟨((preFoldTuple_expands 3
      (tupleCall (.SymExpr (intLiteral .INT_SIZE_32 3)) [.Other 7])
      (intLiteral .INT_SIZE_32 3)
      { const_kind := .NUM_KIND_INT, num_index := .INT_SIZE_32, v := 3 }
      rfl rfl rfl (by decide) (by decide) (by decide)).1 (.Other 7) rfl).1,
    (preFoldTuple_expands 3
      (tupleCall (.SymExpr (intLiteral .INT_SIZE_32 3)) [.Other 7, .Other 8, .Other 9])
      (intLiteral .INT_SIZE_32 3)
      { const_kind := .NUM_KIND_INT, num_index := .INT_SIZE_32, v := 3 }
      rfl rfl rfl (by decide) (by decide) (by decide)).2 [.Other 7, .Other 8, .Other 9] rfl rfl⟩

/-! ## Resolution of a move -/

/-- C20: resolving a move whose right-hand side is a call of a function that
returns `void` ends with the one diagnostic `USR_FATAL` "illegal use of
function that does not return a value", whatever the target symbol is, one of
unknown type included: no `INT_FATAL` is raised and the branch does not go on. -/
theorem resolveMove_void_call (var : MoveTarget) (fn : FnSymbol) (isRef : Bool)
    (hret : fn.retType.same dtVoid = true) :
    resolveMove var (.call (some fn)) isRef =
      .error [.USR_FATAL "illegal use of function that does not return a value"] := by
  simp [resolveMove, MoveSource.typeInfo, hret]

theorem resolveMove_void_call_witness :
    exampleTemp.type.same dtUnknown = true ∧
    resolveMove exampleTemp (.call (some exampleVoidFn)) false =
      .error [.USR_FATAL "illegal use of function that does not return a value"] :=
  ⟨by decide, resolveMove_void_call exampleTemp exampleVoidFn false (by decide)⟩

/-! ## Folding of sizing calls -/

theorem sizedType_eq (n : Int) :
    sizedType (dtInt .INT_SIZE_32) n = sizedOrFatal dtInt (intWidthOf n) n " for int" ∧
    sizedType (dtUInt .INT_SIZE_32) n = sizedOrFatal dtUInt (intWidthOf n) n " for uint" ∧
    sizedType (dtReal .FLOAT_SIZE_64) n = sizedOrFatal dtReal (floatWidthOf n) n " for imag" ∧
    sizedType (dtImag .FLOAT_SIZE_64) n = sizedOrFatal dtImag (floatWidthOf n) n " for imag" ∧
    sizedType (dtComplex .COMPLEX_SIZE_128) n
      = sizedOrFatal dtComplex (complexWidthOf n) n " for complex" := by
  have h1 : (dtInt .INT_SIZE_32).same (dtInt .INT_SIZE_32) = true := by decide
  have h2 : (dtUInt .INT_SIZE_32).same (dtInt .INT_SIZE_32) = false := by decide
  have h3 : (dtUInt .INT_SIZE_32).same (dtUInt .INT_SIZE_32) = true := by decide
  have h4 : (dtReal .FLOAT_SIZE_64).same (dtInt .INT_SIZE_32) = false := by decide
  have h5 : (dtReal .FLOAT_SIZE_64).same (dtUInt .INT_SIZE_32) = false := by decide
  have h6 : (dtReal .FLOAT_SIZE_64).same (dtReal .FLOAT_SIZE_64) = true := by decide
  have h7 : (dtImag .FLOAT_SIZE_64).same (dtInt .INT_SIZE_32) = false := by decide
  have h8 : (dtImag .FLOAT_SIZE_64).same (dtUInt .INT_SIZE_32) = false := by decide
  have h9 : (dtImag .FLOAT_SIZE_64).same (dtReal .FLOAT_SIZE_64) = false := by decide
  have h10 : (dtImag .FLOAT_SIZE_64).same (dtImag .FLOAT_SIZE_64) = true := by decide
  have h11 : (dtComplex .COMPLEX_SIZE_128).same (dtInt .INT_SIZE_32) = false := by decide
  have h12 : (dtComplex .COMPLEX_SIZE_128).same (dtUInt .INT_SIZE_32) = false := by decide
  have h13 : (dtComplex .COMPLEX_SIZE_128).same (dtReal .FLOAT_SIZE_64) = false := by decide
  have h14 : (dtComplex .COMPLEX_SIZE_128).same (dtImag .FLOAT_SIZE_64) = false := by decide
  have h15 : (dtComplex .COMPLEX_SIZE_128).same (dtComplex .COMPLEX_SIZE_128) = true := by
    decide
  refine ⟨?_, ?_, ?_, ?_, ?_⟩
  · simp only [sizedType, h1, if_true, intWidthOf, sizedOrFatal]
    split_ifs <;> rfl
  · simp only [sizedType, h2, h3, if_true, Bool.false_eq_true, if_false, intWidthOf,
      sizedOrFatal]
    split_ifs <;> rfl
  · simp only [sizedType, h4, h5, h6, if_true, Bool.false_eq_true, if_false, floatWidthOf,
      sizedOrFatal]
    split_ifs <;> rfl
  · simp only [sizedType, h7, h8, h9, h10, if_true, Bool.false_eq_true, if_false,
      floatWidthOf, sizedOrFatal]
    split_ifs <;> rfl
  · simp only [sizedType, h11, h12, h13, h14, h15, if_true, Bool.false_eq_true, if_false,
      complexWidthOf, sizedOrFatal]
    split_ifs <;> rfl

theorem sizeOf_eq_literalValue (imm : Immediate) (n : Int) (hval : literalValue imm = n)
    (hlow : -2147483648 ≤ n) (hhigh : n ≤ 2147483647) : sizeOf imm = n := by
  unfold sizeOf
  unfold literalValue at hval
  split_ifs at hval ⊢ with h
  · rw [hval]
    exact wrapSigned_32_of_range n ⟨by norm_num; omega, by norm_num; omega⟩
  · rw [hval]
    exact wrapSigned_32_of_range n ⟨by norm_num; omega, by norm_num; omega⟩

/-- C21: the call `int(4294967304)`, whose actual is a 64-bit literal that is
none of 8, 16, 32 and 64, raises no `USR_FATAL`: `preFold` rewrites it to
`int(8)`, as the `int` variable `size` holds the low 32 bits of the literal,
which are `8`. -/
theorem preFoldSize_truncates :
    literalValue { const_kind := .NUM_KIND_INT, num_index := .INT_SIZE_64, v := 4294967304 }
      = 4294967304 ∧
    preFoldSize (dtInt .INT_SIZE_32) [sizeLiteral .NUM_KIND_INT .INT_SIZE_64 4294967304]
      = .ok (some (dtInt .INT_SIZE_8)) := by
  constructor
  · decide
  · have h : sizeOf { const_kind := .NUM_KIND_INT, num_index := .INT_SIZE_64, v := 4294967304 }
        = 8 := by decide
    simp only [preFoldSize, sizeLiteral, literalOf, if_true, true_or, h]
    rfl

/-- For every integer literal of a value `n` that an `int` holds, `preFold`
rewrites `int(n)` and `uint(n)` to the type of width `n` exactly when
`n` is 8, 16, 32 or 64, `real(n)` and `imag(n)` exactly when `n` is 32, 64 or
128, `complex(n)` exactly when `n` is 64, 128 or 256, and raises a `USR_FATAL`
for every other `n`. -/
theorem preFoldSize_of_literal (var : Symbol) (imm : Immediate) (n : Int)
    (hlit : literalOf (some var) = some imm)
    (hkind : imm.const_kind = .NUM_KIND_INT ∨ imm.const_kind = .NUM_KIND_UINT)
    (hval : literalValue imm = n) (hlow : -2147483648 ≤ n) (hhigh : n ≤ 2147483647) :
    (preFoldSize (dtInt .INT_SIZE_32) [.SymExpr var]
        = sizedOrFatal dtInt (intWidthOf n) n " for int" ∧
      preFoldSize (dtUInt .INT_SIZE_32) [.SymExpr var]
        = sizedOrFatal dtUInt (intWidthOf n) n " for uint" ∧
      preFoldSize (dtReal .FLOAT_SIZE_64) [.SymExpr var]
        = sizedOrFatal dtReal (floatWidthOf n) n " for imag" ∧
      preFoldSize (dtImag .FLOAT_SIZE_64) [.SymExpr var]
        = sizedOrFatal dtImag (floatWidthOf n) n " for imag" ∧
      preFoldSize (dtComplex .COMPLEX_SIZE_128) [.SymExpr var]
        = sizedOrFatal dtComplex (complexWidthOf n) n " for complex") ∧
    (∀ w, intWidthOf n = some w ↔ n = (w.bits : Int)) ∧
    (∀ w, floatWidthOf n = some w ↔ n = (w.bits : Int)) ∧
    (∀ w, complexWidthOf n = some w ↔ n = (w.bits : Int)) := by
  have hs := sizeOf_eq_literalValue imm n hval hlow hhigh
  have hp : ∀ type, preFoldSize type [.SymExpr var] = sizedType type n := by
    intro type
    simp only [preFoldSize, hlit, hkind, if_true, hs]
  refine ⟨?_, ?_, ?_, ?_⟩
  · simp only [hp]
    exact sizedType_eq n
  · intro w
    cases w <;> simp only [intWidthOf, IntSize.bits] <;> split_ifs <;> simp <;> omega
  · intro w
    cases w <;> simp only [floatWidthOf, FloatSize.bits] <;> split_ifs <;> simp <;> omega
  · intro w
    cases w <;> simp only [complexWidthOf, ComplexSize.bits] <;> split_ifs <;> simp <;> omega

theorem preFoldSize_of_literal_witness :
    preFoldSize (dtInt .INT_SIZE_32) [sizeLiteral .NUM_KIND_INT .INT_SIZE_32 16]
      = .ok (some (dtInt .INT_SIZE_16)) ∧
    preFoldSize (dtComplex .COMPLEX_SIZE_128) [sizeLiteral .NUM_KIND_INT .INT_SIZE_32 32]
      = .error (.USR_FATAL "illegal size 32 for complex") :=
  ⟨(preFoldSize_of_literal
      { isVarSymbol := true
        immediate := some { const_kind := .NUM_KIND_INT, num_index := .INT_SIZE_32, v := 16 }
        isTypeVariable := false }
      { const_kind := .NUM_KIND_INT, num_index := .INT_SIZE_32, v := 16 } 16 rfl
      (Or.inl rfl) (by decide) (by decide) (by decide)).1.1,
    (preFoldSize_of_literal
      { isVarSymbol := true
        immediate := some { const_kind := .NUM_KIND_INT, num_index := .INT_SIZE_32, v := 32 }
        isTypeVariable := false }
      { const_kind := .NUM_KIND_INT, num_index := .INT_SIZE_32, v := 32 } 32 rfl
      (Or.inl rfl) (by decide) (by decide) (by decide)).1.2.2.2.2⟩

/-! ## Unrolling of param loops -/

theorem wrapSigned_64_of_range (v : Int) (h : -2 ^ 63 ≤ v ∧ v < 2 ^ 63) :
    wrapSigned 64 v = v := by
  unfold wrapSigned
  norm_num at h ⊢
  omega

theorem wrapSigned_32_le (v : Int) : wrapSigned 32 v ≤ 2147483647 := by
  unfold wrapSigned
  norm_num
  omega

theorem iterationValues_of_gt (low high stride : Int) (h : high < low) :
    iterationValues low high stride = [] := by
  unfold iterationValues
  rw [if_neg (by omega)]
  rfl

theorem iterationSteps_succ (low high stride : Int) (hs : 0 < stride) (h : low ≤ high) :
    ((high - low) / stride + 1).toNat =
      (if low + stride ≤ high then ((high - (low + stride)) / stride + 1).toNat else 0) + 1 := by
  split_ifs with hn
  · have e : high - low = (high - (low + stride)) + 1 * stride := by ring
    rw [e, Int.add_mul_ediv_right _ _ (ne_of_gt hs)]
    have hp : 0 ≤ (high - (low + stride)) / stride := Int.ediv_nonneg (by omega) (le_of_lt hs)
    omega
  · have hz : (high - low) / stride = 0 := Int.ediv_eq_zero_of_lt (by omega) (by omega)
    rw [hz]
    rfl

theorem iterationValues_cons (low high stride : Int) (hs : 0 < stride) (h : low ≤ high) :
    iterationValues low high stride = low :: iterationValues (low + stride) high stride := by
  unfold iterationValues
  rw [if_pos h, iterationSteps_succ low high stride hs h, List.range_succ_eq_map]
  simp only [List.map_cons, List.map_map, Nat.cast_zero, zero_mul, add_zero]
  congr 1
  apply List.map_congr_left
  intro k _
  simp only [Function.comp_apply, Nat.cast_succ]
  ring

theorem unrollFrom_eq (high stride : Int) (hs : 0 < stride) (hhigh : high + stride ≤ 2147483647)
    (fuel : Nat) (i : Int) (done : List Int) (hi : -2147483648 ≤ i)
    (hfuel : (iterationValues i high stride).length < fuel) :
    unrollFrom high stride fuel i done = some (done ++ iterationValues i high stride) := by
  induction fuel generalizing i done with
  | zero => omega
  | succ fuel ih =>
    unfold unrollFrom
    by_cases h : i ≤ high
    · rw [if_pos h]
      have hw : wrapSigned 32 (wrapSigned 64 (i + stride)) = i + stride := by
        rw [wrapSigned_64_of_range _ ⟨by norm_num; omega, by norm_num; omega⟩]
        exact wrapSigned_32_of_range _ ⟨by norm_num; omega, by norm_num; omega⟩
      rw [hw, iterationValues_cons i high stride hs h]
      rw [iterationValues_cons i high stride hs h] at hfuel
      simp only [List.length_cons] at hfuel
      rw [ih (i + stride) (done ++ [i]) (by omega) (by omega)]
      simp
    · rw [if_neg h, iterationValues_of_gt i high stride (by omega)]
      simp

theorem mem_iterationValues (low high stride : Int) (hs : 0 < stride) (i : Int) :
    i ∈ iterationValues low high stride ↔ ∃ k : Nat, i = low + (k : Int) * stride ∧ i ≤ high := by
  unfold iterationValues
  simp only [List.mem_map, List.mem_range]
  constructor
  · rintro ⟨k, hk, rfl⟩
    refine ⟨k, rfl, ?_⟩
    split_ifs at hk with h
    · have hk2 : (k : Int) ≤ (high - low) / stride := by omega
      have := Int.mul_le_mul_of_nonneg_right hk2 (le_of_lt hs)
      have h3 := Int.ediv_mul_le (high - low) (ne_of_gt hs)
      omega
    · omega
  · rintro ⟨k, rfl, hk⟩
    refine ⟨k, ?_, rfl⟩
    have hk0 : (0 : Int) ≤ (k : Int) * stride := by positivity
    rw [if_pos (by omega)]
    have : (k : Int) ≤ (high - low) / stride := by
      rw [Int.le_ediv_iff_mul_le hs]
      omega
    omega

theorem iterationValues_increasing (low high stride : Int) (hs : 0 < stride) :
    (iterationValues low high stride).Pairwise (fun a b => a < b) := by
  unfold iterationValues
  rw [List.pairwise_map]
  apply List.Pairwise.imp _ (List.pairwise_lt_range _)
  intro a b hab
  have : (a : Int) < (b : Int) := by exact_mod_cast hab
  have := Int.mul_lt_mul_of_pos_right this hs
  omega

theorem unrollFrom_never_ends (fuel : Nat) (i : Int) (done : List Int) (hi : i ≤ 2147483647) :
    unrollFrom 2147483647 1 fuel i done = none := by
  induction fuel generalizing i done with
  | zero => rfl
  | succ fuel ih =>
    unfold unrollFrom
    rw [if_pos hi]
    exact ih _ _ (wrapSigned_32_le _)

/-- C22: for literal bounds `low`, `high` and a literal `stride > 0`, with `low`,
`high` and `high + stride` in the range of a 32-bit `int`, `fold_param_for`
ends and replaces the block of the param loop by one copy of the body for
each value `low`, `low + stride`, `low + 2 * stride`, ... that does not exceed
`high`, in increasing order, each copy with the literal of that value in the
place of the index; there is no copy when `low > high`.  A stride `≤ 0` is
rejected by the `INT_FATAL` "fix this". -/
theorem fold_param_for_unrolls (block : ParamBlock) (index lvar hvar svar : Symbol)
    (l h s : Immediate) (low high stride : Int)
    (htag : block.blockTag = .BLOCK_PARAM_FOR)
    (hl : literalOf (some lvar) = some l) (hh : literalOf (some hvar) = some h)
    (hs : literalOf (some svar) = some s)
    (hlow : l.int_value = low) (hhigh : h.int_value = high) (hstride : s.int_value = stride) :
    (0 < stride → -2147483648 ≤ low → low ≤ 2147483647 → -2147483648 ≤ high →
      high + stride ≤ 2147483647 →
      (∀ fuel, (iterationValues low high stride).length < fuel →
        fold_param_for fuel
            { next := some block, isLoopParam := true, index := index, low := .SymExpr lvar
              high := .SymExpr hvar, stride := .SymExpr svar }
          = some (.ok (.unrolled ((iterationValues low high stride).map (fun i =>
              { blockTag := .BLOCK_NORMAL, body := block.bodyAt (new_IntSymbol i) }))))) ∧
      (∀ i, i ∈ iterationValues low high stride ↔
        ∃ k : Nat, i = low + (k : Int) * stride ∧ i ≤ high) ∧
      (iterationValues low high stride).Pairwise (fun a b => a < b) ∧
      (high < low → iterationValues low high stride = [])) ∧
    (stride ≤ 0 →
      ∀ fuel,
        fold_param_for fuel
            { next := some block, isLoopParam := true, index := index, low := .SymExpr lvar
              high := .SymExpr hvar, stride := .SymExpr svar }
          = some (.error (.INT_FATAL "fix this"))) := by
  constructor
  · intro hpos hl1 hl2 hh1 hh2
    refine ⟨?_, mem_iterationValues low high stride hpos,
      iterationValues_increasing low high stride hpos, iterationValues_of_gt low high stride⟩
    intro fuel hfuel
    have hw : wrapSigned 32 low = low :=
      wrapSigned_32_of_range low ⟨by norm_num; omega, by norm_num; omega⟩
    simp only [fold_param_for, htag, ne_eq, not_true_eq_false, if_false, if_true, hl, hh, hs,
      hlow, hhigh, hstride, not_le.mpr hpos, hw,
      unrollFrom_eq high stride hpos hh2 fuel low [] hl1 hfuel, List.nil_append,
      Option.map_some', ParamBlock.copy]
  · intro hneg fuel
    simp only [fold_param_for, htag, ne_eq, not_true_eq_false, if_false, if_true, hl, hh, hs,
      hstride, hneg]

theorem fold_param_for_unrolls_witness :
    fold_param_for 5 (exampleLoop exampleParamBlock 1 6 2)
      = some (.ok (.unrolled
          [{ blockTag := .BLOCK_NORMAL, body := [.SymExpr (intLiteral .INT_SIZE_32 1)] },
            { blockTag := .BLOCK_NORMAL, body := [.SymExpr (intLiteral .INT_SIZE_32 3)] },
            { blockTag := .BLOCK_NORMAL, body := [.SymExpr (intLiteral .INT_SIZE_32 5)] }])) ∧
    fold_param_for 5 (exampleLoop exampleParamBlock 1 6 0)
      = some (.error (.INT_FATAL "fix this")) :=
  ⟨((fold_param_for_unrolls exampleParamBlock valueSymbol (intLiteral .INT_SIZE_64 1)
      (intLiteral .INT_SIZE_64 6) (intLiteral .INT_SIZE_64 2)
      { const_kind := .NUM_KIND_INT, num_index := .INT_SIZE_64, v := 1 }
      { const_kind := .NUM_KIND_INT, num_index := .INT_SIZE_64, v := 6 }
      { const_kind := .NUM_KIND_INT, num_index := .INT_SIZE_64, v := 2 }
      1 6 2 rfl rfl rfl rfl (by decide) (by decide) (by decide)).1
      (by decide) (by decide) (by decide) (by decide) (by decide)).1 5 (by decide),
    (fold_param_for_unrolls exampleParamBlock valueSymbol (intLiteral .INT_SIZE_64 1)
      (intLiteral .INT_SIZE_64 6) (intLiteral .INT_SIZE_64 0)
      { const_kind := .NUM_KIND_INT, num_index := .INT_SIZE_64, v := 1 }
      { const_kind := .NUM_KIND_INT, num_index := .INT_SIZE_64, v := 6 }
      { const_kind := .NUM_KIND_INT, num_index := .INT_SIZE_64, v := 0 }
      1 6 0 rfl rfl rfl rfl (by decide) (by decide) (by decide)).2 (by decide) 5⟩

/-- C30: with the 64-bit literal bounds `low = 0`, `high = 2147483647` and the
stride 1 the unrolling loop of `fold_param_for` never ends, as every value of
its `int` counter is at most `high`; and with `low = 4294967296`, `high = 5`
and the stride 1, where `max(0, floor((high - low) / stride) + 1)` is 0, it
inserts the six copies for the values 0 to 5, as the counter starts at the
low 32 bits of `low`. -/
theorem fold_param_for_int_counter :
    (∀ fuel, fold_param_for fuel (exampleLoop exampleParamBlock 0 2147483647 1) = none) ∧
    iterationCount 4294967296 5 1 = 0 ∧
    fold_param_for 7 (exampleLoop exampleParamBlock 4294967296 5 1)
      = some (.ok (.unrolled ([0, 1, 2, 3, 4, 5].map (fun i =>
          { blockTag := .BLOCK_NORMAL, body := [.SymExpr (intLiteral .INT_SIZE_32 i)] })))) := by
  refine ⟨?_, by decide, rfl⟩
  intro fuel
  have h0 : wrapSigned 32 (Immediate.int_value
      { const_kind := .NUM_KIND_INT, num_index := .INT_SIZE_64, v := 0 }) = 0 := by decide
  have h1 : Immediate.int_value
      { const_kind := .NUM_KIND_INT, num_index := .INT_SIZE_64, v := 2147483647 }
        = 2147483647 := by decide
  have h2 : Immediate.int_value
      { const_kind := .NUM_KIND_INT, num_index := .INT_SIZE_64, v := 1 } = 1 := by decide
  simp only [fold_param_for, exampleLoop, exampleParamBlock, literalOf, intLiteral, ne_eq,
    not_true_eq_false, if_false, if_true, h0, h1, h2]
  simp [unrollFrom_never_ends fuel 0 [] (by decide)]

/-! ## Assignment in code generation -/

theorem namesMatch_iff (fs gs : List ArgSymbol) :
    namesMatch fs gs = true ↔
      ∀ (i : Nat) (fa ga : ArgSymbol), fs[i]? = some fa → gs[i]? = some ga → fa.name = ga.name := by
  induction fs generalizing gs with
  | nil => simp [namesMatch]
  | cons f fs ih =>
    cases gs with
    | nil => simp [namesMatch]
    | cons g gs =>
      simp only [namesMatch]
      constructor
      · intro h i fa ga hf hg
        by_cases hn : f.name = g.name
        · simp only [hn, ne_eq, not_true_eq_false, if_false] at h
          cases i with
          | zero =>
            simp only [List.getElem?_cons_zero, Option.some.injEq] at hf hg
            rw [← hf, ← hg]
            exact hn
          | succ i =>
            simp only [List.getElem?_cons_succ] at hf hg
            exact (ih gs).mp h i fa ga hf hg
        · simp [hn] at h
      · intro h
        have h0 : f.name = g.name := h 0 f g (by simp) (by simp)
        simp only [h0, ne_eq, not_true_eq_false, if_false]
        exact (ih gs).mpr (fun i fa ga hf hg => h (i + 1) fa ga (by simpa using hf) (by simpa using hg))

theorem namesAndTypesMatch_iff (fs gs : List ArgSymbol) :
    namesAndTypesMatch fs gs = true ↔
      namesMatch fs gs = true ∧
        ∀ (i : Nat) (fa ga : ArgSymbol), fs[i]? = some fa → gs[i]? = some ga → fa.type.same ga.type = true := by
  induction fs generalizing gs with
  | nil => simp [namesAndTypesMatch, namesMatch]
  | cons f fs ih =>
    cases gs with
    | nil => simp [namesAndTypesMatch, namesMatch]
    | cons g gs =>
      simp only [namesAndTypesMatch, namesMatch]
      by_cases hn : f.name = g.name
      · simp only [hn, ne_eq, not_true_eq_false, if_false]
        by_cases ht : f.type.same g.type = true
        · simp only [ht, Bool.not_true, Bool.false_eq_true, if_false]
          rw [ih gs]
          constructor
          · rintro ⟨h1, h2⟩
            refine ⟨h1, ?_⟩
            intro i fa ga hf hg
            cases i with
            | zero =>
              simp only [List.getElem?_cons_zero, Option.some.injEq] at hf hg
              rw [← hf, ← hg]
              exact ht
            | succ i =>
              simp only [List.getElem?_cons_succ] at hf hg
              exact h2 i fa ga hf hg
          · rintro ⟨h1, h2⟩
            exact ⟨h1, fun i fa ga hf hg => h2 (i + 1) fa ga (by simpa using hf) (by simpa using hg)⟩
        · have hf : f.type.same g.type = false := by simpa using ht
          simp only [hf, Bool.not_false, if_true, Bool.false_eq_true, false_iff, not_and]
          intro _ h
          have := h 0 f g (by simp) (by simp)
          simp [hf] at this
      · simp [hn]

theorem getElem?_drop_two (fs : List ArgSymbol) (i : Nat) :
    (fs.drop 2)[i]? = fs[i + 2]? := by
  rw [List.getElem?_drop, Nat.add_comm]

theorem from_third_iff (fs gs : List ArgSymbol) (P : ArgSymbol → ArgSymbol → Prop) :
    (∀ (i : Nat) (fa ga : ArgSymbol), (fs.drop 2)[i]? = some fa → (gs.drop 2)[i]? = some ga → P fa ga) ↔
      ∀ (i : Nat) (fa ga : ArgSymbol), 2 ≤ i → fs[i]? = some fa → gs[i]? = some ga → P fa ga := by
  constructor
  · intro h i fa ga hi hf hg
    obtain ⟨k, rfl⟩ : ∃ k, i = k + 2 := ⟨i - 2, by omega⟩
    exact h k fa ga (by rw [getElem?_drop_two]; exact hf) (by rw [getElem?_drop_two]; exact hg)
  · intro h i fa ga hf hg
    rw [getElem?_drop_two] at hf hg
    exact h (i + 2) fa ga (by omega) hf hg

theorem possible_signature_match_iff (fn gn : FnSymbol) :
    possible_signature_match fn gn = true ↔
      fn.name = gn.name ∧ fn.formals.length = gn.formals.length ∧
        ∀ (i : Nat) (fa ga : ArgSymbol), 2 ≤ i → fn.formals[i]? = some fa → gn.formals[i]? = some ga →
          fa.name = ga.name := by
  unfold possible_signature_match
  by_cases hn : fn.name = gn.name
  · by_cases hl : fn.formals.length = gn.formals.length
    · simp only [hn, hl, ne_eq, not_true_eq_false, if_false, true_and]
      rw [namesMatch_iff, from_third_iff _ _ (fun fa ga => fa.name = ga.name)]
    · simp [hn, hl]
  · simp [hn]

/-- C25, the reading that fails: the methods `m(_mt, this, x)` and
`m(_mt, this, y)` have the same name and the same number of formals, and
`possible_signature_match` is false for them, as their third formals differ
in name. -/
theorem possible_signature_match_needs_names :
    exampleMethodX.name = exampleMethodY.name ∧
    exampleMethodX.formals.length = exampleMethodY.formals.length ∧
    possible_signature_match exampleMethodX exampleMethodY = false := by
  decide

/-- C25: `possible_signature_match(fn, gn)` holds exactly when `fn` and `gn`
have the same name, the same number of formals and, from the third formal on,
formals of the same name; `signature_match(fn, gn)` holds exactly when
`possible_signature_match(fn, gn)` holds and every formal from the third on has
the identical type in `fn` and `gn`. -/
theorem signature_match_iff (fn gn : FnSymbol) :
    (possible_signature_match fn gn = true ↔
      fn.name = gn.name ∧ fn.formals.length = gn.formals.length ∧
        ∀ (i : Nat) (fa ga : ArgSymbol), 2 ≤ i → fn.formals[i]? = some fa → gn.formals[i]? = some ga →
          fa.name = ga.name) ∧
    (signature_match fn gn = true ↔
      possible_signature_match fn gn = true ∧
        ∀ (i : Nat) (fa ga : ArgSymbol), 2 ≤ i → fn.formals[i]? = some fa → gn.formals[i]? = some ga →
          fa.type.same ga.type = true) := by
  refine ⟨possible_signature_match_iff fn gn, ?_⟩
  unfold signature_match possible_signature_match
  by_cases hn : fn.name = gn.name
  · by_cases hl : fn.formals.length = gn.formals.length
    · simp only [hn, hl, ne_eq, not_true_eq_false, if_false]
      rw [namesAndTypesMatch_iff,
        from_third_iff _ _ (fun fa ga => fa.type.same ga.type = true)]
    · simp [hn, hl]
  · simp [hn]

/-! ## Select statements -/

mutual

theorem condStmt_setElse_assoc (chain : CondStmt) (a b : ElseStmt) :
    (chain.setElse a).setElse b = chain.setElse (a.setElse b) := by
  cases chain with
  | mk condExpr thenStmt elseStmt =>
    simp only [CondStmt.setElse]
    rw [elseStmt_setElse_assoc elseStmt a b]

theorem elseStmt_setElse_assoc (e a b : ElseStmt) :
    (e.setElse a).setElse b = e.setElse (a.setElse b) := by
  cases e with
  | null => simp only [ElseStmt.setElse]
  | block next =>
    simp only [ElseStmt.setElse]
    rw [condStmt_setElse_assoc next a b]
  | stmt body => simp only [ElseStmt.setElse]

end

mutual

theorem condStmt_setElse_null (chain : CondStmt) : chain.setElse .null = chain := by
  cases chain with
  | mk condExpr thenStmt elseStmt =>
    simp only [CondStmt.setElse]
    rw [elseStmt_setElse_null elseStmt]

theorem elseStmt_setElse_null (e : ElseStmt) : e.setElse .null = e := by
  cases e with
  | null => simp only [ElseStmt.setElse]
  | block next =>
    simp only [ElseStmt.setElse]
    rw [condStmt_setElse_null next]
  | stmt body => simp only [ElseStmt.setElse]

end

theorem selectChain_setElse (clauses : List (Expr × Expr)) (a b : ElseStmt) :
    (selectChain clauses a).setElse b = selectChain clauses (a.setElse b) := by
  induction clauses with
  | nil => simp [selectChain]
  | cons c rest ih =>
    obtain ⟨condExpr, thenStmt⟩ := c
    simp only [selectChain, ElseStmt.setElse, CondStmt.setElse, ih]

theorem extendChain_cons (top : Option CondStmt) (c : Expr × Expr) (rest : List (Expr × Expr)) :
    extendChain
      (match top with
        | none => some (.mk c.1 c.2 .null)
        | some chain => some (chain.setElse (.block (.mk c.1 c.2 .null)))) rest
      = extendChain top (c :: rest) := by
  obtain ⟨condExpr, thenStmt⟩ := c
  cases top with
  | none => simp [extendChain, CondStmt.setElse, ElseStmt.setElse]
  | some chain =>
    simp [extendChain, condStmt_setElse_assoc, selectChain, ElseStmt.setElse, CondStmt.setElse]

theorem buildSelectLoop_eq (selectCond : Expr) (whenstmts : List WhenStmt)
    (otherwise : Option Expr) (top : Option CondStmt) (hall : allWhen whenstmts = true) :
    buildSelectLoop selectCond whenstmts (otherwise, top) =
      if 1 < (otherwise.toList ++ otherwiseBodies whenstmts).length then
        .error (.USR_FATAL "Select has multiple otherwise clauses")
      else
        .ok ((otherwise.toList ++ otherwiseBodies whenstmts).head?,
          extendChain top (whenClauses selectCond whenstmts)) := by
  induction whenstmts generalizing otherwise top with
  | nil =>
    cases otherwise <;> cases top <;>
      simp [buildSelectLoop, otherwiseBodies, whenClauses, extendChain, selectChain,
        condStmt_setElse_null]
  | cons w rest ih =>
    cases w with
    | malformed => simp [allWhen] at hall
    | when conds thenStmt =>
      have hrest : allWhen rest = true := by simpa [allWhen] using hall
      cases conds with
      | nil =>
        cases otherwise with
        | none =>
          simp only [buildSelectLoop, Option.isSome_none, Bool.false_eq_true, if_false,
            ih (some thenStmt) top hrest, otherwiseBodies, whenClauses, Option.toList_none,
            Option.toList_some, List.nil_append, List.singleton_append]
        | some body =>
          simp [buildSelectLoop, otherwiseBodies]
      | cons whenCond conds =>
        have key := extendChain_cons top
          (whenCondition selectCond conds (.CallExpr "==" [selectCond.copy, whenCond]), thenStmt)
          (whenClauses selectCond rest)
        cases top with
        | none =>
          simp only [buildSelectLoop, ih _ _ hrest, otherwiseBodies, whenClauses]
          simp only at key
          rw [key]
        | some chain =>
          simp only [buildSelectLoop, ih _ _ hrest, otherwiseBodies, whenClauses]
          simp only at key
          rw [key]

/-- C24: for a list of when statements, `build_select` raises the `USR_FATAL`
"Select has multiple otherwise clauses" when more than one of them has an
empty list of conditions; with at most one such otherwise clause and at least
one when clause with conditions, it returns the chain of these clauses in their
order, each one in the `elseStmt` of the one before it, with the body of the
otherwise clause as the last `elseStmt` (null when there is none). -/
theorem build_select_chain (selectCond : Expr) (whenstmts : List WhenStmt)
    (hall : allWhen whenstmts = true) :
    (1 < (otherwiseBodies whenstmts).length →
      build_select selectCond whenstmts =
        .error (.USR_FATAL "Select has multiple otherwise clauses")) ∧
    ((otherwiseBodies whenstmts).length ≤ 1 →
      ∀ first rest, whenClauses selectCond whenstmts = first :: rest →
        build_select selectCond whenstmts =
          .ok (some (.mk first.1 first.2
            (selectChain rest (finalElse (otherwiseBodies whenstmts)))))) := by
  have h := buildSelectLoop_eq selectCond whenstmts none none hall
  simp only [Option.toList_none, List.nil_append] at h
  constructor
  · intro hmany
    unfold build_select
    rw [h, if_pos hmany]
  · intro hfew first rest hclauses
    obtain ⟨condExpr, thenStmt⟩ := first
    unfold build_select
    rw [h, if_neg (by omega), hclauses]
    cases hb : otherwiseBodies whenstmts with
    | nil => simp [extendChain, finalElse]
    | cons body more =>
      simp [extendChain, finalElse, CondStmt.setElse, selectChain_setElse, ElseStmt.setElse]

theorem build_select_chain_witness :
    build_select (.Other 1)
        [.when [.Other 10] (.Other 11), .when [] (.Other 99), .when [.Other 20, .Other 21] (.Other 22)]
      = .ok (some (.mk (.CallExpr "==" [.Other 1, .Other 10]) (.Other 11)
          (.block (.mk
            (.CallExpr "|" [.CallExpr "==" [.Other 1, .Other 20],
              .CallExpr "==" [.Other 1, .Other 21]])
            (.Other 22) (.stmt (.Other 99)))))) ∧
    build_select (.Other 1) [.when [] (.Other 98), .when [.Other 10] (.Other 11), .when [] (.Other 99)]
      = .error (.USR_FATAL "Select has multiple otherwise clauses") :=
  ⟨(build_select_chain (.Other 1)
      [.when [.Other 10] (.Other 11), .when [] (.Other 99), .when [.Other 20, .Other 21] (.Other 22)]
      rfl).2 (by decide) _ _ rfl,
    (build_select_chain (.Other 1)
      [.when [] (.Other 98), .when [.Other 10] (.Other 11), .when [] (.Other 99)] rfl).1
      (by decide)⟩

/-! ## Propagation of initialisers -/

theorem backPropagateLoop_eq (stmts : List Stmt) (hall : stmts.all Stmt.isDef = true) :
    backPropagateLoop stmts =
      .ok (((nearestTyped stmts).getD (none, none)).1, ((nearestTyped stmts).getD (none, none)).2,
        propagated stmts) := by
  induction stmts with
  | nil => rfl
  | cons stmt rest ih =>
    cases stmt with
    | Other e => simp [Stmt.isDef] at hall
    | DefExpr sym init exprType =>
      have hrest : rest.all Stmt.isDef = true := by
        simp only [List.all_cons, Bool.and_eq_true] at hall
        exact hall.2
      simp only [backPropagateLoop, ih hrest, nearestTyped, propagated]
      by_cases h : (init.isSome || exprType.isSome) = true
      · simp [h]
      · simp only [h, if_false]
        cases nearestTyped rest with
        | none => simp
        | some p => simp

theorem backPropagateLoop_error (stmts : List Stmt) (hsome : stmts.all Stmt.isDef = false) :
    backPropagateLoop stmts = .error (.INT_FATAL "Major error in backPropagateInitsTypes") := by
  induction stmts with
  | nil => simp at hsome
  | cons stmt rest ih =>
    by_cases hrest : rest.all Stmt.isDef = true
    · cases stmt with
      | Other e => simp [backPropagateLoop, backPropagateLoop_eq rest hrest]
      | DefExpr sym init exprType => simp [Stmt.isDef, hrest] at hsome
    · have hr : rest.all Stmt.isDef = false := by simpa using hrest
      simp [backPropagateLoop, ih hr]

/-- C29: for a block of which every statement is a `DefExpr`,
`backPropagateInitsTypes` leaves a definition that has an `init` or a type
expression as it is, gives a definition that has neither copies of the `init`
and of the type expression of the nearest following definition that has one of
them, and leaves it without both when no such definition follows; for a block
with a statement that is no `DefExpr` it raises an `INT_FATAL`. -/
theorem backPropagateInitsTypes_eq_propagated (stmts : List Stmt) :
    (stmts.all Stmt.isDef = true → backPropagateInitsTypes stmts = .ok (propagated stmts)) ∧
    (stmts.all Stmt.isDef = false →
      backPropagateInitsTypes stmts =
        .error (.INT_FATAL "Major error in backPropagateInitsTypes")) := by
  constructor
  · intro hall
    unfold backPropagateInitsTypes
    rw [backPropagateLoop_eq stmts hall]
  · intro hsome
    unfold backPropagateInitsTypes
    rw [backPropagateLoop_error stmts hsome]

theorem backPropagateInitsTypes_eq_propagated_witness :
    backPropagateInitsTypes
        [.DefExpr 1 none none, .DefExpr 2 none none, .DefExpr 3 (some (.Other 7)) none,
          .DefExpr 4 none none, .DefExpr 5 none (some (.Other 8)), .DefExpr 6 none none]
      = .ok [.DefExpr 1 (some (.Other 7)) none, .DefExpr 2 (some (.Other 7)) none,
          .DefExpr 3 (some (.Other 7)) none, .DefExpr 4 none (some (.Other 8)),
          .DefExpr 5 none (some (.Other 8)), .DefExpr 6 none none] ∧
    backPropagateInitsTypes [.DefExpr 1 none none, .Other (.Other 9)]
      = .error (.INT_FATAL "Major error in backPropagateInitsTypes") :=
  ⟨(backPropagateInitsTypes_eq_propagated _).1 rfl,
    (backPropagateInitsTypes_eq_propagated _).2 rfl⟩

/-! ## Sibling lists -/

theorem lastOr_cons (m : Nat) (rest : List Nat) (before : Option Nat) :
    lastOr (m :: rest) before = lastOr rest (some m) := by
  cases rest with
  | nil => rfl
  | cons m2 rest =>
    have hz : (m2 :: rest).getLast? = some ((m2 :: rest).getLast (List.cons_ne_nil _ _)) :=
      List.getLast?_eq_getLast _ _
    simp [lastOr, List.getLast?_cons_cons, hz]

theorem firstOr_append (xs : List Nat) (y : Nat) (ys : List Nat) (after : Option Nat) :
    firstOr (xs ++ y :: ys) after = firstOr xs (some y) := by
  cases xs <;> rfl

theorem linked_append (h : Heap) (l : Nat) (xs : List Nat) (y : Nat) (ys : List Nat)
    (before after : Option Nat) :
    linked h l before (xs ++ y :: ys) after =
      (linked h l before xs (some y) && linked h l (lastOr xs before) (y :: ys) after) := by
  induction xs generalizing before with
  | nil => simp [linked, lastOr]
  | cons x rest ih =>
    show linked h l before (x :: (rest ++ y :: ys)) after = _
    rw [linked, firstOr_append, ih, lastOr_cons]
    conv_rhs => rw [linked]
    simp only [Bool.and_assoc]

theorem linked_congr (h h2 : Heap) (l : Nat) (ms : List Nat) (before after : Option Nat)
    (hsame : ∀ m ∈ ms, h2.prev m = h.prev m ∧ h2.next m = h.next m ∧ h2.list m = h.list m) :
    linked h2 l before ms after = linked h l before ms after := by
  induction ms generalizing before with
  | nil => rfl
  | cons m rest ih =>
    obtain ⟨h1, h3, h4⟩ := hsame m (List.mem_cons_self _ _)
    simp only [linked, h1, h3, h4]
    rw [ih (some m) (fun x hx => hsame x (List.mem_cons_of_mem _ hx))]

theorem linked_list (h : Heap) (l : Nat) (ms : List Nat) (before after : Option Nat)
    (hl : linked h l before ms after = true) : ∀ m ∈ ms, h.list m = some l := by
  induction ms generalizing before with
  | nil => intro m hm; cases hm
  | cons m rest ih =>
    simp only [linked, Bool.and_eq_true, beq_iff_eq] at hl
    intro x hx
    rcases List.mem_cons.mp hx with rfl | hx
    · exact hl.1.1.2
    · exact ih (some m) hl.2 x hx

theorem insertBefore_ok (helpers : TreeHelpers) (h : Heap) (this new_ast l : Nat)
    (hl : h.list this = some l) (hn : h.list new_ast = none)
    (hp : h.parentSymbol new_ast = none) (hpn : h.prev this ≠ some new_ast) :
    ∃ h2, Expr.insertBefore helpers h this new_ast = .ok h2 ∧
      h2.prev new_ast = h.prev this ∧ h2.prev this = some new_ast ∧
      (∀ m, m ≠ new_ast → m ≠ this → h2.prev m = h.prev m) ∧
      h2.next new_ast = some this ∧
      (∀ p, h.prev this = some p → h2.next p = some new_ast) ∧
      (∀ m, m ≠ new_ast → h.prev this ≠ some m → h2.next m = h.next m) ∧
      h2.list new_ast = some l ∧ (∀ m, m ≠ new_ast → h2.list m = h.list m) ∧
      h2.head l = (if h.prev this = none then some new_ast else h.head l) ∧
      h2.tail l = h.tail l ∧ h2.length l = h.length l + 1 := by
  have hne : this ≠ new_ast := by
    intro e
    rw [e, hn] at hl
    cases hl
  have hne2 : new_ast ≠ this := fun e => hne e.symm
  cases hprev : h.prev this with
  | none =>
    refine ⟨_, by
      simp only [Expr.insertBefore, hp, hl, hn, Option.isSome_none, Option.isNone_some,
        Bool.false_eq_true, if_false, Function.update_noteq hne, hprev]
      rfl, ?_⟩
    by_cases hps : (h.parentSymbol this).isSome = true <;>
      simp [hps, Heap.setHead, Heap.addLength, Function.update_noteq hne, hl, hne2] <;>
      exact ⟨fun m hm1 hm2 => by
          rw [Function.update_noteq hm2, Function.update_noteq hm1],
        fun m hm1 => by rw [Function.update_noteq hm1],
        fun m hm1 => by rw [Function.update_noteq hm1]⟩
  | some p =>
    have hpne : p ≠ new_ast := by
      intro e
      rw [hprev, e] at hpn
      exact hpn rfl
    refine ⟨_, by
      simp only [Expr.insertBefore, hp, hl, hn, Option.isSome_none, Option.isNone_some,
        Bool.false_eq_true, if_false, Function.update_noteq hne, hprev]
      rfl, ?_⟩
    by_cases hps : (h.parentSymbol this).isSome = true <;>
      simp [hps, Heap.setHead, Heap.addLength, Function.update_noteq hne, hl, hne2,
        Function.update_noteq hpne.symm] <;>
      refine ⟨fun m hm1 hm2 => by simp [Function.update_noteq hm1, Function.update_noteq hm2],
        fun m hm1 hm2 => ?_, fun m hm1 => by simp [Function.update_noteq hm1]⟩ <;>
      · have hm3 : m ≠ p := fun e => hm2 (by rw [e])
        simp [Function.update_noteq hm1, Function.update_noteq hm3]

theorem lastOr_mem (ms : List Nat) (p : Nat) (h : lastOr ms none = some p) : p ∈ ms := by
  unfold lastOr at h
  cases hl : ms.getLast? with
  | none => rw [hl] at h; cases h
  | some z =>
    rw [hl] at h
    simp only [Option.some.injEq] at h
    rw [← h]
    exact List.mem_of_getLast?_eq_some hl

theorem lastOr_concat (init : List Nat) (p : Nat) (before : Option Nat) :
    lastOr (init ++ [p]) before = some p := by
  simp [lastOr]

theorem firstOr_mem (ms : List Nat) (n : Nat) (h : firstOr ms none = some n) : n ∈ ms := by
  cases ms with
  | nil => cases h
  | cons m rest =>
    simp only [firstOr, Option.some.injEq] at h
    rw [← h]
    exact List.mem_cons_self _ _

theorem getLast?_middle (pre post : List Nat) (a : Nat) :
    (pre ++ a :: post).getLast? = (a :: post).getLast? := by
  rw [List.getLast?_append]
  have hz : (a :: post).getLast? = some ((a :: post).getLast (List.cons_ne_nil _ _)) :=
    List.getLast?_eq_getLast _ _
  rw [hz]
  rfl

theorem head?_middle (pre post : List Nat) (a : Nat) :
    (pre ++ a :: post).head? = firstOr pre (some a) := by
  cases pre <;> rfl

/-- The facts that a well-formed list gives on one of its members. -/
theorem wellFormed_at (h : Heap) (l : Nat) (pre post : List Nat) (this : Nat)
    (hwf : WellFormed h l (pre ++ this :: post)) :
    this ∉ pre ∧ this ∉ post ∧ (∀ m ∈ post, m ∉ pre) ∧ pre.Nodup ∧ post.Nodup ∧
      (∀ m ∈ pre ++ this :: post, h.list m = some l) ∧
      linked h l none pre (some this) = true ∧
      h.prev this = lastOr pre none ∧ h.list this = some l ∧ h.next this = firstOr post none ∧
      linked h l (some this) post none = true := by
  obtain ⟨hnd, _, _, _, hlink⟩ := hwf
  have hlist := linked_list h l _ none none hlink
  rw [linked_append, Bool.and_eq_true] at hlink
  obtain ⟨hl1, hl2⟩ := hlink
  simp only [linked, Bool.and_eq_true, beq_iff_eq] at hl2
  rw [List.nodup_append] at hnd
  obtain ⟨hn1, hn2, hdis⟩ := hnd
  rw [List.nodup_cons] at hn2
  refine ⟨?_, hn2.1, ?_, hn1, hn2.2, hlist, hl1, hl2.1.1.1, hl2.1.1.2, hl2.1.2, hl2.2⟩
  · intro hm
    exact hdis hm (List.mem_cons_self _ _)
  · intro m hm hm2
    exact hdis hm2 (List.mem_cons_of_mem _ hm)

theorem insertBefore_wellFormed (helpers : TreeHelpers) (h : Heap) (l : Nat)
    (pre post : List Nat) (this new_ast : Nat) (hwf : WellFormed h l (pre ++ this :: post))
    (hn : h.list new_ast = none) (hp : h.parentSymbol new_ast = none) :
    ∃ h2, Expr.insertBefore helpers h this new_ast = .ok h2 ∧
      WellFormed h2 l (pre ++ new_ast :: this :: post) := by
  obtain ⟨htp, htq, hdis, hndp, hndq, hlist, hl1, hprev, hl, hnext, hl2⟩ :=
    wellFormed_at h l pre post this hwf
  obtain ⟨hnd, hhead, htail, hlen, _⟩ := hwf
  have hnew : new_ast ∉ pre ++ this :: post := by
    intro hm
    rw [hlist _ hm] at hn
    cases hn
  have hnew_pre : new_ast ∉ pre := fun hm => hnew (List.mem_append_left _ hm)
  have hnew_this : new_ast ≠ this := fun e => hnew (by rw [e]; simp)
  have hnew_post : new_ast ∉ post := fun hm =>
    hnew (List.mem_append_right _ (List.mem_cons_of_mem _ hm))
  have hpn : h.prev this ≠ some new_ast := by
    intro e
    rw [hprev] at e
    exact hnew_pre (lastOr_mem pre new_ast e)
  obtain ⟨h2, hok, p1, p2, p3, n1, n2, n3, l1, l2, hd, tl, ln⟩ :=
    insertBefore_ok helpers h this new_ast l hl hn hp hpn
  refine ⟨h2, hok, ?_, ?_, ?_, ?_, ?_⟩
  · rw [List.nodup_middle, List.nodup_cons]
    exact ⟨hnew, hnd⟩
  · rw [hd, head?_middle, hprev]
    rw [head?_middle] at hhead
    cases pre with
    | nil => rfl
    | cons x xs =>
      rw [lastOr_cons]
      have : lastOr xs (some x) ≠ none := by
        unfold lastOr
        cases xs.getLast? <;> simp
      simp only [this, if_false]
      exact hhead
  · rw [tl, htail, getLast?_middle, getLast?_middle, List.getLast?_cons_cons]
  · rw [ln, hlen]
    simp only [List.length_append, List.length_cons]
    push_cast
    ring
  · rw [linked_append, Bool.and_eq_true]
    constructor
    · rcases List.eq_nil_or_concat pre with hnil | ⟨init, p, hpre⟩
      · rw [hnil]
        rfl
      · rw [List.concat_eq_append] at hpre
        subst hpre
        have hpp : h.prev this = some p := by rw [hprev, lastOr_concat]
        rw [List.nodup_append] at hndp
        obtain ⟨_, _, hdis2⟩ := hndp
        have hp_init : p ∉ init := fun hm => hdis2 hm (List.mem_singleton_self _)
        have hp_new : p ≠ new_ast := fun e => hnew_pre (by rw [← e]; simp)
        have hp_this : p ≠ this := fun e => htp (by rw [← e]; simp)
        rw [linked_append, Bool.and_eq_true] at hl1 ⊢
        obtain ⟨hl1a, hl1b⟩ := hl1
        constructor
        · rw [linked_congr h h2 l init none (some p) ?_]
          · exact hl1a
          · intro m hm
            have hm1 : m ≠ new_ast := fun e => hnew_pre (by rw [← e]; simp [hm])
            have hm2 : m ≠ this := fun e => htp (by rw [← e]; simp [hm])
            have hm3 : h.prev this ≠ some m := by
              rw [hpp]
              intro e
              simp only [Option.some.injEq] at e
              exact hp_init (by rw [e]; exact hm)
            exact ⟨p3 m hm1 hm2, n3 m hm1 hm3, l2 m hm1⟩
        · simp only [linked, firstOr, Bool.and_eq_true, beq_iff_eq, and_true] at hl1b ⊢
          exact ⟨⟨by rw [p3 p hp_new hp_this]; exact hl1b.1.1,
            by rw [l2 p hp_new]; exact hl1b.1.2⟩, n2 p hpp⟩
    · have hthis_prev : h.prev this ≠ some this := by
        intro e
        rw [hprev] at e
        exact htp (lastOr_mem pre this e)
      simp only [linked, firstOr, Bool.and_eq_true, beq_iff_eq]
      refine ⟨⟨⟨by rw [p1, hprev], l1⟩, n1⟩, ⟨⟨p2, by rw [l2 this hnew_this.symm, hl]⟩, ?_⟩, ?_⟩
      · rw [n3 this hnew_this.symm hthis_prev, hnext]
        rfl
      · rw [linked_congr h h2 l post (some this) none ?_]
        · exact hl2
        · intro m hm
          have hm1 : m ≠ new_ast := fun e => hnew_post (by rw [← e]; exact hm)
          have hm2 : m ≠ this := fun e => htq (by rw [← e]; exact hm)
          have hm3 : h.prev this ≠ some m := by
            intro e
            rw [hprev] at e
            exact hdis m hm (lastOr_mem pre m e)
          exact ⟨p3 m hm1 hm2, n3 m hm1 hm3, l2 m hm1⟩

theorem linked_retarget_after (h h2 : Heap) (l : Nat) (pre : List Nat)
    (before a a2 : Option Nat) (hnd : pre.Nodup) (hl : linked h l before pre a = true)
    (hprev : ∀ m ∈ pre, h2.prev m = h.prev m) (hlist : ∀ m ∈ pre, h2.list m = h.list m)
    (hnext : ∀ m ∈ pre, lastOr pre none ≠ some m → h2.next m = h.next m)
    (hlast : ∀ p, lastOr pre none = some p → h2.next p = a2) :
    linked h2 l before pre a2 = true := by
  rcases List.eq_nil_or_concat pre with hnil | ⟨init, p, hpre⟩
  · rw [hnil]
    rfl
  · rw [List.concat_eq_append] at hpre
    subst hpre
    rw [List.nodup_append] at hnd
    obtain ⟨_, _, hdis⟩ := hnd
    have hp_init : p ∉ init := fun hm => hdis hm (List.mem_singleton_self _)
    rw [linked_append, Bool.and_eq_true] at hl ⊢
    obtain ⟨hla, hlb⟩ := hl
    constructor
    · rw [linked_congr h h2 l init before (some p) ?_]
      · exact hla
      · intro m hm
        have hmem : m ∈ init ++ [p] := List.mem_append_left _ hm
        refine ⟨hprev m hmem, hnext m hmem ?_, hlist m hmem⟩
        rw [lastOr_concat]
        intro e
        simp only [Option.some.injEq] at e
        exact hp_init (by rw [e]; exact hm)
    · have hmem : p ∈ init ++ [p] := by simp
      simp only [linked, firstOr, Bool.and_eq_true, beq_iff_eq, and_true] at hlb ⊢
      exact ⟨⟨by rw [hprev p hmem]; exact hlb.1.1, by rw [hlist p hmem]; exact hlb.1.2⟩,
        hlast p (lastOr_concat init p none)⟩

theorem linked_retarget_before (h h2 : Heap) (l : Nat) (post : List Nat)
    (b b2 a : Option Nat) (hnd : post.Nodup) (hl : linked h l b post a = true)
    (hnext : ∀ m ∈ post, h2.next m = h.next m) (hlist : ∀ m ∈ post, h2.list m = h.list m)
    (hprev : ∀ m ∈ post, firstOr post none ≠ some m → h2.prev m = h.prev m)
    (hfirst : ∀ q, firstOr post none = some q → h2.prev q = b2) :
    linked h2 l b2 post a = true := by
  cases post with
  | nil => rfl
  | cons q rest =>
    rw [List.nodup_cons] at hnd
    have hq : q ∈ q :: rest := List.mem_cons_self _ _
    rw [linked, Bool.and_eq_true, Bool.and_eq_true, Bool.and_eq_true] at hl ⊢
    simp only [beq_iff_eq] at hl ⊢
    refine ⟨⟨⟨hfirst q rfl, by rw [hlist q hq]; exact hl.1.1.2⟩,
      by rw [hnext q hq]; exact hl.1.2⟩, ?_⟩
    rw [linked_congr h h2 l rest (some q) a ?_]
    · exact hl.2
    · intro m hm
      have hmem : m ∈ q :: rest := List.mem_cons_of_mem _ hm
      refine ⟨hprev m hmem ?_, hnext m hmem, hlist m hmem⟩
      intro e
      simp only [firstOr, Option.some.injEq] at e
      exact hnd.1 (by rw [e]; exact hm)

theorem insertAfter_ok (helpers : TreeHelpers) (h : Heap) (this new_ast l : Nat)
    (hl : h.list this = some l) (hn : h.list new_ast = none)
    (hp : h.parentSymbol new_ast = none) (hnn : h.next this ≠ some new_ast) :
    ∃ h2, Expr.insertAfter helpers h this new_ast = .ok h2 ∧
      h2.next new_ast = h.next this ∧ h2.next this = some new_ast ∧
      (∀ m, m ≠ new_ast → m ≠ this → h2.next m = h.next m) ∧
      h2.prev new_ast = some this ∧
      (∀ q, h.next this = some q → h2.prev q = some new_ast) ∧
      (∀ m, m ≠ new_ast → h.next this ≠ some m → h2.prev m = h.prev m) ∧
      h2.list new_ast = some l ∧ (∀ m, m ≠ new_ast → h2.list m = h.list m) ∧
      h2.tail l = (if h.next this = none then some new_ast else h.tail l) ∧
      h2.head l = h.head l ∧ h2.length l = h.length l + 1 := by
  have hne : this ≠ new_ast := by
    intro e
    rw [e, hn] at hl
    cases hl
  have hne2 : new_ast ≠ this := fun e => hne e.symm
  cases hnext : h.next this with
  | none =>
    refine ⟨_, by
      simp only [Expr.insertAfter, hp, hl, hn, Option.isSome_none, Option.isNone_some,
        Bool.false_eq_true, if_false, Function.update_noteq hne, hnext]
      rfl, ?_⟩
    by_cases hps : (h.parentSymbol this).isSome = true <;>
      simp [hps, Heap.setTail, Heap.addLength, Function.update_noteq hne, hl, hne2] <;>
      exact ⟨fun m hm1 hm2 => by
          rw [Function.update_noteq hm2, Function.update_noteq hm1],
        fun m hm1 => by rw [Function.update_noteq hm1],
        fun m hm1 => by rw [Function.update_noteq hm1]⟩
  | some q =>
    have hqne : q ≠ new_ast := by
      intro e
      rw [hnext, e] at hnn
      exact hnn rfl
    refine ⟨_, by
      simp only [Expr.insertAfter, hp, hl, hn, Option.isSome_none, Option.isNone_some,
        Bool.false_eq_true, if_false, Function.update_noteq hne, hnext]
      rfl, ?_⟩
    by_cases hps : (h.parentSymbol this).isSome = true <;>
      simp [hps, Heap.setTail, Heap.addLength, Function.update_noteq hne, hl, hne2,
        Function.update_noteq hqne.symm] <;>
      refine ⟨fun m hm1 hm2 => by simp [Function.update_noteq hm1, Function.update_noteq hm2],
        fun m hm1 hm2 => ?_, fun m hm1 => by simp [Function.update_noteq hm1]⟩ <;>
      · have hm3 : m ≠ q := fun e => hm2 (by rw [e])
        simp [Function.update_noteq hm1, Function.update_noteq hm3]

theorem insertAfter_wellFormed (helpers : TreeHelpers) (h : Heap) (l : Nat)
    (pre post : List Nat) (this new_ast : Nat) (hwf : WellFormed h l (pre ++ this :: post))
    (hn : h.list new_ast = none) (hp : h.parentSymbol new_ast = none) :
    ∃ h2, Expr.insertAfter helpers h this new_ast = .ok h2 ∧
      WellFormed h2 l (pre ++ this :: new_ast :: post) := by
  obtain ⟨htp, htq, hdis, hndp, hndq, hlist, hl1, hprev, hl, hnext, hl2⟩ :=
    wellFormed_at h l pre post this hwf
  obtain ⟨hnd, hhead, htail, hlen, _⟩ := hwf
  have hnew : new_ast ∉ pre ++ this :: post := by
    intro hm
    rw [hlist _ hm] at hn
    cases hn
  have hnew_pre : new_ast ∉ pre := fun hm => hnew (List.mem_append_left _ hm)
  have hnew_this : new_ast ≠ this := fun e => hnew (by rw [e]; simp)
  have hnew_post : new_ast ∉ post := fun hm =>
    hnew (List.mem_append_right _ (List.mem_cons_of_mem _ hm))
  have hnn : h.next this ≠ some new_ast := by
    intro e
    rw [hnext] at e
    exact hnew_post (firstOr_mem post new_ast e)
  have hthis_next : h.next this ≠ some this := by
    intro e
    rw [hnext] at e
    exact htq (firstOr_mem post this e)
  obtain ⟨h2, hok, n1, n2, n3, p1, p2, p3, l1, l2, tl, hd, ln⟩ :=
    insertAfter_ok helpers h this new_ast l hl hn hp hnn
  refine ⟨h2, hok, ?_, ?_, ?_, ?_, ?_⟩
  · have e : pre ++ this :: new_ast :: post = (pre ++ [this]) ++ new_ast :: post := by simp
    rw [e, List.nodup_middle, List.nodup_cons]
    refine ⟨?_, by simpa using hnd⟩
    simpa using hnew
  · rw [hd, hhead, head?_middle, head?_middle]
  · rw [tl, getLast?_middle, List.getLast?_cons_cons, hnext]
    rw [getLast?_middle] at htail
    cases post with
    | nil => rfl
    | cons q rest =>
      simp only [firstOr, reduceCtorEq, if_false]
      rw [htail, List.getLast?_cons_cons, List.getLast?_cons_cons]
  · rw [ln, hlen]
    simp only [List.length_append, List.length_cons]
    push_cast
    ring
  · rw [linked_append, Bool.and_eq_true]
    constructor
    · rw [linked_congr h h2 l pre none (some this) ?_]
      · exact hl1
      · intro m hm
        have hm1 : m ≠ new_ast := fun e => hnew_pre (by rw [← e]; exact hm)
        have hm2 : m ≠ this := fun e => htp (by rw [← e]; exact hm)
        have hm3 : h.next this ≠ some m := by
          intro e
          rw [hnext] at e
          exact hdis m (firstOr_mem post m e) hm
        exact ⟨p3 m hm1 hm3, n3 m hm1 hm2, l2 m hm1⟩
    · rw [linked, linked, Bool.and_eq_true, Bool.and_eq_true, Bool.and_eq_true,
        Bool.and_eq_true, Bool.and_eq_true, Bool.and_eq_true]
      simp only [beq_iff_eq, firstOr]
      refine ⟨⟨⟨by rw [p3 this hnew_this.symm hthis_next, hprev],
        by rw [l2 this hnew_this.symm, hl]⟩, n2⟩, ⟨⟨p1, l1⟩, by rw [n1, hnext]; rfl⟩, ?_⟩
      apply linked_retarget_before h h2 l post (some this) (some new_ast) none hndq hl2
      · intro m hm
        have hm1 : m ≠ new_ast := fun e => hnew_post (by rw [← e]; exact hm)
        have hm2 : m ≠ this := fun e => htq (by rw [← e]; exact hm)
        exact n3 m hm1 hm2
      · intro m hm
        have hm1 : m ≠ new_ast := fun e => hnew_post (by rw [← e]; exact hm)
        exact l2 m hm1
      · intro m hm hf
        have hm1 : m ≠ new_ast := fun e => hnew_post (by rw [← e]; exact hm)
        exact p3 m hm1 (by rw [hnext]; exact hf)
      · intro q hq
        exact p2 q (by rw [hnext]; exact hq)

theorem remove_ok (helpers : TreeHelpers) (h : Heap) (this l : Nat)
    (hl : h.list this = some l) (hpt : h.prev this ≠ some this)
    (hnt : h.next this ≠ some this) :
    (Expr.remove helpers h (some this)).prev this = none ∧
    (∀ q, h.next this = some q → (Expr.remove helpers h (some this)).prev q = h.prev this) ∧
    (∀ m, m ≠ this → h.next this ≠ some m →
      (Expr.remove helpers h (some this)).prev m = h.prev m) ∧
    (Expr.remove helpers h (some this)).next this = none ∧
    (∀ p, h.prev this = some p → (Expr.remove helpers h (some this)).next p = h.next this) ∧
    (∀ m, m ≠ this → h.prev this ≠ some m →
      (Expr.remove helpers h (some this)).next m = h.next m) ∧
    (Expr.remove helpers h (some this)).list this = none ∧
    (∀ m, m ≠ this → (Expr.remove helpers h (some this)).list m = h.list m) ∧
    (Expr.remove helpers h (some this)).head l
      = (if h.prev this = none then h.next this else h.head l) ∧
    (Expr.remove helpers h (some this)).tail l
      = (if h.next this = none then h.prev this else h.tail l) ∧
    (Expr.remove helpers h (some this)).length l = h.length l - 1 := by
  cases hprev : h.prev this with
  | none =>
    cases hnext : h.next this with
    | none =>
      by_cases hps : (h.parentSymbol this).isSome = true <;>
        simp [Expr.remove, hl, hprev, hnext, hps, Heap.setHead, Heap.setTail, Heap.addLength]
          <;>
        exact ⟨fun m hm => by rw [Function.update_noteq hm],
          fun m hm => by rw [Function.update_noteq hm],
          fun m hm => by rw [Function.update_noteq hm], by ring⟩
    | some q =>
      have hq : q ≠ this := by
        intro e
        rw [hnext, e] at hnt
        exact hnt rfl
      by_cases hps : (h.parentSymbol this).isSome = true <;>
        simp [Expr.remove, hl, hprev, hnext, hps, Heap.setHead, Heap.setTail, Heap.addLength,
          Function.update_noteq hq.symm, Function.update_noteq hq] <;>
        exact ⟨fun m hm hm2 => by
            have hm3 : m ≠ q := fun e => hm2 (by rw [e])
            rw [Function.update_noteq hm, Function.update_noteq hm3],
          fun m hm => by rw [Function.update_noteq hm],
          fun m hm => by rw [Function.update_noteq hm], by ring⟩
  | some p =>
    have hp : p ≠ this := by
      intro e
      rw [hprev, e] at hpt
      exact hpt rfl
    cases hnext : h.next this with
    | none =>
      by_cases hps : (h.parentSymbol this).isSome = true <;>
        simp [Expr.remove, hl, hprev, hnext, hps, Heap.setHead, Heap.setTail, Heap.addLength,
          Function.update_noteq hp.symm, Function.update_noteq hp] <;>
        exact ⟨fun m hm => by rw [Function.update_noteq hm],
          fun m hm hm2 => by
            have hm3 : m ≠ p := fun e => hm2 (by rw [e])
            rw [Function.update_noteq hm, Function.update_noteq hm3],
          fun m hm => by rw [Function.update_noteq hm], by ring⟩
    | some q =>
      have hq : q ≠ this := by
        intro e
        rw [hnext, e] at hnt
        exact hnt rfl
      by_cases hps : (h.parentSymbol this).isSome = true <;>
        simp [Expr.remove, hl, hprev, hnext, hps, Heap.setHead, Heap.setTail, Heap.addLength,
          Function.update_noteq hp.symm, Function.update_noteq hp,
          Function.update_noteq hq.symm, Function.update_noteq hq] <;>
        exact ⟨fun m hm hm2 => by
            have hm3 : m ≠ q := fun e => hm2 (by rw [e])
            rw [Function.update_noteq hm, Function.update_noteq hm3],
          fun m hm hm2 => by
            have hm3 : m ≠ p := fun e => hm2 (by rw [e])
            rw [Function.update_noteq hm, Function.update_noteq hm3],
          fun m hm => by rw [Function.update_noteq hm], by ring⟩

theorem lastOr_none (ms : List Nat) : lastOr ms none = ms.getLast? := by
  unfold lastOr
  cases ms.getLast? <;> rfl

theorem firstOr_none (ms : List Nat) : firstOr ms none = ms.head? := by
  cases ms <;> rfl

theorem remove_wellFormed (helpers : TreeHelpers) (h : Heap) (l : Nat)
    (pre post : List Nat) (this : Nat) (hwf : WellFormed h l (pre ++ this :: post)) :
    WellFormed (Expr.remove helpers h (some this)) l (pre ++ post) ∧
      (Expr.remove helpers h (some this)).prev this = none ∧
      (Expr.remove helpers h (some this)).next this = none ∧
      (Expr.remove helpers h (some this)).list this = none := by
  obtain ⟨htp, htq, hdis, hndp, hndq, hlist, hl1, hprev, hl, hnext, hl2⟩ :=
    wellFormed_at h l pre post this hwf
  obtain ⟨hnd, hhead, htail, hlen, _⟩ := hwf
  have hpt : h.prev this ≠ some this := by
    intro e
    rw [hprev] at e
    exact htp (lastOr_mem pre this e)
  have hnt : h.next this ≠ some this := by
    intro e
    rw [hnext] at e
    exact htq (firstOr_mem post this e)
  obtain ⟨p1, p2, p3, n1, n2, n3, l1, l2, hd, tl, ln⟩ := remove_ok helpers h this l hl hpt hnt
  generalize Expr.remove helpers h (some this) = h2 at p1 p2 p3 n1 n2 n3 l1 l2 hd tl ln ⊢
  have hpre_prev : ∀ m ∈ pre, h2.prev m = h.prev m := by
    intro m hm
    have hm2 : m ≠ this := fun e => htp (by rw [← e]; exact hm)
    apply p3 m hm2
    intro e
    rw [hnext] at e
    exact hdis m (firstOr_mem post m e) hm
  have hpre_list : ∀ m ∈ pre, h2.list m = h.list m := by
    intro m hm
    exact l2 m (fun e => htp (by rw [← e]; exact hm))
  have hpre_next : ∀ m ∈ pre, lastOr pre none ≠ some m → h2.next m = h.next m := by
    intro m hm hne
    exact n3 m (fun e => htp (by rw [← e]; exact hm)) (by rw [hprev]; exact hne)
  have hpre_last : ∀ p, lastOr pre none = some p → h2.next p = firstOr post none := by
    intro p hp
    rw [n2 p (by rw [hprev]; exact hp), hnext]
  have hpre := linked_retarget_after h h2 l pre none (some this) (firstOr post none) hndp hl1
    hpre_prev hpre_list hpre_next hpre_last
  have hpost := linked_retarget_before h h2 l post (some this) (lastOr pre none) none hndq hl2
    (fun m hm => by
      have hm2 : m ≠ this := fun e => htq (by rw [← e]; exact hm)
      apply n3 m hm2
      intro e
      rw [hprev] at e
      exact hdis m hm (lastOr_mem pre m e))
    (fun m hm => l2 m (fun e => htq (by rw [← e]; exact hm)))
    (fun m hm hne => p3 m (fun e => htq (by rw [← e]; exact hm)) (by rw [hnext]; exact hne))
    (fun q hq => by rw [p2 q (by rw [hnext]; exact hq), hprev])
  refine ⟨⟨?_, ?_, ?_, ?_, ?_⟩, p1, n1, l1⟩
  · rw [List.nodup_middle, List.nodup_cons] at hnd
    exact hnd.2
  · rw [hd, hprev, hnext]
    rw [head?_middle] at hhead
    cases pre with
    | nil => simp [lastOr, firstOr_none]
    | cons x xs =>
      rw [lastOr_cons]
      have : lastOr xs (some x) ≠ none := by
        unfold lastOr
        cases xs.getLast? <;> simp
      simp only [this, if_false]
      exact hhead
  · rw [tl, hprev, hnext]
    rw [getLast?_middle] at htail
    cases post with
    | nil => simp [firstOr, lastOr_none]
    | cons q rest =>
      simp only [firstOr, reduceCtorEq, if_false]
      rw [htail, List.getLast?_cons_cons, getLast?_middle]
  · rw [ln, hlen]
    simp only [List.length_append, List.length_cons]
    push_cast
    ring
  · cases post with
    | nil =>
      rw [List.append_nil]
      exact hpre
    | cons q rest =>
      rw [linked_append, Bool.and_eq_true]
      exact ⟨hpre, hpost⟩

theorem linked_index (h : Heap) (l : Nat) (ms : List Nat) (before after : Option Nat)
    (hl : linked h l before ms after = true) (i x : Nat) (hx : ms[i]? = some x) :
    h.prev x = (if i = 0 then before else ms[i - 1]?) ∧
      h.next x = (if i + 1 < ms.length then ms[i + 1]? else after) ∧ h.list x = some l := by
  induction ms generalizing before i with
  | nil => simp at hx
  | cons m rest ih =>
    rw [linked, Bool.and_eq_true, Bool.and_eq_true, Bool.and_eq_true] at hl
    simp only [beq_iff_eq] at hl
    cases i with
    | zero =>
      simp only [List.getElem?_cons_zero, Option.some.injEq] at hx
      subst hx
      refine ⟨by simp [hl.1.1.1], ?_, hl.1.1.2⟩
      rw [hl.1.2]
      cases rest <;> simp [firstOr]
    | succ k =>
      simp only [List.getElem?_cons_succ] at hx
      obtain ⟨h1, h2, h3⟩ := ih (some m) hl.2 k hx
      refine ⟨?_, ?_, h3⟩
      · rw [h1]
        cases k <;> simp
      · rw [h2]
        simp only [List.length_cons, List.getElem?_cons_succ, Nat.add_lt_add_iff_right]

/-- C26: for a well-formed sibling list with the members `pre`, `this` and
`post`, `Expr::insertBefore` and `Expr::insertAfter` of an expression that is in
no list and has no parent symbol end without an error and leave the list
well formed with the new member right before, or right after, `this`, and
`Expr::remove` leaves it well formed without `this`, the other members in their
order, and leaves `prev`, `next` and `list` of the removed expression null.
In a well-formed list `head` and `tail` are the first and the last member,
`length` is the number of members, the field `list` of each member is the list,
its `prev` is the member before it and its `next` the member after it. -/
theorem sibling_list_well_formed (helpers : TreeHelpers) (h : Heap) (l : Nat)
    (pre post : List Nat) (this new_ast : Nat) (hwf : WellFormed h l (pre ++ this :: post)) :
    (h.list new_ast = none → h.parentSymbol new_ast = none →
      (∃ h2, Expr.insertBefore helpers h this new_ast = .ok h2 ∧
        WellFormed h2 l (pre ++ new_ast :: this :: post)) ∧
      (∃ h2, Expr.insertAfter helpers h this new_ast = .ok h2 ∧
        WellFormed h2 l (pre ++ this :: new_ast :: post))) ∧
    (WellFormed (Expr.remove helpers h (some this)) l (pre ++ post) ∧
      (Expr.remove helpers h (some this)).prev this = none ∧
      (Expr.remove helpers h (some this)).next this = none ∧
      (Expr.remove helpers h (some this)).list this = none) ∧
    (∀ (g : Heap) (ms : List Nat), WellFormed g l ms →
      g.head l = ms.head? ∧ g.tail l = ms.getLast? ∧ g.length l = (ms.length : Int) ∧
      ∀ (i x : Nat), ms[i]? = some x →
        g.prev x = (if i = 0 then none else ms[i - 1]?) ∧ g.next x = ms[i + 1]? ∧
          g.list x = some l) := by
  refine ⟨fun hn hp => ⟨insertBefore_wellFormed helpers h l pre post this new_ast hwf hn hp,
    insertAfter_wellFormed helpers h l pre post this new_ast hwf hn hp⟩,
    remove_wellFormed helpers h l pre post this hwf, ?_⟩
  intro g ms hg
  obtain ⟨_, h1, h2, h3, h4⟩ := hg
  refine ⟨h1, h2, h3, ?_⟩
  intro i x hx
  obtain ⟨a, b, c⟩ := linked_index g l ms none none h4 i x hx
  refine ⟨a, ?_, c⟩
  rw [b]
  split_ifs with hlt
  · rfl
  · rw [List.getElem?_eq_none (by omega)]

theorem sibling_list_well_formed_witness :
    WellFormed exampleHeap 100 ([1] ++ 2 :: [3]) ∧
    (∃ h2, Expr.insertBefore exampleHelpers exampleHeap 2 4 = .ok h2 ∧
      WellFormed h2 100 ([1] ++ 4 :: 2 :: [3])) ∧
    WellFormed (Expr.remove exampleHelpers exampleHeap (some 2)) 100 ([1] ++ [3]) :=
  ⟨⟨by decide, rfl, rfl, rfl, rfl⟩,
    ((sibling_list_well_formed exampleHelpers exampleHeap 100 [1] [3] 2 4
      ⟨by decide, rfl, rfl, rfl, rfl⟩).1 rfl rfl).1,
    (sibling_list_well_formed exampleHelpers exampleHeap 100 [1] [3] 2 4
      ⟨by decide, rfl, rfl, rfl, rfl⟩).2.1.1⟩

/-! ## Traversal of an expression tree -/

theorem visitFrom_succ (fuel : Nat) (pos : Position) (visited : List Position) :
    visitFrom (fuel + 1) pos visited = visitAfter fuel pos (visited ++ [pos]) := by
  obtain ⟨expr, frames⟩ := pos
  cases frames with
  | nil => rfl
  | cons frame up => rfl

theorem visitAfter_label (m : Nat) (e : Ast) (up : List Frame) (v : List Position) :
    visitAfter m (e, .label :: up) v = visitFrom m (.GotoStmt (some e), up) v := rfl

theorem visitAfter_actual (m : Nat) (e : Ast) (up : List Frame) (v : List Position) :
    visitAfter m (e, .actual :: up) v = visitFrom m (.NamedExpr (some e), up) v := rfl

theorem visitAfter_condExpr (m : Nat) (e th : Ast) (el : Option Ast) (up : List Frame)
    (v : List Position) :
    visitAfter m (e, .condExpr (some th) el :: up) v
      = visitFrom m (getFirstExpr th (.thenStmt (some e) el :: up)) v := rfl

theorem visitAfter_thenStmt (m : Nat) (e el : Ast) (c : Option Ast) (up : List Frame)
    (v : List Position) :
    visitAfter m (e, .thenStmt c (some el) :: up) v
      = visitFrom m (getFirstExpr el (.elseStmt c (some e) :: up)) v := rfl

theorem visitAfter_thenStmt_last (m : Nat) (e : Ast) (c : Option Ast) (up : List Frame)
    (v : List Position) :
    visitAfter m (e, .thenStmt c none :: up) v
      = visitFrom m (.CondStmt c (some e) none, up) v := rfl

theorem visitAfter_elseStmt (m : Nat) (e : Ast) (c th : Option Ast) (up : List Frame)
    (v : List Position) :
    visitAfter m (e, .elseStmt c th :: up) v
      = visitFrom m (.CondStmt c th (some e), up) v := rfl

theorem visitAfter_blockInfo (m : Nat) (e x : Ast) (xs : List Ast) (up : List Frame)
    (v : List Position) :
    visitAfter m (e, .blockInfo (x :: xs) :: up) v
      = visitFrom m (getFirstExpr x (.body (some e) [] xs :: up)) v := rfl

theorem visitAfter_blockInfo_last (m : Nat) (e : Ast) (up : List Frame) (v : List Position) :
    visitAfter m (e, .blockInfo [] :: up) v = visitFrom m (.BlockStmt (some e) [], up) v := rfl

theorem visitAfter_baseExpr (m : Nat) (e x : Ast) (xs : List Ast) (up : List Frame)
    (v : List Position) :
    visitAfter m (e, .baseExpr (x :: xs) :: up) v
      = visitFrom m (getFirstExpr x (.argList (some e) [] xs :: up)) v := rfl

theorem visitAfter_baseExpr_last (m : Nat) (e : Ast) (up : List Frame) (v : List Position) :
    visitAfter m (e, .baseExpr [] :: up) v = visitFrom m (.CallExpr (some e) [], up) v := rfl

theorem Ast.size_pos (t : Ast) : 0 < t.size := by
  cases t <;> simp [Ast.size]

theorem Ast.size_le_sizeList (l : List Ast) (e : Ast) (he : e ∈ l) :
    e.size ≤ Ast.sizeList l := by
  induction l with
  | nil => cases he
  | cons x rest ih =>
    simp only [Ast.sizeList]
    rcases List.mem_cons.mp he with rfl | h
    · omega
    · have := ih h
      omega

theorem Ast.wellFormed_of_mem (l : List Ast) (hl : Ast.wellFormedList l = true) (e : Ast)
    (he : e ∈ l) : e.wellFormed = true := by
  induction l with
  | nil => cases he
  | cons x rest ih =>
    simp only [Ast.wellFormedList, Bool.and_eq_true] at hl
    rcases List.mem_cons.mp he with rfl | h
    · exact hl.1
    · exact ih hl.2 h

/-- The visit of the members of a list from the member `e`, given the visit of
the subtree of each member. -/
theorem visit_list (place : List Ast → List Ast → Frame) (mkParent : List Ast → Ast)
    (fs : List Frame) (n : Nat)
    (hparent : ∀ (b : List Ast) (x : Ast), parentExpr (place b []) x = mkParent (b ++ [x]))
    (hnext : ∀ (b : List Ast) (x y : Ast) (a : List Ast),
      getNextExpr (x, place b (y :: a) :: fs) = some (getFirstExpr y (place (b ++ [x]) a :: fs)))
    (hlast : ∀ (b : List Ast) (x : Ast),
      getNextExpr (x, place b [] :: fs) = some (parentExpr (place b []) x, fs)) :
    ∀ (xs : List Ast) (e : Ast) (before : List Ast) (acc : List Position),
      (∀ t ∈ e :: xs, ∀ (frames : List Frame) (m : Nat) (visited : List Position),
        visitFrom (m + t.size) (getFirstExpr t frames) visited
          = visitAfter m (t, frames) (visited ++ postorder t frames)) →
      visitFrom (n + 1 + Ast.sizeList (e :: xs)) (getFirstExpr e (place before xs :: fs)) acc
        = visitFrom (n + 1) (mkParent (before ++ e :: xs), fs)
            (acc ++ postorderList place before (e :: xs) fs) := by
  intro xs
  induction xs with
  | nil =>
    intro e before acc ih
    have h1 := ih e (List.mem_cons_self _ _) (place before [] :: fs) (n + 1) acc
    have e1 : n + 1 + Ast.sizeList [e] = n + 1 + e.size := by simp [Ast.sizeList]
    rw [e1, h1]
    simp only [visitAfter, hlast, hparent, postorderList, List.append_nil]
  | cons e2 xs2 ihl =>
    intro e before acc ih
    have h1 := ih e (List.mem_cons_self _ _) (place before (e2 :: xs2) :: fs)
      (n + 1 + Ast.sizeList (e2 :: xs2)) acc
    have e1 : n + 1 + Ast.sizeList (e :: e2 :: xs2)
        = n + 1 + Ast.sizeList (e2 :: xs2) + e.size := by
      simp only [Ast.sizeList]
      omega
    rw [e1, h1]
    simp only [visitAfter, hnext]
    rw [ihl e2 (before ++ [e]) _ (fun t ht => ih t (List.mem_cons_of_mem _ ht))]
    simp only [postorderList, List.append_assoc, List.singleton_append]

theorem visit_tree (k : Nat) :
    ∀ (t : Ast), t.size ≤ k → t.wellFormed = true →
      ∀ (fs : List Frame) (n : Nat) (acc : List Position),
        visitFrom (n + t.size) (getFirstExpr t fs) acc
          = visitAfter n (t, fs) (acc ++ postorder t fs) := by
  induction k with
  | zero =>
    intro t ht
    have := Ast.size_pos t
    omega
  | succ k ih =>
    intro t ht hwf fs n acc
    have hlist : ∀ (l : List Ast), Ast.sizeList l ≤ k → Ast.wellFormedList l = true →
        ∀ e ∈ l, ∀ (frames : List Frame) (m : Nat) (visited : List Position),
          visitFrom (m + e.size) (getFirstExpr e frames) visited
            = visitAfter m (e, frames) (visited ++ postorder e frames) :=
      fun l hl hw e he =>
        ih e (le_trans (Ast.size_le_sizeList l e he) hl) (Ast.wellFormed_of_mem l hw e he)
    cases t with
    | SymExpr id => exact visitFrom_succ n _ acc
    | UnresolvedSymExpr id => exact visitFrom_succ n _ acc
    | DefExpr id => exact visitFrom_succ n _ acc
    | GotoStmt label =>
      cases label with
      | none => exact visitFrom_succ n _ acc
      | some l =>
        simp only [Ast.size, Ast.sizeOption] at ht
        simp only [Ast.wellFormed, Ast.wellFormedOption] at hwf
        have h1 := ih l (by omega) hwf (.label :: fs) (n + 1) acc
        have e1 : n + (Ast.GotoStmt (some l)).size = n + 1 + l.size := by
          simp only [Ast.size, Ast.sizeOption]
          omega
        rw [e1, getFirstExpr, h1, visitAfter_label, visitFrom_succ]
        simp only [postorder, postorderOption, List.append_assoc]
    | NamedExpr actual =>
      cases actual with
      | none => exact visitFrom_succ n _ acc
      | some l =>
        simp only [Ast.size, Ast.sizeOption] at ht
        simp only [Ast.wellFormed, Ast.wellFormedOption] at hwf
        have h1 := ih l (by omega) hwf (.actual :: fs) (n + 1) acc
        have e1 : n + (Ast.NamedExpr (some l)).size = n + 1 + l.size := by
          simp only [Ast.size, Ast.sizeOption]
          omega
        rw [e1, getFirstExpr, h1, visitAfter_actual, visitFrom_succ]
        simp only [postorder, postorderOption, List.append_assoc]
    | CondStmt condExpr thenStmt elseStmt =>
      cases condExpr with
      | none => simp [Ast.wellFormed] at hwf
      | some c =>
        cases thenStmt with
        | none => simp [Ast.wellFormed] at hwf
        | some th =>
          simp only [Ast.wellFormed, Ast.wellFormedOption, Option.isSome_some, Bool.true_and,
            Bool.and_eq_true] at hwf
          cases elseStmt with
          | none =>
            simp only [Ast.size, Ast.sizeOption] at ht
            have h1 := ih c (by omega) hwf.1.1 (.condExpr (some th) none :: fs)
              (n + 1 + th.size) acc
            have e1 : n + (Ast.CondStmt (some c) (some th) none).size
                = n + 1 + th.size + c.size := by
              simp only [Ast.size, Ast.sizeOption]
              omega
            rw [e1, getFirstExpr, h1, visitAfter_condExpr,
              ih th (by omega) hwf.1.2 (.thenStmt (some c) none :: fs) (n + 1) _,
              visitAfter_thenStmt_last, visitFrom_succ]
            simp only [postorder, postorderOption, List.append_assoc, List.append_nil]
          | some el =>
            simp only [Ast.size, Ast.sizeOption] at ht
            have h1 := ih c (by omega) hwf.1.1 (.condExpr (some th) (some el) :: fs)
              (n + 1 + el.size + th.size) acc
            have e1 : n + (Ast.CondStmt (some c) (some th) (some el)).size
                = n + 1 + el.size + th.size + c.size := by
              simp only [Ast.size, Ast.sizeOption]
              omega
            rw [e1, getFirstExpr, h1, visitAfter_condExpr,
              ih th (by omega) hwf.1.2 (.thenStmt (some c) (some el) :: fs) (n + 1 + el.size) _,
              visitAfter_thenStmt,
              ih el (by omega) hwf.2 (.elseStmt (some c) (some th) :: fs) (n + 1) _,
              visitAfter_elseStmt, visitFrom_succ]
            simp only [postorder, postorderOption, List.append_assoc]
    | BlockStmt blockInfo body =>
      simp only [Ast.wellFormed, Bool.and_eq_true] at hwf
      simp only [Ast.size] at ht
      have hl := hlist body (by omega) hwf.2
      have hvl := visit_list (Frame.body blockInfo) (Ast.BlockStmt blockInfo) fs n
        (fun b x => rfl) (fun b x y a => rfl) (fun b x => rfl)
      cases blockInfo with
      | none =>
        cases body with
        | nil => exact visitFrom_succ n _ acc
        | cons e xs =>
          have e1 : n + (Ast.BlockStmt none (e :: xs)).size
              = n + 1 + Ast.sizeList (e :: xs) := by
            simp only [Ast.size, Ast.sizeOption]
            omega
          rw [e1, getFirstExpr, hvl xs e [] acc hl, visitFrom_succ]
          simp only [postorder, postorderOption, List.nil_append, List.append_assoc]
      | some bi =>
        simp only [Ast.sizeOption] at ht
        simp only [Ast.wellFormedOption] at hwf
        cases body with
        | nil =>
          have h1 := ih bi (by omega) hwf.1 (.blockInfo [] :: fs) (n + 1) acc
          have e1 : n + (Ast.BlockStmt (some bi) []).size = n + 1 + bi.size := by
            simp only [Ast.size, Ast.sizeOption, Ast.sizeList]
            omega
          rw [e1, getFirstExpr, h1, visitAfter_blockInfo_last, visitFrom_succ]
          simp only [postorder, postorderOption, postorderList, List.append_assoc,
            List.append_nil]
        | cons e xs =>
          have h1 := ih bi (by omega) hwf.1 (.blockInfo (e :: xs) :: fs)
            (n + 1 + Ast.sizeList (e :: xs)) acc
          have e1 : n + (Ast.BlockStmt (some bi) (e :: xs)).size
              = n + 1 + Ast.sizeList (e :: xs) + bi.size := by
            simp only [Ast.size, Ast.sizeOption]
            omega
          rw [e1, getFirstExpr, h1, visitAfter_blockInfo, hvl xs e [] _ hl, visitFrom_succ]
          simp only [postorder, postorderOption, List.nil_append, List.append_assoc]
    | CallExpr baseExpr argList =>
      simp only [Ast.wellFormed, Bool.and_eq_true] at hwf
      simp only [Ast.size] at ht
      have hl := hlist argList (by omega) hwf.2
      have hvl := visit_list (Frame.argList baseExpr) (Ast.CallExpr baseExpr) fs n
        (fun b x => rfl) (fun b x y a => rfl) (fun b x => rfl)
      cases baseExpr with
      | none =>
        cases argList with
        | nil => exact visitFrom_succ n _ acc
        | cons e xs =>
          have e1 : n + (Ast.CallExpr none (e :: xs)).size
              = n + 1 + Ast.sizeList (e :: xs) := by
            simp only [Ast.size, Ast.sizeOption]
            omega
          rw [e1, getFirstExpr, hvl xs e [] acc hl, visitFrom_succ]
          simp only [postorder, postorderOption, List.nil_append, List.append_assoc]
      | some bi =>
        simp only [Ast.sizeOption] at ht
        simp only [Ast.wellFormedOption] at hwf
        cases argList with
        | nil =>
          have h1 := ih bi (by omega) hwf.1 (.baseExpr [] :: fs) (n + 1) acc
          have e1 : n + (Ast.CallExpr (some bi) []).size = n + 1 + bi.size := by
            simp only [Ast.size, Ast.sizeOption, Ast.sizeList]
            omega
          rw [e1, getFirstExpr, h1, visitAfter_baseExpr_last, visitFrom_succ]
          simp only [postorder, postorderOption, postorderList, List.append_assoc,
            List.append_nil]
        | cons e xs =>
          have h1 := ih bi (by omega) hwf.1 (.baseExpr (e :: xs) :: fs)
            (n + 1 + Ast.sizeList (e :: xs)) acc
          have e1 : n + (Ast.CallExpr (some bi) (e :: xs)).size
              = n + 1 + Ast.sizeList (e :: xs) + bi.size := by
            simp only [Ast.size, Ast.sizeOption]
            omega
          rw [e1, getFirstExpr, h1, visitAfter_baseExpr, hvl xs e [] _ hl, visitFrom_succ]
          simp only [postorder, postorderOption, List.nil_append, List.append_assoc]

theorem postorderList_length (place : List Ast → List Ast → Frame) (fs : List Frame) :
    ∀ (l before : List Ast),
      (∀ t ∈ l, ∀ frames : List Frame, (postorder t frames).length = t.size) →
      (postorderList place before l fs).length = Ast.sizeList l := by
  intro l
  induction l with
  | nil => intro before _; rfl
  | cons e rest ih =>
    intro before h
    simp only [postorderList, List.length_append, Ast.sizeList,
      h e (List.mem_cons_self _ _), ih (before ++ [e]) (fun t ht => h t (List.mem_cons_of_mem _ ht))]

theorem postorder_length (k : Nat) :
    ∀ (t : Ast), t.size ≤ k → ∀ fs : List Frame, (postorder t fs).length = t.size := by
  induction k with
  | zero =>
    intro t ht
    have := Ast.size_pos t
    omega
  | succ k ih =>
    intro t ht fs
    have hopt : ∀ (o : Option Ast), Ast.sizeOption o ≤ k → ∀ frames : List Frame,
        (postorderOption o frames).length = Ast.sizeOption o := by
      intro o ho frames
      cases o with
      | none => rfl
      | some e => exact ih e ho frames
    have hlist : ∀ (l : List Ast), Ast.sizeList l ≤ k →
        ∀ (place : List Ast → List Ast → Frame) (before : List Ast),
          (postorderList place before l fs).length = Ast.sizeList l :=
      fun l hl place before => postorderList_length place fs l before
        (fun t h1 => ih t (le_trans (Ast.size_le_sizeList l t h1) hl))
    cases t with
    | SymExpr id => rfl
    | UnresolvedSymExpr id => rfl
    | DefExpr id => rfl
    | GotoStmt label =>
      simp only [Ast.size] at ht
      simp only [postorder, List.length_append, List.length_singleton, Ast.size,
        hopt label (by omega)]
      omega
    | NamedExpr actual =>
      simp only [Ast.size] at ht
      simp only [postorder, List.length_append, List.length_singleton, Ast.size,
        hopt actual (by omega)]
      omega
    | CondStmt condExpr thenStmt elseStmt =>
      simp only [Ast.size] at ht
      simp only [postorder, List.length_append, List.length_singleton, Ast.size,
        hopt condExpr (by omega), hopt thenStmt (by omega), hopt elseStmt (by omega)]
      omega
    | BlockStmt blockInfo body =>
      simp only [Ast.size] at ht
      simp only [postorder, List.length_append, List.length_singleton, Ast.size,
        hopt blockInfo (by omega), hlist body (by omega)]
      omega
    | CallExpr baseExpr argList =>
      simp only [Ast.size] at ht
      simp only [postorder, List.length_append, List.length_singleton, Ast.size,
        hopt baseExpr (by omega), hlist argList (by omega)]
      omega

theorem postorder_getLast (t : Ast) (fs : List Frame) :
    (postorder t fs).getLast? = some (t, fs) := by
  cases t <;> simp [postorder]


theorem under_unique (f g : Frame) (fs pre pre2 : List Frame)
    (h : pre ++ f :: fs = pre2 ++ g :: fs) : f = g := by
  have := (List.append_inj' h (by simp)).2
  simp only [List.cons.injEq, and_true] at this
  exact this

theorem not_under_self (f : Frame) (fs pre : List Frame) : fs ≠ pre ++ f :: fs := by
  intro h
  have := congrArg List.length h
  simp only [List.length_append, List.length_cons] at this
  omega

/-- The positions of the post-order of a list are pairwise distinct and lie
below places of the list that are not before `before`. -/
theorem postorderList_nodup (place : List Ast → List Ast → Frame) (fs : List Frame)
    (hinj : ∀ (b a b2 a2 : List Ast), place b a = place b2 a2 → b = b2) :
    ∀ (l before : List Ast),
      (∀ t ∈ l, ∀ frames : List Frame, (postorder t frames).Nodup ∧
        ∀ p ∈ postorder t frames, ∃ pre, p.2 = pre ++ frames) →
      (postorderList place before l fs).Nodup ∧
        ∀ p ∈ postorderList place before l fs,
          ∃ pre b a, p.2 = pre ++ place b a :: fs ∧ before.length ≤ b.length := by
  intro l
  induction l with
  | nil =>
    intro before _
    simp [postorderList]
  | cons e rest ih =>
    intro before h
    obtain ⟨hn1, hu1⟩ := h e (List.mem_cons_self _ _) (place before rest :: fs)
    obtain ⟨hn2, hu2⟩ := ih (before ++ [e]) (fun t ht => h t (List.mem_cons_of_mem _ ht))
    constructor
    · simp only [postorderList]
      rw [List.nodup_append]
      refine ⟨hn1, hn2, ?_⟩
      intro p hp1 hp2
      obtain ⟨pre, e1⟩ := hu1 p hp1
      obtain ⟨pre2, b, a, e2, hb⟩ := hu2 p hp2
      rw [e1] at e2
      have := hinj _ _ _ _ (under_unique _ _ fs pre pre2 e2)
      rw [← this] at hb
      simp only [List.length_append, List.length_singleton] at hb
      omega
    · intro p hp
      simp only [postorderList, List.mem_append] at hp
      rcases hp with hp | hp
      · obtain ⟨pre, e1⟩ := hu1 p hp
        exact ⟨pre, before, rest, e1, le_refl _⟩
      · obtain ⟨pre2, b, a, e2, hb⟩ := hu2 p hp
        refine ⟨pre2, b, a, e2, ?_⟩
        simp only [List.length_append, List.length_singleton] at hb
        omega

theorem postorder_nodup (k : Nat) :
    ∀ (t : Ast), t.size ≤ k → ∀ fs : List Frame, (postorder t fs).Nodup ∧
      ∀ p ∈ postorder t fs, ∃ pre, p.2 = pre ++ fs := by
  induction k with
  | zero =>
    intro t ht
    have := Ast.size_pos t
    omega
  | succ k ih =>
    intro t ht fs
    have hopt : ∀ (o : Option Ast), Ast.sizeOption o ≤ k → ∀ (f : Frame),
        (postorderOption o (f :: fs)).Nodup ∧
          ∀ p ∈ postorderOption o (f :: fs), ∃ pre, p.2 = pre ++ f :: fs := by
      intro o ho f
      cases o with
      | none => simp [postorderOption]
      | some e => exact ih e ho (f :: fs)
    have hlist : ∀ (l : List Ast), Ast.sizeList l ≤ k →
        ∀ (place : List Ast → List Ast → Frame),
          (∀ (b a b2 a2 : List Ast), place b a = place b2 a2 → b = b2) →
          (postorderList place [] l fs).Nodup ∧
            ∀ p ∈ postorderList place [] l fs,
              ∃ pre b a, p.2 = pre ++ place b a :: fs ∧ ([] : List Ast).length ≤ b.length :=
      fun l hl place hinj => postorderList_nodup place fs hinj l []
        (fun t h1 => ih t (le_trans (Ast.size_le_sizeList l t h1) hl))
    have hself : ∀ (x : Ast) (l : List Position),
        l.Nodup → (∀ p ∈ l, ∃ pre f, p.2 = pre ++ f :: fs) →
        (l ++ [(x, fs)]).Nodup ∧ ∀ p ∈ l ++ [(x, fs)], ∃ pre, p.2 = pre ++ fs := by
      intro x l hn hu
      constructor
      · rw [List.nodup_append]
        refine ⟨hn, List.nodup_singleton _, ?_⟩
        intro p hp hp2
        obtain ⟨pre, f, e1⟩ := hu p hp
        simp only [List.mem_singleton] at hp2
        rw [hp2] at e1
        exact not_under_self f fs pre e1
      · intro p hp
        rcases List.mem_append.mp hp with hp | hp
        · obtain ⟨pre, f, e1⟩ := hu p hp
          exact ⟨pre ++ [f], by simp [e1]⟩
        · simp only [List.mem_singleton] at hp
          exact ⟨[], by simp [hp]⟩
    cases t with
    | SymExpr id => exact hself _ [] List.nodup_nil (fun p hp => by cases hp)
    | UnresolvedSymExpr id => exact hself _ [] List.nodup_nil (fun p hp => by cases hp)
    | DefExpr id => exact hself _ [] List.nodup_nil (fun p hp => by cases hp)
    | GotoStmt label =>
      simp only [Ast.size] at ht
      obtain ⟨hn, hu⟩ := hopt label (by omega) .label
      exact hself _ _ hn (fun p hp => by
        obtain ⟨pre, e1⟩ := hu p hp
        exact ⟨pre, _, e1⟩)
    | NamedExpr actual =>
      simp only [Ast.size] at ht
      obtain ⟨hn, hu⟩ := hopt actual (by omega) .actual
      exact hself _ _ hn (fun p hp => by
        obtain ⟨pre, e1⟩ := hu p hp
        exact ⟨pre, _, e1⟩)
    | CondStmt condExpr thenStmt elseStmt =>
      simp only [Ast.size] at ht
      obtain ⟨hn1, hu1⟩ := hopt condExpr (by omega) (.condExpr thenStmt elseStmt)
      obtain ⟨hn2, hu2⟩ := hopt thenStmt (by omega) (.thenStmt condExpr elseStmt)
      obtain ⟨hn3, hu3⟩ := hopt elseStmt (by omega) (.elseStmt condExpr thenStmt)
      refine hself _ _ ?_ ?_
      · rw [List.nodup_append, List.nodup_append]
        refine ⟨⟨hn1, hn2, ?_⟩, hn3, ?_⟩
        · intro p hp1 hp2
          obtain ⟨pre, e1⟩ := hu1 p hp1
          obtain ⟨pre2, e2⟩ := hu2 p hp2
          rw [e1] at e2
          have := under_unique _ _ fs pre pre2 e2
          cases this
        · intro p hp1 hp3
          obtain ⟨pre3, e3⟩ := hu3 p hp3
          rcases List.mem_append.mp hp1 with hp | hp
          · obtain ⟨pre, e1⟩ := hu1 p hp
            rw [e1] at e3
            have := under_unique _ _ fs pre pre3 e3
            cases this
          · obtain ⟨pre, e1⟩ := hu2 p hp
            rw [e1] at e3
            have := under_unique _ _ fs pre pre3 e3
            cases this
      · intro p hp
        simp only [List.mem_append] at hp
        rcases hp with (hp | hp) | hp
        · obtain ⟨pre, e1⟩ := hu1 p hp
          exact ⟨pre, _, e1⟩
        · obtain ⟨pre, e1⟩ := hu2 p hp
          exact ⟨pre, _, e1⟩
        · obtain ⟨pre, e1⟩ := hu3 p hp
          exact ⟨pre, _, e1⟩
    | BlockStmt blockInfo body =>
      simp only [Ast.size] at ht
      obtain ⟨hn1, hu1⟩ := hopt blockInfo (by omega) (.blockInfo body)
      obtain ⟨hn2, hu2⟩ := hlist body (by omega) (Frame.body blockInfo)
        (fun b a b2 a2 h => by
          simp only [Frame.body.injEq] at h
          exact h.2.1)
      refine hself _ _ ?_ ?_
      · rw [List.nodup_append]
        refine ⟨hn1, hn2, ?_⟩
        intro p hp1 hp2
        obtain ⟨pre, e1⟩ := hu1 p hp1
        obtain ⟨pre2, b, a, e2, _⟩ := hu2 p hp2
        rw [e1] at e2
        have := under_unique _ _ fs pre pre2 e2
        cases this
      · intro p hp
        rcases List.mem_append.mp hp with hp | hp
        · obtain ⟨pre, e1⟩ := hu1 p hp
          exact ⟨pre, _, e1⟩
        · obtain ⟨pre2, b, a, e2, _⟩ := hu2 p hp
          exact ⟨pre2, _, e2⟩
    | CallExpr baseExpr argList =>
      simp only [Ast.size] at ht
      obtain ⟨hn1, hu1⟩ := hopt baseExpr (by omega) (.baseExpr argList)
      obtain ⟨hn2, hu2⟩ := hlist argList (by omega) (Frame.argList baseExpr)
        (fun b a b2 a2 h => by
          simp only [Frame.argList.injEq] at h
          exact h.2.1)
      refine hself _ _ ?_ ?_
      · rw [List.nodup_append]
        refine ⟨hn1, hn2, ?_⟩
        intro p hp1 hp2
        obtain ⟨pre, e1⟩ := hu1 p hp1
        obtain ⟨pre2, b, a, e2, _⟩ := hu2 p hp2
        rw [e1] at e2
        have := under_unique _ _ fs pre pre2 e2
        cases this
      · intro p hp
        rcases List.mem_append.mp hp with hp | hp
        · obtain ⟨pre, e1⟩ := hu1 p hp
          exact ⟨pre, _, e1⟩
        · obtain ⟨pre2, b, a, e2, _⟩ := hu2 p hp
          exact ⟨pre2, _, e2⟩

/-- C27: for a tree with the root `r` in which every `CondStmt` has a `condExpr`
and a `thenStmt`, the loop that starts at `getFirstExpr(r)` and applies
`getNextExpr` until `r` is reached ends, and the expressions that it visits are
the expressions of the tree in post-order, `DefExpr`, `SymExpr` and
`UnresolvedSymExpr` being leaves: each expression after its children, in the
order of the fields and of the lists, and `r` last; no position is visited
twice, and the number of visits is the number of expressions of the tree. -/
theorem traversal_is_postorder (r : Ast) (fuel : Nat) (hwf : r.wellFormed = true)
    (hfuel : r.size ≤ fuel) :
    traversal fuel r = some (postorder r []) ∧ (postorder r []).Nodup ∧
      (postorder r []).length = r.size ∧ (postorder r []).getLast? = some (r, []) := by
  refine ⟨?_, (postorder_nodup r.size r (le_refl _) []).1,
    postorder_length r.size r (le_refl _) [], postorder_getLast r []⟩
  obtain ⟨n, rfl⟩ : ∃ n, fuel = n + r.size := ⟨fuel - r.size, by omega⟩
  unfold traversal
  rw [visit_tree r.size r (le_refl _) hwf [] n []]
  rfl

theorem traversal_is_postorder_witness :
    traversal 12 exampleTree
      = some (postorder exampleTree []) ∧
    (postorder exampleTree []).map Prod.fst
      = [.SymExpr 1, .SymExpr 2, .SymExpr 3, .SymExpr 4, .NamedExpr (some (.SymExpr 4)),
          .CallExpr (some (.SymExpr 2)) [.SymExpr 3, .NamedExpr (some (.SymExpr 4))],
          .DefExpr 5, .SymExpr 6, .GotoStmt (some (.SymExpr 6)),
          .BlockStmt none [.DefExpr 5, .GotoStmt (some (.SymExpr 6))], exampleTree] :=
  ⟨(traversal_is_postorder exampleTree 12 rfl (by decide)).1, rfl⟩

/-! ## Independence of the order of the candidates -/

theorem verdictChain_swap (tests : List (Bool × Bool)) :
    verdictChain (tests.map Prod.swap) = .firstBetter → verdictChain tests = .secondBetter := by
  induction tests with
  | nil => simp [verdictChain]
  | cons t rest ih =>
    obtain ⟨second, first⟩ := t
    simp only [List.map_cons, Prod.swap, verdictChain]
    cases second <;> cases first <;> simp
    exact ih

theorem compareFormal_eq_chain (best : FnSymbol) (a : Actual) (arg arg2 : ArgSymbol) :
    compareFormal best a arg arg2 =
      if arg.type.same arg2.type && arg.instantiatedParam && !arg2.instantiatedParam then
        .firstBetter
      else if arg.type.same arg2.type && !arg.instantiatedParam && arg2.instantiatedParam then
        .secondBetter
      else verdictChain (formalTests best a arg arg2) := by
  rfl

theorem formalTests_swap (best best2 : FnSymbol) (hname : best.name = best2.name)
    (a : Actual) (arg arg2 : ArgSymbol) :
    formalTests best2 a arg2 arg = (formalTests best a arg arg2).map Prod.swap := by
  have hn := notAssign_of_same_name best2 best hname.symm
  simp only [formalTests, List.map_cons, List.map_nil, Prod.swap,
    canDispatch_congr_fn a.type a.param arg2.type (some best2) (some best) hn,
    canDispatch_congr_fn a.type a.param arg.type (some best2) (some best) hn,
    moreSpecific_congr_fn best2 best hname.symm, same_comm arg.type arg2.type]
  simp [Bool.and_comm]

theorem compareFormal_swap (best best2 : FnSymbol) (hname : best.name = best2.name)
    (a : Actual) (arg arg2 : ArgSymbol)
    (h : compareFormal best2 a arg2 arg = .firstBetter) :
    compareFormal best a arg arg2 = .secondBetter := by
  rw [compareFormal_eq_chain, formalTests_swap best best2 hname, same_comm arg2.type arg.type]
    at h
  rw [compareFormal_eq_chain]
  generalize formalTests best a arg arg2 = tests at h ⊢
  have hc := verdictChain_swap tests
  generalize verdictChain (tests.map Prod.swap) = v' at h hc
  generalize verdictChain tests = v at hc ⊢
  generalize arg.type.same arg2.type = s at h ⊢
  generalize arg.instantiatedParam = p1 at h ⊢
  generalize arg2.instantiatedParam = p2 at h ⊢
  cases s <;> cases p1 <;> cases p2 <;> simp at h ⊢ <;> exact hc h

theorem verdicts_swap (best best2 : FnSymbol) (hname : best.name = best2.name) :
    ∀ (actuals : List Actual) (afs afs2 : List ArgSymbol),
      atLeastAsGoodEverywhere (verdicts best2 actuals afs2 afs) = false →
      strictlyBetterSomewhere (verdicts best actuals afs afs2) = true := by
  intro actuals
  induction actuals with
  | nil => intro afs afs2 h; simp [verdicts, atLeastAsGoodEverywhere] at h
  | cons a rest ih =>
    intro afs afs2 h
    cases afs with
    | nil => cases afs2 <;> simp [verdicts, atLeastAsGoodEverywhere] at h
    | cons arg afs =>
      cases afs2 with
      | nil => simp [verdicts, atLeastAsGoodEverywhere] at h
      | cons arg2 afs2 =>
        simp only [verdicts, atLeastAsGoodEverywhere, List.all_cons, Bool.and_eq_false_iff]
          at h
        simp only [verdicts, strictlyBetterSomewhere, List.any_cons, Bool.or_eq_true]
        rcases h with h | h
        · left
          have hv : compareFormal best2 a arg2 arg = .firstBetter := by
            cases hc : compareFormal best2 a arg2 arg <;> simp [hc] at h ⊢
          rw [compareFormal_swap best best2 hname a arg arg2 hv]
          rfl
        · right
          exact ih afs afs2 h

theorem beats_antisymm (actuals : List Actual) (fn fn2 : FnSymbol) (afs afs2 : List ArgSymbol)
    (hname : fn.name = fn2.name) (h : beats actuals fn afs (some fn2, afs2) = false) :
    beats actuals fn2 afs2 (some fn, afs) = true := by
  simp only [beats, Option.isSome_some, Bool.true_and, Bool.or_eq_false_iff] at h
  simp only [beats, Option.isSome_some, Bool.true_and, Bool.or_eq_true]
  right
  cases hg : atLeastAsGoodEverywhere (verdicts fn2 actuals afs2 afs)
  · have := verdicts_swap fn fn2 hname actuals afs afs2 hg
    rw [h.1] at this
    cases this
  · rfl

theorem any_enumFrom_of_lt (g : Candidate → Bool) (i : Nat) :
    ∀ (l : List Candidate) (n : Nat), n + l.length ≤ i →
      (l.enumFrom n).any (fun jB => decide (jB.1 ≠ i) && g jB.2) = l.any g := by
  intro l
  induction l with
  | nil => intro n _; rfl
  | cons c rest ih =>
    intro n h
    simp only [List.length_cons] at h
    have hn : n ≠ i := by omega
    simp only [List.enumFrom_cons, List.any_cons, ih (n + 1) (by omega), hn, ne_eq,
      not_false_eq_true, decide_True, Bool.true_and]

theorem any_enumFrom_of_gt (g : Candidate → Bool) (i : Nat) :
    ∀ (l : List Candidate) (n : Nat), i < n →
      (l.enumFrom n).any (fun jB => decide (jB.1 ≠ i) && g jB.2) = l.any g := by
  intro l
  induction l with
  | nil => intro n _; rfl
  | cons c rest ih =>
    intro n h
    have hn : n ≠ i := by omega
    simp only [List.enumFrom_cons, List.any_cons, ih (n + 1) (by omega), hn, ne_eq,
      not_false_eq_true, decide_True, Bool.true_and]

theorem codeDiscarded_middle (actuals : List Actual) (fn : FnSymbol) (afs : List ArgSymbol)
    (l1 l2 : List Candidate) (c : Candidate) :
    codeDiscarded (l1 ++ c :: l2) actuals l1.length fn afs
      = (l1 ++ l2).any (beats actuals fn afs) := by
  have hb : ∀ jB : Nat × Candidate,
      (decide (jB.1 ≠ l1.length) && jB.2.1.isSome &&
        (strictlyBetterSomewhere (verdicts fn actuals afs jB.2.2) ||
          atLeastAsGoodEverywhere (verdicts fn actuals afs jB.2.2)))
      = (decide (jB.1 ≠ l1.length) && beats actuals fn afs jB.2) := by
    intro jB
    simp [beats, Bool.and_assoc]
  unfold codeDiscarded
  simp only [hb, List.enum, List.enumFrom_append, List.any_append, List.enumFrom_cons,
    List.any_cons, Nat.zero_add, ne_eq, not_true_eq_false, decide_False, Bool.false_and,
    Bool.false_or]
  rw [any_enumFrom_of_lt (beats actuals fn afs) l1.length l1 0 (by omega),
    any_enumFrom_of_gt (beats actuals fn afs) l1.length l2 (l1.length + 1) (by omega)]

theorem split_at_index (l : List Candidate) (i : Nat) (c : Candidate) (h : l[i]? = some c) :
    ∃ l1 l2, l = l1 ++ c :: l2 ∧ l1.length = i := by
  induction l generalizing i with
  | nil => simp at h
  | cons d rest ih =>
    cases i with
    | zero =>
      simp only [List.getElem?_cons_zero, Option.some.injEq] at h
      exact ⟨[], rest, by simp [h], rfl⟩
    | succ i =>
      simp only [List.getElem?_cons_succ] at h
      obtain ⟨l1, l2, h1, h2⟩ := ih i h
      exact ⟨d :: l1, l2, by simp [h1], by simp [h2]⟩

theorem getElem?_middle (l1 l2 : List Candidate) (c : Candidate) :
    (l1 ++ c :: l2)[l1.length]? = some c := by
  rw [List.getElem?_append_right (le_refl _)]
  simp

theorem undiscarded_perm (actuals : List Actual) (fn : FnSymbol) (afs : List ArgSymbol)
    (l q : List Candidate) (hperm : l.Perm q) (i : Nat)
    (hi : l[i]? = some (some fn, afs)) (hd : codeDiscarded l actuals i fn afs = false) :
    ∃ k, q[k]? = some (some fn, afs) ∧ codeDiscarded q actuals k fn afs = false := by
  obtain ⟨l1, l2, hl, hlen⟩ := split_at_index l i _ hi
  subst hl
  subst hlen
  rw [codeDiscarded_middle] at hd
  have hmem : (some fn, afs) ∈ q := hperm.subset (by simp)
  obtain ⟨q1, q2, hq⟩ := List.append_of_mem hmem
  subst hq
  have hp : (l1 ++ l2).Perm (q1 ++ q2) := by
    have h1 : ((some fn, afs) :: (l1 ++ l2)).Perm ((some fn, afs) :: (q1 ++ q2)) :=
      (List.perm_middle.symm.trans hperm).trans List.perm_middle
    exact h1.cons_inv
  refine ⟨q1.length, getElem?_middle q1 q2 _, ?_⟩
  rw [codeDiscarded_middle]
  cases hq : (q1 ++ q2).any (beats actuals fn afs)
  · rfl
  · rw [List.any_eq_true] at hq
    obtain ⟨d, hdq, hdb⟩ := hq
    have hdl : d ∈ l1 ++ l2 := hp.symm.subset hdq
    have : (l1 ++ l2).any (beats actuals fn afs) = true := List.any_eq_true.mpr ⟨d, hdl, hdb⟩
    rw [hd] at this
    cases this

theorem undiscarded_unique (actuals : List Actual) (name : String) (l : List Candidate)
    (hname : SameName name l) (i j : Nat) (fn fn2 : FnSymbol) (afs afs2 : List ArgSymbol)
    (hi : l[i]? = some (some fn, afs)) (hj : l[j]? = some (some fn2, afs2))
    (hdi : codeDiscarded l actuals i fn afs = false)
    (hdj : codeDiscarded l actuals j fn2 afs2 = false) : i = j := by
  by_contra hne
  obtain ⟨l1, l2, hl, hlen⟩ := split_at_index l i _ hi
  subst hl
  subst hlen
  rw [codeDiscarded_middle] at hdi
  have hn1 : fn.name = name := hname _ (List.getElem?_mem hi) fn rfl
  have hn2 : fn2.name = name := hname _ (List.getElem?_mem hj) fn2 rfl
  have hmem : (some fn2, afs2) ∈ l1 ++ l2 := by
    rcases Nat.lt_or_gt_of_ne hne with hlt | hgt
    · rw [List.getElem?_append_right (by omega)] at hj
      obtain ⟨k, hk⟩ : ∃ k, j - l1.length = k + 1 := ⟨j - l1.length - 1, by omega⟩
      rw [hk, List.getElem?_cons_succ] at hj
      exact List.mem_append_right _ (List.getElem?_mem hj)
    · rw [List.getElem?_append_left hgt] at hj
      exact List.mem_append_left _ (List.getElem?_mem hj)
  have hb1 : beats actuals fn afs (some fn2, afs2) = false := by
    cases hb : beats actuals fn afs (some fn2, afs2)
    · rfl
    · have : (l1 ++ l2).any (beats actuals fn afs) = true :=
        List.any_eq_true.mpr ⟨_, hmem, hb⟩
      rw [hdi] at this
      cases this
  have hb2 := beats_antisymm actuals fn fn2 afs afs2 (hn1.trans hn2.symm) hb1
  obtain ⟨m1, m2, hm, hmlen⟩ := split_at_index _ j _ hj
  have hdj2 := hdj
  rw [hm] at hdj2
  rw [← hmlen, codeDiscarded_middle] at hdj2
  have hmem2 : (some fn, afs) ∈ m1 ++ m2 := by
    have hi2 : (m1 ++ (some fn2, afs2) :: m2)[l1.length]? = some (some fn, afs) := by
      rw [← hm]
      exact hi
    rcases Nat.lt_or_gt_of_ne hne with hlt | hgt
    · rw [List.getElem?_append_left (by omega)] at hi2
      exact List.mem_append_left _ (List.getElem?_mem hi2)
    · rw [List.getElem?_append_right (by omega)] at hi2
      obtain ⟨k, hk⟩ : ∃ k, l1.length - m1.length = k + 1 :=
        ⟨l1.length - m1.length - 1, by omega⟩
      rw [hk, List.getElem?_cons_succ] at hi2
      exact List.mem_append_right _ (List.getElem?_mem hi2)
  have : (m1 ++ m2).any (beats actuals fn2 afs2) = true :=
    List.any_eq_true.mpr ⟨_, hmem2, hb2⟩
  rw [hdj2] at this
  cases this

theorem disambiguate_some_iff (actuals : List Actual) (l : List Candidate) (fn : FnSymbol) :
    (disambiguate_by_match l actuals).1 = some fn →
      ∃ i afs, l[i]? = some (some fn, afs) ∧ codeDiscarded l actuals i fn afs = false := by
  intro h
  unfold disambiguate_by_match at h
  rw [bestFrom_eq_find] at h
  cases hf : List.find? (fun iA : Nat × Candidate =>
      match iA.2.1 with
      | some fn => !codeDiscarded l actuals iA.1 fn iA.2.2
      | none => false) (l.enumFrom 0) with
  | none => rw [hf] at h; simp at h
  | some x =>
    rw [hf] at h
    obtain ⟨k, fnk, afsk⟩ := x
    simp only [Option.some_bind] at h
    subst h
    have hp := List.find?_some hf
    have hm := List.mem_of_find?_eq_some hf
    simp only [Bool.not_eq_true'] at hp
    refine ⟨k, afsk, ?_, hp⟩
    have := List.mk_mem_enum_iff_getElem?.mp hm
    exact this

theorem disambiguate_of_undiscarded (actuals : List Actual) (name : String)
    (l : List Candidate) (hname : SameName name l) (i : Nat) (fn : FnSymbol)
    (afs : List ArgSymbol) (hi : l[i]? = some (some fn, afs))
    (hd : codeDiscarded l actuals i fn afs = false) :
    (disambiguate_by_match l actuals).1 = some fn := by
  unfold disambiguate_by_match
  rw [bestFrom_eq_find]
  cases hf : List.find? (fun iA : Nat × Candidate =>
      match iA.2.1 with
      | some fn => !codeDiscarded l actuals iA.1 fn iA.2.2
      | none => false) (l.enumFrom 0) with
  | none =>
    rw [List.find?_eq_none] at hf
    have hm : (i, (some fn, afs)) ∈ l.enumFrom 0 := List.mk_mem_enum_iff_getElem?.mpr hi
    have := hf _ hm
    simp [hd] at this
  | some x =>
    obtain ⟨k, fnk, afsk⟩ := x
    have hp := List.find?_some hf
    have hm := List.mem_of_find?_eq_some hf
    have hk : l[k]? = some (fnk, afsk) := List.mk_mem_enum_iff_getElem?.mp hm
    cases fnk with
    | none => simp at hp
    | some fn2 =>
      simp only [Bool.not_eq_true'] at hp
      have hik := undiscarded_unique actuals name l hname i k fn fn2 afs afsk hi hk hd hp
      subst hik
      rw [hi] at hk
      simp only [Option.some.injEq, Prod.mk.injEq] at hk
      simp [hk.1]

theorem sameName_perm (name : String) (l q : List Candidate) (hperm : l.Perm q)
    (h : SameName name l) : SameName name q :=
  fun c hc fn hfn => h c (hperm.symm.subset hc) fn hfn

theorem disambiguate_perm_some (actuals : List Actual) (name : String) (l q : List Candidate)
    (hname : SameName name l) (hperm : l.Perm q) (fn : FnSymbol)
    (h : (disambiguate_by_match l actuals).1 = some fn) :
    (disambiguate_by_match q actuals).1 = some fn := by
  obtain ⟨i, afs, hi, hd⟩ := disambiguate_some_iff actuals l fn h
  obtain ⟨k, hk, hdk⟩ := undiscarded_perm actuals fn afs l q hperm i hi hd
  exact disambiguate_of_undiscarded actuals name q (sameName_perm name l q hperm hname) k fn afs
    hk hdk

/-- C28: for candidates that all have one function name, at most one candidate
of the vector is not discarded by `disambiguate_by_match`, and the function
that it returns is the same for every order of the candidates: a function that
is returned for one order is returned for each, and when none is returned for
one order none is returned for any. -/
theorem disambiguate_by_match_order_independent (actuals : List Actual) (name : String)
    (candidates permuted : List Candidate) (hname : SameName name candidates)
    (hperm : candidates.Perm permuted) :
    (disambiguate_by_match permuted actuals).1 = (disambiguate_by_match candidates actuals).1 ∧
    ∀ (i j : Nat) (fn fn2 : FnSymbol) (afs afs2 : List ArgSymbol),
      candidates[i]? = some (some fn, afs) → candidates[j]? = some (some fn2, afs2) →
      codeDiscarded candidates actuals i fn afs = false →
      codeDiscarded candidates actuals j fn2 afs2 = false → i = j := by
  refine ⟨?_, fun i j fn fn2 afs afs2 => undiscarded_unique actuals name candidates hname i j
    fn fn2 afs afs2⟩
  cases h1 : (disambiguate_by_match candidates actuals).1 with
  | some fn => exact disambiguate_perm_some actuals name candidates permuted hname hperm fn h1
  | none =>
    cases h2 : (disambiguate_by_match permuted actuals).1 with
    | none => rfl
    | some fn =>
      have := disambiguate_perm_some actuals name permuted candidates
        (sameName_perm name candidates permuted hperm hname) hperm.symm fn h2
      rw [h1] at this
      cases this

theorem disambiguate_by_match_order_independent_witness :
    (disambiguate_by_match [exampleUnsigned, exampleSigned] exampleCallBool).1
      = (disambiguate_by_match [exampleSigned, exampleUnsigned] exampleCallBool).1 ∧
    (disambiguate_by_match [exampleSigned, exampleUnsigned] exampleCallBool).1
      = some exampleFInt :=
  ⟨(disambiguate_by_match_order_independent exampleCallBool "f"
      [exampleSigned, exampleUnsigned] [exampleUnsigned, exampleSigned]
      (by
        intro c hc fn hfn
        simp only [List.mem_cons, List.mem_singleton, List.not_mem_nil, or_false] at hc
        rcases hc with rfl | rfl
        · simp only [exampleSigned, Option.some.injEq] at hfn
          rw [← hfn]
          rfl
        · simp only [exampleUnsigned, Option.some.injEq] at hfn
          rw [← hfn]
          rfl)
      (List.Perm.swap _ _ _)).1,
    rfl⟩

end Chpl
